import Mathlib

/-!
# portal-signer: a shallow embedding of the request signer

The development follows `packages/portal-gateway/src/portal-signer`:
`crypto_hmac.c` (canonical string, key file, HMAC signature), `signer.c`
(line reader, flat JSON extractor, controller client, connection handler),
`config.c` and `portal-signer.c` (defaults, configuration file, command line).

Conventions of the embedding.

* A C `char` is a `Char`; a C string is the `List Char` of the bytes before its
  terminating NUL, so the end of the list plays the role of the NUL byte.
  A raw buffer that may hold NUL bytes is viewed as a string through `cstr`.
* `snprintf (buf, size, ...)` stores the first `size - 1` bytes of the formatted
  text and returns the full length of the text.
* `int` is 32 bits wide and `long` 64 bits (LP64); conversions between them are
  written out with `to_int`.
* The inbound connection is a finite list of `RdEv`, one per `read(2)` result;
  the exhausted list is the closed connection (`read` returns 0).
* The library and the operating system (OpenSSL digests, the key file, the
  clock, `rand`, `malloc`, the controller socket) are fields of `Env`.
-/

namespace PortalSigner

/-! ## Characters and C library helpers -/

/-- The double quote character. -/
def QUOTE : Char := Char.ofNat 34

/-- The backslash character. -/
def BSLASH : Char := Char.ofNat 92

/-- The line feed character. -/
def LF : Char := Char.ofNat 10

/-- The carriage return character. -/
def CR : Char := Char.ofNat 13

/-- The horizontal tab character. -/
def TAB : Char := Char.ofNat 9

/-- The NUL byte that terminates a C string. -/
def NUL : Char := Char.ofNat 0

/-- The C string held in a raw buffer: the bytes before the first NUL. -/
def cstr (buf : List Char) : List Char :=
  buf.takeWhile (fun c => c != NUL)

/-- The `isspace` of the C locale: space, and the bytes 9 to 13. -/
def isspace (c : Char) : Bool :=
  c.toNat = 32 || (9 ≤ c.toNat && c.toNat ≤ 13)

/-- The `tolower` of the C locale. -/
def tolower (c : Char) : Char :=
  if 65 ≤ c.toNat ∧ c.toNat ≤ 90 then Char.ofNat (c.toNat + 32) else c

/-- What `snprintf (buf, size, "%s"-like format, ...)` leaves in `buf` as a C
string when the formatted text is `text` (for `size ≥ 1`). -/
def snprintf (size : Nat) (text : List Char) : List Char :=
  text.take (size - 1)

/-- The `strstr` of the C library: the suffix of `hay` that starts at the first
occurrence of `needle`, or `none` (NULL) when there is none. -/
def strstr : List Char → List Char → Option (List Char)
  | [], needle => if needle = [] then some [] else none
  | h :: t, needle =>
    if needle.isPrefixOf (h :: t) then some (h :: t) else strstr t needle

/-- Conversion of an integer to the 32-bit `int` (two's complement wrap). -/
def to_int (v : Int) : Int :=
  (v + 2147483648) % 4294967296 - 2147483648

/-- Saturation to the range of the 64-bit `long`, as `strtol` does on overflow. -/
def clamp_long (v : Int) : Int :=
  if v > 9223372036854775807 then 9223372036854775807
  else if v < -9223372036854775808 then -9223372036854775808
  else v

/-- Value of a run of decimal digits, most significant first, continuing `acc`. -/
def digits_value (acc : Nat) : List Char → Nat
  | [] => acc
  | c :: cs => digits_value (acc * 10 + (c.toNat - 48)) cs

/-- The integer read by `strtol (s, &end, 10)` and by a `%d` directive at the
front of `s`: white space is skipped, an optional sign is taken, then the
longest run of decimal digits. `none` when there is no digit (no conversion).
The second component is the unread rest (`end`). -/
def scan_long (s : List Char) : Option (Int × List Char) :=
  let s1 := s.dropWhile isspace
  let neg := s1.head? = some (Char.ofNat 45)
  let s2 := if s1.head? = some (Char.ofNat 45) ∨ s1.head? = some (Char.ofNat 43)
    then s1.drop 1 else s1
  let ds := s2.takeWhile Char.isDigit
  if ds = [] then none
  else
    let v : Int := digits_value 0 ds
    some (clamp_long (if neg then -v else v), s2.drop ds.length)

/-- A `%Ns` directive of `sscanf`: white space is skipped, then at most `width`
bytes that are not white space are taken; the directive fails when there is
none. The second component is the unread rest. -/
def scan_s (width : Nat) (s : List Char) : Option (List Char × List Char) :=
  let s1 := s.dropWhile isspace
  let tok := (s1.takeWhile (fun c => !isspace c)).take width
  if tok = [] then none else some (tok, s1.drop tok.length)

/-- The text printed by `%d` and `%ld`. -/
def fmt_d (v : Int) : List Char :=
  if v < 0 then Char.ofNat 45 :: Nat.toDigits 10 v.natAbs else Nat.toDigits 10 v.toNat

/-- The text printed by `%08lx`: lowercase hexadecimal, zero-padded to 8. -/
def fmt_08lx (v : Nat) : List Char :=
  List.replicate (8 - (Nat.toDigits 16 v).length) (Char.ofNat 48) ++ Nat.toDigits 16 v

/-! ## signer.c: the flat JSON extractor -/

/-- The blank bytes skipped around the colon in `json_get_string`. -/
def json_ws (c : Char) : Bool :=
  c = Char.ofNat 32 || c = TAB || c = CR || c = LF

/-- The byte stored for the escape `\c` (the `switch` of `json_get_string`). -/
def json_unescape (c : Char) : Char :=
  if c = QUOTE then QUOTE
  else if c = BSLASH then BSLASH
  else if c = Char.ofNat 47 then Char.ofNat 47
  else if c = Char.ofNat 110 then LF
  else if c = Char.ofNat 114 then CR
  else if c = Char.ofNat 116 then TAB
  else c

/-- The copy loop of `json_get_string`: `p` is the unread input after the
opening quote, `out` the bytes stored so far (`n = out.length`). -/
def json_copy (out_sz : Nat) : List Char → List Char → List Char
  | [], out => out
  | c :: p, out =>
    if out.length + 1 < out_sz then
      if c = QUOTE then out
      else if c = BSLASH then
        match p with
        | [] => out
        | e :: p2 => json_copy out_sz p2 (out ++ [json_unescape e])
      else json_copy out_sz p (out ++ [c])
    else out

/-- The function `json_get_string (json, key, out, out_sz)` of `signer.c`: the
return code and the content of `out` afterwards (`out` is the content before
the call). -/
def json_get_string (json key out : List Char) (out_sz : Nat) : Int × List Char :=
  if out_sz = 0 then (-1, out)
  else
    let pat := snprintf 128 (QUOTE :: key ++ [QUOTE])
    match strstr json pat with
    | none => (-2, out)
    | some p0 =>
      let p1 := (p0.drop pat.length).dropWhile json_ws
      if p1.head? ≠ some (Char.ofNat 58) then (-3, out)
      else
        let p2 := (p1.drop 1).dropWhile json_ws
        if p2.head? ≠ some QUOTE then (-4, out)
        else (0, json_copy out_sz (p2.drop 1) [])

/-! ## The environment -/

/-- One result of `read (fd, &c, 1)`: a byte, an interrupted call (`EINTR`), or
another error. A `read` for several bytes (the body) is taken to deliver one
byte per call, which leaves what the loops around it compute unchanged. -/
inductive RdEv where
  | byte (c : Char)
  | eintr
  | error
  deriving DecidableEq, Repr

/-- What the program observes of the library and the operating system during
one connection.
* `SHA256 data` is the 32-byte digest OpenSSL writes for `data`.
* `HMAC key msg` is the result of the call `HMAC (EVP_sha256 (), key, key_len,
  msg, strlen (msg), mac, &mac_len)`: the `mac_len` bytes of `mac`, or `none`
  when the call returns NULL.
* `fopen path` is the content of the file, `none` when it cannot be opened.
* `time_timestamp` and `time_nonce` are the two values of `time (NULL)` (in
  `gen_timestamp` and `gen_nonce`), `rand1` and `rand2` the two of `rand ()`.
* `malloc_key`, `malloc_canonical`, `malloc_body` tell whether the `malloc` in
  `read_key_file`, `build_canonical_v1` and the body reader succeeds.
* `socket_ok`, `inet_pton`, `connect_ok`, `write_ok` are the results of the
  controller socket calls (`write_ok req`: all of `req` was written), and
  `controller req` is what the controller socket delivers afterwards. -/
structure Env where
  SHA256 : List Char → List Char
  SHA256_length : ∀ data, (SHA256 data).length = 32
  HMAC : List Char → List Char → Option (List Char)
  fopen : List Char → Option (List Char)
  time_timestamp : Int
  time_nonce : Int
  rand1 : Nat
  rand2 : Nat
  malloc_key : Bool
  malloc_canonical : Bool
  malloc_body : Bool
  socket_ok : Bool
  inet_pton : List Char → Bool
  connect_ok : Bool
  write_ok : List Char → Bool
  controller : List Char → List RdEv

/-! ## crypto_hmac.c -/

/-- The digit table `hex` of `bytes_to_hex_lower`. -/
def hex_digit (n : Nat) : Char :=
  "0123456789abcdef".toList.getD n (Char.ofNat 48)

/-- The function `bytes_to_hex_lower (in, in_len, out_hex)`: two lowercase
hexadecimal digits per byte of `bytes` (the `in_len` bytes of `in`). -/
def bytes_to_hex_lower : List Char → List Char
  | [] => []
  | b :: bs =>
    hex_digit ((b.toNat >>> 4) &&& 15) :: hex_digit (b.toNat &&& 15) :: bytes_to_hex_lower bs

/-- The function `sha256_hex_lower (data, len, out_hex)`; `none` is the NULL
pointer, which is hashed as the empty input. -/
def sha256_hex_lower (w : Env) (data : Option (List Char)) : List Char :=
  bytes_to_hex_lower (w.SHA256 (data.getD []))

/-- The loop `while (end > start && isspace (buf[end - 1])) end--` of
`read_key_file`, started at `e`. -/
def key_end (buf : List Char) (start : Nat) : Nat → Nat
  | 0 => 0
  | e + 1 =>
    if e + 1 > start ∧ isspace (buf.getD e NUL) then key_end buf start e else e + 1

/-- The function `read_key_file (path, &key, &len)`: the return code and the key
bytes. At most 4095 bytes of the file are read. -/
def read_key_file (w : Env) (path : List Char) : Int × List Char :=
  match w.fopen path with
  | none => (-1, [])
  | some content =>
    let buf := content.take 4095
    let n := buf.length
    if n = 0 then (-2, [])
    else
      let start := (buf.takeWhile isspace).length
      let e := key_end buf start n
      let len := e - start
      if len = 0 then (-3, [])
      else if w.malloc_key = false then (-4, [])
      else (0, (buf.drop start).take len)

/-- The function `gen_timestamp (out)`, for `char out[32]`. -/
def gen_timestamp (w : Env) : List Char :=
  snprintf 32 (fmt_d w.time_timestamp)

/-- The function `gen_nonce (out)`, for `char out[64]`. -/
def gen_nonce (w : Env) : List Char :=
  snprintf 64 (fmt_d w.time_nonce ++ Char.ofNat 45 :: (fmt_08lx w.rand1 ++ fmt_08lx w.rand2))

/-- The function `build_canonical_v1`; `none` is the NULL it returns when
`malloc` fails. A `none` argument is a NULL pointer. -/
def build_canonical_v1 (w : Env) (ts nonce method path : List Char)
    (raw_query body : Option (List Char)) : Option (List Char) :=
  let body_hash := sha256_hex_lower w body
  let raw_query := raw_query.getD []
  let len :=
    ts.length + 1 + nonce.length + 1 + method.length + 1 + path.length + 1 +
      raw_query.length + 1 + body_hash.length + 1
  if w.malloc_canonical = false then none
  else
    some (snprintf (len + 1)
      (ts ++ LF :: nonce ++ LF :: method ++ LF :: path ++ LF :: raw_query ++ LF ::
        body_hash ++ [LF]))

/-- The alphabet of standard base64. -/
def b64_digit (n : Nat) : Char :=
  "ABCDEFGHIJKLMNOPQRSTUVWXYZabcdefghijklmnopqrstuvwxyz0123456789+/".toList.getD n
    (Char.ofNat 61)

/-- The text `EVP_EncodeBlock` of OpenSSL writes: standard base64 with `=`
padding and no line breaks. -/
def EVP_EncodeBlock : List Char → List Char
  | [] => []
  | [a] =>
    [b64_digit (a.toNat >>> 2), b64_digit ((a.toNat &&& 3) <<< 4), Char.ofNat 61, Char.ofNat 61]
  | [a, b] =>
    [b64_digit (a.toNat >>> 2), b64_digit (((a.toNat &&& 3) <<< 4) ||| (b.toNat >>> 4)),
      b64_digit ((b.toNat &&& 15) <<< 2), Char.ofNat 61]
  | a :: b :: c :: rest =>
    b64_digit (a.toNat >>> 2) :: b64_digit (((a.toNat &&& 3) <<< 4) ||| (b.toNat >>> 4)) ::
      b64_digit (((b.toNat &&& 15) <<< 2) ||| (c.toNat >>> 6)) :: b64_digit (c.toNat &&& 63) ::
      EVP_EncodeBlock rest

/-- The function `hmac_sha256_base64 (key, key_len, msg, out_b64)`: the return
code and the content of `out_b64` afterwards. -/
def hmac_sha256_base64 (w : Env) (key msg out_b64 : List Char) : Int × List Char :=
  match w.HMAC key msg with
  | none => (-1, out_b64)
  | some mac =>
    if mac.length = 0 then (-1, out_b64)
    else
      let b64_len := 4 * ((mac.length + 2) / 3)
      if b64_len + 1 > 128 then (-2, out_b64)
      else (0, (EVP_EncodeBlock mac).take b64_len)

/-- The struct `portal_sig_t`: the three strings of a signature. -/
structure portal_sig_t where
  timestamp : List Char
  nonce : List Char
  signature : List Char
  deriving DecidableEq, Repr

/-- The function `portal_sign_v1_hmac_sha256_base64` for non-NULL `key_file`,
`method`, `path` and `out_sig`: the return code and `*out_sig` afterwards. -/
def portal_sign_v1_hmac_sha256_base64 (w : Env) (key_file method path : List Char)
    (raw_query body : Option (List Char)) (out_sig : portal_sig_t) : Int × portal_sig_t :=
  let k := read_key_file w key_file
  if k.1 ≠ 0 then (-2, out_sig)
  else
    let sig1 := { out_sig with timestamp := gen_timestamp w, nonce := gen_nonce w }
    match build_canonical_v1 w sig1.timestamp sig1.nonce method path raw_query body with
    | none => (-3, sig1)
    | some canonical =>
      let r := hmac_sha256_base64 w k.2 canonical sig1.signature
      (r.1, { sig1 with signature := r.2 })

/-! ## signer.c: lines, replies and small parsers -/

/-- The constant `MAX_LINE`. -/
def MAX_LINE : Nat := 1024

/-- The constant `MAX_BODY`. -/
def MAX_BODY : Nat := 65536

/-- The loop of `read_line (fd, buf, cap)`: `buf` holds the `n` bytes stored so
far. The result is `none` for the return value -1, else the bytes stored (the
return value is their number), and the part of the connection not yet read. -/
def read_line (cap : Nat) : List RdEv → List Char → Option (List Char) × List RdEv
  | [], buf => (some buf, [])
  | ev :: rest, buf =>
    if buf.length + 1 < cap then
      match ev with
      | .eintr => read_line cap rest buf
      | .error => (none, rest)
      | .byte c =>
        if c = LF then (some (buf ++ [c]), rest) else read_line cap rest (buf ++ [c])
    else (some buf, ev :: rest)

/-- The function `rstrip_crlf (s)`, applied to the string held in `s`. -/
def rstrip_crlf (s : List Char) : List Char :=
  (cstr s).rdropWhile (fun c => c = LF || c = CR)

/-- An observable action of the handler, in program order: a `write` on the
client socket, a call of `portal_sign_v1_hmac_sha256_base64` (with the method,
path, query and body it is given), a `connect` to the controller that
succeeded, a `write` on the controller socket. -/
inductive Event where
  | write (bytes : List Char)
  | sign (method path raw_query body : List Char)
  | connect (addr : List Char) (port : Int)
  | send (bytes : List Char)
  deriving DecidableEq, Repr

/-- The bytes `http_reply (fd, code, msg)` writes. -/
def http_reply_text (code : Int) (msg : List Char) : List Char :=
  snprintf 256 ("HTTP/1.1 ".toList ++ fmt_d code ++ " ".toList ++ msg ++
    "\r\nContent-Length: 0\r\n\r\n".toList)

/-- The function `http_reply (fd, code, msg)` on the client socket. -/
def http_reply (code : Int) (msg : List Char) : List Event :=
  [Event.write (http_reply_text code msg)]

/-- The header `http_reply_json` writes before a body of `body_len` bytes. -/
def http_reply_json_header (code : Int) (body_len : Nat) : List Char :=
  snprintf 256 ("HTTP/1.1 ".toList ++ fmt_d code ++
    " OK\r\nContent-Type: application/json\r\nContent-Length: ".toList ++ fmt_d body_len ++
    "\r\n\r\n".toList)

/-- The function `http_reply_json (fd, code, json)` for a non-NULL `json`. -/
def http_reply_json (code : Int) (json : List Char) : List Event :=
  [Event.write (http_reply_json_header code json.length), Event.write json]

/-- The function `parse_request_line (line, method, path)`, that is
`sscanf (line, "%15s %511s", method, path) == 2`: the method and the path, or
`none` for the return value -1. -/
def parse_request_line (line : List Char) : Option (List Char × List Char) :=
  match scan_s 15 line with
  | none => none
  | some (method, rest) =>
    match scan_s 511 rest with
    | none => none
    | some (path, _) => some (method, path)

/-- The function `header_get_int (value, &out)`: the return code and `*out`
afterwards (`out` is its value before the call). -/
def header_get_int (value : List Char) (out : Int) : Int × Int :=
  if value = [] then (-1, out)
  else
    match scan_long value with
    | none => (-1, out)
    | some (v, _) => (0, to_int v)

/-- The function `split_uri (uri, out_path, out_path_sz, out_query, out_query_sz)`
for a non-NULL `uri` and buffer sizes of at least 1: the path and the query. -/
def split_uri (uri : List Char) (out_path_sz out_query_sz : Nat) : List Char × List Char :=
  if uri.contains (Char.ofNat 63) then
    let plen := (uri.takeWhile (fun c => c != Char.ofNat 63)).length
    let plen := if plen ≥ out_path_sz then out_path_sz - 1 else plen
    (uri.take plen,
      snprintf out_query_sz ((uri.dropWhile (fun c => c != Char.ofNat 63)).drop 1))
  else (snprintf out_path_sz uri, [])

/-- Test `strncasecmp (s, lit, n) == 0`. -/
def strncasecmp_eq (s lit : List Char) (n : Nat) : Bool :=
  (s.take n).map tolower = (lit.take n).map tolower

/-- The value of a header: the line after its first `skip` bytes, blanks and
tabs skipped (`v = line + skip; while (*v == ' ' || *v == '\t') v++`). -/
def header_value (line : List Char) (skip : Nat) : List Char :=
  (line.drop skip).dropWhile (fun c => c = Char.ofNat 32 || c = TAB)

/-! ## signer.c: the controller client -/

/-- The struct `signer_config_t`. -/
structure signer_config_t where
  listen_addr : List Char
  listen_port : Int
  controller_addr : List Char
  controller_port : Int
  controller_path : List Char
  key_file : List Char
  deriving DecidableEq, Repr

/-- The JSON text `controller_verify` formats into `body`. -/
def verify_body_text (orig_method orig_uri : List Char) (sig : portal_sig_t) : List Char :=
  "\x7b\"method\":\"".toList ++ orig_method ++ "\",\"uri\":\"".toList ++ orig_uri ++
    "\",\"security\":\x7b\"kid\":\"".toList ++ "v1".toList ++ "\",\"timestamp\":\"".toList ++
    sig.timestamp ++ "\",\"nonce\":\"".toList ++ sig.nonce ++ "\",\"signature\":\"".toList ++
    sig.signature ++ "\"\x7d\x7d".toList

/-- The request text `controller_verify` formats into `req`, for the body
`body` of `blen` bytes. -/
def verify_request_text (cfg : signer_config_t) (blen : Int) (body : List Char) : List Char :=
  "POST ".toList ++ cfg.controller_path ++ " HTTP/1.1\r\nHost: ".toList ++
    cfg.controller_addr ++ ":".toList ++ fmt_d cfg.controller_port ++
    "\r\nContent-Type: application/json\r\nContent-Length: ".toList ++ fmt_d blen ++
    "\r\nConnection: close\r\n\r\n".toList ++ body

/-- The call `sscanf (line, "HTTP/%*s %d", &code) == 1` of `controller_verify`:
the value stored in `code`, or `none` when the call does not return 1. -/
def scan_status (line : List Char) : Option Int :=
  if "HTTP/".toList.isPrefixOf line then
    match scan_s line.length (line.drop 5) with
    | none => none
    | some (_, rest) =>
      match scan_long rest with
      | none => none
      | some (v, _) => some (to_int v)
  else none

/-- The end of `controller_verify`, from the comment `Read status line`: the
return code for what the controller socket delivers. -/
def controller_status (response : List RdEv) : Int :=
  match read_line MAX_LINE response [] with
  | (none, _) => -8
  | (some buf, _) =>
    if buf.length = 0 then -8
    else
      match scan_status (cstr buf) with
      | none => -9
      | some code => if code ≥ 200 ∧ code < 300 then 0 else -10

/-- The call `htons (port)` with an `int` argument: the argument is converted
to `uint16_t`, so the port number stored in `sin_port` is the argument modulo
65536. -/
def htons (port : Int) : Int := port % 65536

/-- The function `controller_verify (cfg, orig_method, orig_uri, sig)`: the
return code and the actions on the controller socket. The connection goes to
the port `htons (cfg->controller_port)` stores; the `Host` header of the
request prints the `int` itself. -/
def controller_verify (w : Env) (cfg : signer_config_t) (orig_method orig_uri : List Char)
    (sig : portal_sig_t) : Int × List Event :=
  if cfg.controller_addr = [] ∨ cfg.controller_path = [] then (-1, [])
  else
    let blen : Int := (verify_body_text orig_method orig_uri sig).length
    let body := snprintf 1024 (verify_body_text orig_method orig_uri sig)
    if blen ≤ 0 ∨ blen ≥ 1024 then (-2, [])
    else if w.socket_ok = false then (-3, [])
    else if w.inet_pton cfg.controller_addr = false then (-4, [])
    else if w.connect_ok = false then (-5, [])
    else
      let conn := Event.connect cfg.controller_addr (htons cfg.controller_port)
      let rlen : Int := (verify_request_text cfg blen body).length
      let req := snprintf 2048 (verify_request_text cfg blen body)
      if rlen ≤ 0 ∨ rlen ≥ 2048 then (-6, [conn])
      else if w.write_ok req = false then (-7, [conn, Event.send req])
      else (controller_status (w.controller req), [conn, Event.send req])

/-! ## signer.c: the connection handler -/

/-- The JSON text `handle_sign_endpoint` formats into `resp`. -/
def sign_response_text (sig : portal_sig_t) : List Char :=
  "\x7b\"kid\":\"".toList ++ "v1".toList ++ "\",\"timestamp\":\"".toList ++ sig.timestamp ++
    "\",\"nonce\":\"".toList ++ sig.nonce ++ "\",\"signature\":\"".toList ++ sig.signature ++
    "\"\x7d".toList

/-- An optional field of the sign request: the value `json_get_string` stores
in a zeroed buffer of `out_sz` bytes, and the empty string when it fails
(`if (json_get_string (...) != 0) buf[0] = 0`). -/
def json_optional (req_body key : List Char) (out_sz : Nat) : List Char :=
  if (json_get_string req_body key [] out_sz).1 ≠ 0 then []
  else (json_get_string req_body key [] out_sz).2

/-- The function `handle_sign_endpoint (cfd, cfg, req_body, req_body_len)`. -/
def handle_sign_endpoint (w : Env) (cfg : signer_config_t) (req_body : List Char) :
    List Event :=
  let m := json_get_string req_body "method".toList [] 16
  if m.1 ≠ 0 then http_reply 400 "Bad Request".toList
  else
    let p := json_get_string req_body "path".toList [] 512
    if p.1 ≠ 0 then http_reply 400 "Bad Request".toList
    else
      let raw_query := json_optional req_body "raw_query".toList 512
      let body_str := json_optional req_body "body".toList MAX_BODY
      let r := portal_sign_v1_hmac_sha256_base64 w cfg.key_file m.2 p.2 (some raw_query)
        (some body_str) ⟨[], [], []⟩
      Event.sign m.2 p.2 raw_query body_str ::
        (if r.1 ≠ 0 then http_reply 500 "Internal Server Error".toList
         else http_reply_json 200 (snprintf 512 (sign_response_text r.2)))

/-- The variables the header loop of `portal_signer_handle_client` updates. -/
structure Headers where
  orig_method : List Char
  orig_uri : List Char
  content_len : Int
  deriving DecidableEq, Repr

/-- How the header loop ends: `closed` is the `return` after a failed read,
`too_large` the 413 reply, `done` the `break`. `out_of_fuel` stands for a loop
that has not ended after `fuel` lines. -/
inductive HeaderResult where
  | closed (rest : List RdEv)
  | too_large (rest : List RdEv)
  | done (h : Headers) (rest : List RdEv)
  | out_of_fuel
  deriving DecidableEq, Repr

/-- One header line of the loop (the `if` chain on `line`): the variables
afterwards, or `none` for the 413 reply. -/
def header_line (line : List Char) (h : Headers) : Option Headers :=
  if strncasecmp_eq line "X-Original-Method:".toList 18 then
    some { h with orig_method := snprintf 64 (header_value line 18) }
  else if strncasecmp_eq line "X-Original-URI:".toList 15 then
    some { h with orig_uri := snprintf 512 (header_value line 15) }
  else if strncasecmp_eq line "Content-Length:".toList 15 then
    let c := (header_get_int (header_value line 15) h.content_len).2
    let c := if c < 0 then 0 else c
    if c > MAX_BODY then none else some { h with content_len := c }
  else some h

/-- The header loop `while (1)` of `portal_signer_handle_client`, for at most
`fuel` lines. -/
def read_headers : Nat → List RdEv → Headers → HeaderResult
  | 0, _, _ => .out_of_fuel
  | fuel + 1, inp, h =>
    match read_line MAX_LINE inp [] with
    | (none, rest) => .closed rest
    | (some buf, rest) =>
      if buf.length = 0 then .done h rest
      else if rstrip_crlf buf = [] then .done h rest
      else
        match header_line (rstrip_crlf buf) h with
        | none => .too_large rest
        | some h2 => read_headers fuel rest h2

/-- The body loop `while (got < content_len)`: `want` bytes are still to be
read and `body` holds the `got` bytes read so far. `none` is the `return`
after a failed read. -/
def read_body : Nat → List RdEv → List Char → Option (List Char) × List RdEv
  | 0, inp, body => (some body, inp)
  | _ + 1, [], body => (some body, [])
  | want + 1, ev :: rest, body =>
    match ev with
    | .eintr => read_body (want + 1) rest body
    | .error => (none, rest)
    | .byte c => read_body want rest (body ++ [c])

/-- The request as `portal_signer_handle_client` holds it when it routes:
`body` is `none` for the NULL pointer, else the bytes read into it. -/
structure Request where
  req_method : List Char
  req_path : List Char
  orig_method : List Char
  orig_uri : List Char
  body : Option (List Char)
  deriving DecidableEq, Repr

/-- How the reading part of `portal_signer_handle_client` ends: with a `return`
after the actions `trace`, or with the request to route. -/
inductive ReadResult where
  | returned (trace : List Event) (rest : List RdEv)
  | request (r : Request) (rest : List RdEv)
  | out_of_fuel
  deriving DecidableEq, Repr

/-- The reading part of `portal_signer_handle_client` (request line, headers,
body), up to the comment `Route: /sign`. -/
def read_request (w : Env) (inp : List RdEv) : ReadResult :=
  match read_line MAX_LINE inp [] with
  | (none, rest) => .returned [] rest
  | (some buf, rest) =>
    if buf.length = 0 then .returned [] rest
    else
      match parse_request_line (rstrip_crlf buf) with
      | none => .returned (http_reply 400 "Bad Request".toList) rest
      | some (req_method, req_path) =>
        match read_headers (rest.length + 1) rest ⟨[], [], 0⟩ with
        | .out_of_fuel => .out_of_fuel
        | .closed rest2 => .returned [] rest2
        | .too_large rest2 => .returned (http_reply 413 "Payload Too Large".toList) rest2
        | .done h rest2 =>
          if h.content_len > 0 then
            if w.malloc_body = false then
              .returned (http_reply 500 "Internal Server Error".toList) rest2
            else
              match read_body h.content_len.toNat rest2 [] with
              | (none, rest3) => .returned [] rest3
              | (some body, rest3) =>
                .request ⟨req_method, req_path, h.orig_method, h.orig_uri, some body⟩ rest3
          else .request ⟨req_method, req_path, h.orig_method, h.orig_uri, none⟩ rest2

/-- The routing part of `portal_signer_handle_client`, from the comment
`Route: /sign` to the end. -/
def route (w : Env) (cfg : signer_config_t) (r : Request) : List Event :=
  if r.req_method = "POST".toList ∧ r.req_path = "/sign".toList then
    match r.body with
    | none => http_reply 400 "Bad Request".toList
    | some body => handle_sign_endpoint w cfg (cstr body)
  else if r.orig_method = [] ∨ r.orig_uri = [] then http_reply 400 "Bad Request".toList
  else
    let pq := split_uri r.orig_uri 512 512
    let s := portal_sign_v1_hmac_sha256_base64 w cfg.key_file r.orig_method pq.1 (some pq.2)
      (some []) ⟨[], [], []⟩
    Event.sign r.orig_method pq.1 pq.2 [] ::
      (if s.1 ≠ 0 then http_reply 500 "Internal Server Error".toList
       else
         let v := controller_verify w cfg r.orig_method r.orig_uri s.2
         v.2 ++ (if v.1 = 0 then http_reply 204 "No Content".toList
                 else http_reply 401 "Unauthorized".toList))

/-- What one run of the handler leaves behind: its actions in program order and
the part of the connection it has not read. -/
structure Outcome where
  trace : List Event
  rest : List RdEv
  deriving DecidableEq, Repr

/-- The function `portal_signer_handle_client (cfd, cfg)` on the connection
`inp`; `none` stands for a header loop that has not ended (see
`read_headers`). -/
def portal_signer_handle_client (w : Env) (cfg : signer_config_t) (inp : List RdEv) :
    Option Outcome :=
  match read_request w inp with
  | .out_of_fuel => none
  | .returned trace rest => some ⟨trace, rest⟩
  | .request r rest => some ⟨route w cfg r, rest⟩

/-! ## Specification-side definitions -/

/-- The escape table as the specification words it: backslash-quote,
backslash-backslash and backslash-slash stand for quote, backslash and slash,
backslash-n, -r, -t for line feed, carriage return and tab, and any other
backslash-c for c. -/
def spec_unescape (c : Char) : Char :=
  if c = Char.ofNat 110 then LF
  else if c = Char.ofNat 114 then CR
  else if c = Char.ofNat 116 then TAB
  else c

/-- The decoding of a JSON string value as the specification words it: the
characters up to the first quote that is not escaped, each escape replaced by
the character it stands for. `p` is the text after the opening quote. -/
def json_decode_spec : List Char → List Char
  | [] => []
  | c :: p =>
    if c = QUOTE then []
    else if c = BSLASH then
      match p with
      | [] => []
      | e :: p2 => spec_unescape e :: json_decode_spec p2
    else c :: json_decode_spec p

/-! ## Reference implementations of the OpenSSL digests

SHA-256 (FIPS 180-4) and HMAC (RFC 2104) on bytes, used to build the concrete
environments of the examples. The theorems hold for every `Env`. -/

/-- The round constants of SHA-256 (FIPS 180-4, section 4.2.2), in decimal. -/
def sha256_k : List Nat :=
  [1116352408, 1899447441, 3049323471, 3921009573, 961987163, 1508970993,
   2453635748, 2870763221, 3624381080, 310598401, 607225278, 1426881987,
   1925078388, 2162078206, 2614888103, 3248222580, 3835390401, 4022224774,
   264347078, 604807628, 770255983, 1249150122, 1555081692, 1996064986,
   2554220882, 2821834349, 2952996808, 3210313671, 3336571891, 3584528711,
   113926993, 338241895, 666307205, 773529912, 1294757372, 1396182291,
   1695183700, 1986661051, 2177026350, 2456956037, 2730485921, 2820302411,
   3259730800, 3345764771, 3516065817, 3600352804, 4094571909, 275423344,
   430227734, 506948616, 659060556, 883997877, 958139571, 1322822218,
   1537002063, 1747873779, 1955562222, 2024104815, 2227730452, 2361852424,
   2428436474, 2756734187, 3204031479, 3329325298]

/-- Rotation of a 32-bit word to the right. -/
def rotr (n x : Nat) : Nat :=
  ((x >>> n) ||| (x <<< (32 - n))) % 4294967296

/-- The eight working variables of SHA-256. -/
structure Sha256State where
  a : Nat
  b : Nat
  c : Nat
  d : Nat
  e : Nat
  f : Nat
  g : Nat
  h : Nat

/-- The initial hash value of SHA-256 (FIPS 180-4, section 5.3.3), in decimal. -/
def sha256_init : Sha256State :=
  ⟨1779033703, 3144134277, 1013904242, 2773480762,
    1359893119, 2600822924, 528734635, 1541459225⟩

/-- One round of the compression function, with constant `k` and schedule word `x`. -/
def sha256_round (s : Sha256State) (k x : Nat) : Sha256State :=
  let s1 := rotr 6 s.e ^^^ rotr 11 s.e ^^^ rotr 25 s.e
  let ch := (s.e &&& s.f) ^^^ ((4294967295 - s.e) &&& s.g)
  let t1 := (s.h + s1 + ch + k + x) % 4294967296
  let s0 := rotr 2 s.a ^^^ rotr 13 s.a ^^^ rotr 22 s.a
  let maj := (s.a &&& s.b) ^^^ (s.a &&& s.c) ^^^ (s.b &&& s.c)
  let t2 := (s0 + maj) % 4294967296
  ⟨(t1 + t2) % 4294967296, s.a, s.b, s.c, (s.d + t1) % 4294967296, s.e, s.f, s.g⟩

/-- The message schedule: `n` further words after the window `win`, which holds
the last 16 words, the most recent first. The words come out in order. -/
def sha256_schedule : Nat → List Nat → List Nat
  | 0, _ => []
  | n + 1, win =>
    let w2 := win.getD 1 0
    let w7 := win.getD 6 0
    let w15 := win.getD 14 0
    let w16 := win.getD 15 0
    let s0 := rotr 7 w15 ^^^ rotr 18 w15 ^^^ (w15 >>> 3)
    let s1 := rotr 17 w2 ^^^ rotr 19 w2 ^^^ (w2 >>> 10)
    let x := (w16 + s0 + w7 + s1) % 4294967296
    x :: sha256_schedule n (x :: win.take 15)

/-- The rounds of one block: the state after the rounds with constants `ks` and words `ws`. -/
def sha256_rounds (s : Sha256State) : List Nat → List Nat → Sha256State
  | k :: ks, x :: ws => sha256_rounds (sha256_round s k x) ks ws
  | _, _ => s

/-- The compression of one block of 16 words into the hash value `hv`. -/
def sha256_block (hv : Sha256State) (block : List Nat) : Sha256State :=
  let r := sha256_rounds hv sha256_k (block ++ sha256_schedule 48 block.reverse)
  ⟨(hv.a + r.a) % 4294967296, (hv.b + r.b) % 4294967296, (hv.c + r.c) % 4294967296,
   (hv.d + r.d) % 4294967296, (hv.e + r.e) % 4294967296, (hv.f + r.f) % 4294967296,
   (hv.g + r.g) % 4294967296, (hv.h + r.h) % 4294967296⟩

/-- Big-endian 32-bit words of a byte sequence (whole words only). -/
def be_words : List Nat → List Nat
  | a :: b :: c :: d :: rest => (a * 16777216 + b * 65536 + c * 256 + d) :: be_words rest
  | _ => []

/-- The padded message: the bytes, `0x80`, zeros, and the bit length on 8 bytes. -/
def sha256_pad (msg : List Nat) : List Nat :=
  let l := msg.length
  let zeros := (119 - l % 64) % 64
  msg ++ 128 :: List.replicate zeros 0 ++
    (List.range 8).map (fun i => (l * 8) / 256 ^ (7 - i) % 256)

/-- All blocks of the word list `ws`, 16 words at a time, with `n` blocks of fuel. -/
def sha256_blocks : Nat → Sha256State → List Nat → Sha256State
  | 0, hv, _ => hv
  | n + 1, hv, ws =>
    if ws = [] then hv else sha256_blocks n (sha256_block hv (ws.take 16)) (ws.drop 16)

/-- Big-endian bytes of a 32-bit word. -/
def be_bytes (x : Nat) : List Char :=
  [Char.ofNat (x / 16777216 % 256), Char.ofNat (x / 65536 % 256), Char.ofNat (x / 256 % 256),
   Char.ofNat (x % 256)]

/-- SHA-256 (FIPS 180-4) of a byte sequence: the 32 digest bytes. -/
def sha256 (data : List Char) : List Char :=
  let ws := be_words (sha256_pad (data.map (fun c => c.toNat % 256)))
  let r := sha256_blocks (ws.length / 16 + 1) sha256_init ws
  be_bytes r.a ++ be_bytes r.b ++ be_bytes r.c ++ be_bytes r.d ++ be_bytes r.e ++ be_bytes r.f ++
    be_bytes r.g ++ be_bytes r.h

/-- HMAC-SHA256 (RFC 2104) of `msg` under `key`: the 32 bytes of the code. -/
def hmac_sha256 (key msg : List Char) : List Char :=
  let k0 := if key.length > 64 then sha256 key else key
  let k := k0 ++ List.replicate (64 - k0.length) NUL
  let ipad := k.map (fun c => Char.ofNat (c.toNat % 256 ^^^ 54))
  let opad := k.map (fun c => Char.ofNat (c.toNat % 256 ^^^ 92))
  sha256 (opad ++ sha256 (ipad ++ msg))

/-- The bytes of a text, each delivered by a successful `read`. -/
def stream (text : List Char) : List RdEv :=
  text.map RdEv.byte

/-- A concrete environment for the examples: the real digests, one key file
`/etc/portal/portal.signing.key` holding `secret` and a line feed, the clock at
1700000000, the two draws `0x1a2b3c4d` and `0x5`, every allocation and socket
call successful, and a controller that answers `reply`. -/
def example_env (reply : List Char) : Env where
  SHA256 := sha256
  SHA256_length := by
    intro data
    simp [sha256, be_bytes]
  HMAC := fun key msg => some (hmac_sha256 key msg)
  fopen := fun path =>
    if path = "/etc/portal/portal.signing.key".toList then some "secret\n".toList else none
  time_timestamp := 1700000000
  time_nonce := 1700000000
  rand1 := 439041101
  rand2 := 5
  malloc_key := true
  malloc_canonical := true
  malloc_body := true
  socket_ok := true
  inet_pton := fun _ => true
  connect_ok := true
  write_ok := fun _ => true
  controller := fun _ => stream reply

/-- A concrete configuration for the examples. -/
def example_cfg : signer_config_t where
  listen_addr := "127.0.0.1".toList
  listen_port := 9000
  controller_addr := "127.0.0.1".toList
  controller_port := 9090
  controller_path := "/portal/context/verify".toList
  key_file := "/etc/portal/portal.signing.key".toList

/-- Surrounding white space removed, as the specification words the key
material: the leading and the trailing `isspace` bytes dropped. -/
def trim (l : List Char) : List Char :=
  (l.dropWhile isspace).rdropWhile isspace

/-- The bytes the handler wrote on the client socket, in order. -/
def client_writes : List Event → List (List Char)
  | [] => []
  | Event.write bytes :: rest => bytes :: client_writes rest
  | _ :: rest => client_writes rest

/-- The controller allows the request: the call completed (controller
configured, body and request formatted within their buffers, socket opened,
address parsed, connection made, request written in full, a first line read)
and the `int` that `sscanf` stores for the first line of the response is from
200 to 299. -/
def controller_allows (w : Env) (cfg : signer_config_t) (orig_method orig_uri : List Char)
    (sig : portal_sig_t) : Prop :=
  cfg.controller_addr ≠ [] ∧ cfg.controller_path ≠ [] ∧
    (verify_body_text orig_method orig_uri sig).length < 1024 ∧
    (verify_request_text cfg (verify_body_text orig_method orig_uri sig).length
      (verify_body_text orig_method orig_uri sig)).length < 2048 ∧
    w.socket_ok = true ∧ w.inet_pton cfg.controller_addr = true ∧ w.connect_ok = true ∧
    w.write_ok (verify_request_text cfg (verify_body_text orig_method orig_uri sig).length
      (verify_body_text orig_method orig_uri sig)) = true ∧
    ∃ line rest code,
      read_line MAX_LINE (w.controller (verify_request_text cfg
        (verify_body_text orig_method orig_uri sig).length
        (verify_body_text orig_method orig_uri sig))) [] = (some line, rest) ∧
      line ≠ [] ∧ scan_status (cstr line) = some code ∧ 200 ≤ code ∧ code ≤ 299

/-- Header lines on the wire: each line followed by CR LF. -/
def wire_lines : List (List Char) → List Char
  | [] => []
  | l :: ls => l ++ [CR, LF] ++ wire_lines ls

/-- The bytes of a request on the wire: the request line, the header lines and
an empty line, each ended by CR LF, then the body. -/
def wire_request (request_line : List Char) (headers : List (List Char)) (body : List Char) :
    List Char :=
  request_line ++ [CR, LF] ++ wire_lines headers ++ [CR, LF] ++ body

/-- A line that fits the line buffer together with its CR LF (at most 1021
bytes) and holds no CR, LF or NUL byte. -/
def clean_line (l : List Char) : Prop :=
  l.length ≤ 1021 ∧ ∀ c ∈ l, c ≠ CR ∧ c ≠ LF ∧ c ≠ NUL

/-- The header loop on the lines it is given, one after the other: the
variables at the end, or `none` when a line gets the 413 reply. -/
def header_lines : List (List Char) → Headers → Option Headers
  | [], h => some h
  | l :: ls, h =>
    match header_line l h with
    | none => none
    | some h2 => header_lines ls h2

/-- The text `pat` occurs in `text` at offset `i` and at no smaller offset. -/
def first_occurrence (pat text : List Char) (i : Nat) : Prop :=
  pat.isPrefixOf (text.drop i) = true ∧ ∀ j < i, pat.isPrefixOf (text.drop j) = false

/-- The text `s` is optional white space (blank, tab, CR, LF), then the
character `c`, then `rest`. -/
def after_blanks (c : Char) (s rest : List Char) : Prop :=
  ∃ ws, s = ws ++ c :: rest ∧ ∀ x ∈ ws, json_ws x = true

/-- The 64 characters of the standard base64 alphabet (RFC 4648, table 1). -/
def base64_alphabet : List Char :=
  "ABCDEFGHIJKLMNOPQRSTUVWXYZabcdefghijklmnopqrstuvwxyz0123456789+/".toList

/-- The value of a base64 character: its index in the alphabet; `none` for a
character outside the alphabet (the padding character included). -/
def base64_value (c : Char) : Option Nat :=
  if base64_alphabet.indexOf c < 64 then some (base64_alphabet.indexOf c) else none

/-- Decoding of padded base64 text (RFC 4648, section 4): four characters give
three bytes; a last group ending in one padding character gives two bytes, in
two padding characters one byte. `none` for text that is not padded base64. -/
def base64_decode : List Char → Option (List Char)
  | [] => some []
  | c1 :: c2 :: c3 :: c4 :: rest =>
    match base64_value c1, base64_value c2 with
    | some v1, some v2 =>
      if c3 = Char.ofNat 61 ∧ c4 = Char.ofNat 61 ∧ rest = [] then
        some [Char.ofNat (v1 * 4 + v2 / 16)]
      else
        match base64_value c3 with
        | none => none
        | some v3 =>
          if c4 = Char.ofNat 61 ∧ rest = [] then
            some [Char.ofNat (v1 * 4 + v2 / 16), Char.ofNat (v2 % 16 * 16 + v3 / 4)]
          else
            match base64_value c4 with
            | none => none
            | some v4 =>
              (base64_decode rest).map (fun t =>
                Char.ofNat (v1 * 4 + v2 / 16) :: Char.ofNat (v2 % 16 * 16 + v3 / 4) ::
                  Char.ofNat (v3 % 4 * 64 + v4) :: t)
    | _, _ => none
  | _ => none

/-- The number a text of decimal digits stands for. -/
def decimal_value (s : List Char) : Nat :=
  s.foldl (fun acc c => acc * 10 + (c.toNat - 48)) 0

/-- The lowercase hexadecimal digits. -/
def hex_digits : List Char := "0123456789abcdef".toList

/-- The number a text of lowercase hexadecimal digits stands for. -/
def hex_value (s : List Char) : Nat :=
  s.foldl (fun acc c => acc * 16 + hex_digits.indexOf c) 0

/-- The white-space-separated tokens of a text, with `cur` the token being
read: a white-space byte ends the current token, any other byte extends it. -/
def tokens_from : List Char → List Char → List (List Char)
  | [], cur => if cur = [] then [] else [cur]
  | c :: s, cur =>
    if isspace c then (if cur = [] then tokens_from s [] else cur :: tokens_from s [])
    else tokens_from s (cur ++ [c])

/-- The white-space-separated tokens of a text, in order. -/
def tokens (s : List Char) : List (List Char) :=
  tokens_from s []

/-- The names of the fields `handle_sign_endpoint` looks up. -/
def known_fields : List (List Char) :=
  ["method".toList, "path".toList, "raw_query".toList, "body".toList]

/-- One string field of a JSON object as it is written: the encoded texts of
the name and of the value, and the white space before the name (`lead`),
between the name and the colon (`gap1`), between the colon and the value
(`gap2`) and after the value (`trail`). -/
structure json_field where
  lead : List Char
  name : List Char
  gap1 : List Char
  gap2 : List Char
  value : List Char
  trail : List Char
  deriving DecidableEq, Repr

/-- The text of a field from the opening quote of its name to the closing
quote of its value: `"name" : "value"`. -/
def field_body (f : json_field) : List Char :=
  QUOTE :: (f.name ++ QUOTE :: (f.gap1 ++ Char.ofNat 58 :: (f.gap2 ++
    QUOTE :: (f.value ++ [QUOTE]))))

/-- The text of a field with the white space around it. -/
def field_text (f : json_field) : List Char :=
  f.lead ++ (field_body f ++ f.trail)

/-- The fields of a JSON object, separated by commas. -/
def fields_text : List json_field → List Char
  | [] => []
  | [f] => field_text f
  | f :: g :: rest => field_text f ++ Char.ofNat 44 :: fields_text (g :: rest)

/-- The text of a flat JSON object of string fields. -/
def json_object (fields : List json_field) : List Char :=
  Char.ofNat 123 :: (fields_text fields ++ [Char.ofNat 125])

/-- A field in compact form, without white space. -/
def compact_field (name value : List Char) : json_field :=
  ⟨[], name, [], [], value, []⟩

/-- A text of white space only (blank, tab, CR, LF). -/
def blanks (l : List Char) : Prop :=
  ∀ c ∈ l, json_ws c = true

/-- The encoded text of a JSON string is well formed: it holds no quote that
is not escaped, and each backslash is followed by a character. -/
def string_body_ok : List Char → Bool
  | [] => true
  | [c] => c != QUOTE && c != BSLASH
  | c :: e :: s =>
    if c = QUOTE then false
    else if c = BSLASH then string_body_ok s
    else string_body_ok (e :: s)

/-- A field that cannot be taken for the field `k`: its name and its value
hold no quote character and differ from `k`, and the texts around them are
white space. -/
def plain_field (k : List Char) (f : json_field) : Prop :=
  blanks f.lead ∧ blanks f.gap1 ∧ blanks f.gap2 ∧ blanks f.trail ∧
    QUOTE ∉ f.name ∧ QUOTE ∉ f.value ∧ f.name ≠ k ∧ f.value ≠ k

/-- The `strchr` of the C library for a character other than NUL: the suffix of
`s` that starts at the first `c`, or `none` (NULL) when there is none. -/
def strchr : List Char → Char → Option (List Char)
  | [], _ => none
  | h :: t, c => if h = c then some (h :: t) else strchr t c

/-- The function `split_uri` of `signer.c` with its pointer argument: `none`
is the NULL pointer, for which the path is `/` and the query empty. -/
def split_uri_ptr (uri : Option (List Char)) (out_path_sz out_query_sz : Nat) :
    List Char × List Char :=
  match uri with
  | none => (snprintf out_path_sz [Char.ofNat 47], [])
  | some u => split_uri u out_path_sz out_query_sz

/-- The function `split_uri` of `crypto_hmac.c`, the copy used by
`portal_sign_v0_hmac_sha256` (buffer sizes of at least 1): `q` is the result
of `strchr (uri, '?')` and `plen` the pointer difference `q - uri`. -/
def crypto_hmac_split_uri (uri : Option (List Char)) (out_path_sz out_query_sz : Nat) :
    List Char × List Char :=
  match uri with
  | none => (snprintf out_path_sz [Char.ofNat 47], [])
  | some u =>
    match strchr u (Char.ofNat 63) with
    | none => (snprintf out_path_sz u, [])
    | some q =>
      let plen := u.length - q.length
      let plen := if plen ≥ out_path_sz then out_path_sz - 1 else plen
      (u.take plen, snprintf out_query_sz (q.drop 1))

/-! ## config.c and portal-signer.c: the configuration -/

/-- The function `signer_config_defaults (cfg)`: the configuration it stores. -/
def signer_config_defaults : signer_config_t where
  listen_addr := "127.0.0.1".toList
  listen_port := 9000
  controller_addr := "127.0.0.1".toList
  controller_port := 9090
  controller_path := "/portal/context/verify".toList
  key_file := "/etc/portal/portal.signing.key".toList

/-- The function `trim (s)` of `config.c`: leading white space is skipped; of
what is left, the first byte stays and the trailing white space is cut
(`while (end > s && isspace (*end)) end--`). -/
def config_trim (s : List Char) : List Char :=
  match s.dropWhile isspace with
  | [] => []
  | c :: t => c :: t.rdropWhile isspace

/-- The call `atoi (s)`: the `int` that `strtol (s, NULL, 10)` converts to, and
0 when there is no digit. -/
def atoi (s : List Char) : Int :=
  match scan_long s with
  | none => 0
  | some (v, _) => to_int v

/-- The string held in `dst` after `strncpy (dst, src, n)` for an array `dst`
of `n + 1` bytes: `src` when it has fewer than `n` bytes (the rest of the `n`
bytes is filled with NUL); else the first `n` bytes of `src`, after which no
terminator is written, followed by `beyond`, the bytes found in memory from
`dst[n]` up to the next NUL. -/
def strncpy (src : List Char) (n : Nat) (beyond : List Char) : List Char :=
  if src.length < n then src else src.take n ++ beyond

/-- The function `parse_host_port (s, host, host_sz, &port)`: the host and the
port afterwards (`host` and `port` are their values before the call). -/
def parse_host_port (s host : List Char) (host_sz : Nat) (port : Int) : List Char × Int :=
  match strchr s (Char.ofNat 58) with
  | none => (host, port)
  | some p =>
    let len := s.length - p.length
    let len := if len ≥ host_sz then host_sz - 1 else len
    (s.take len, atoi (p.drop 1))

/-- The call `fgets (line, size, f)` on the unread part `f` of a file: `none`
at the end of the file, else the bytes stored (at most `size - 1`, ending after
the first line feed) and the part of the file left unread. -/
def fgets (size : Nat) (f : List Char) : Option (List Char × List Char) :=
  if f = [] then none
  else
    let n := (f.takeWhile (fun c => c != LF)).length
    let n := if n < f.length then n + 1 else n
    let n := if n > size - 1 then size - 1 else n
    some (f.take n, f.drop n)

/-- One turn of the loop of `signer_config_load_file` on the string `line`
that `fgets` stored: the configuration afterwards. -/
def config_line (beyond line : List Char) (cfg : signer_config_t) : signer_config_t :=
  let s := config_trim line
  if s.head? = some (Char.ofNat 35) ∨ s = [] then cfg
  else
    match strchr s (Char.ofNat 61) with
    | none => cfg
    | some eq =>
      let key := config_trim (s.take (s.length - eq.length))
      let val := config_trim (eq.drop 1)
      if key = "listen.addr".toList then { cfg with listen_addr := strncpy val 63 beyond }
      else if key = "listen.port".toList then { cfg with listen_port := atoi val }
      else if key = "controller.addr".toList then
        { cfg with controller_addr := strncpy val 63 beyond }
      else if key = "controller.port".toList then { cfg with controller_port := atoi val }
      else if key = "controller.path".toList then
        { cfg with controller_path := strncpy val 127 beyond }
      else if key = "key.file".toList then { cfg with key_file := strncpy val 255 beyond }
      else cfg

/-- The loop `while (fgets (line, sizeof (line), f))` of
`signer_config_load_file`, for at most `fuel` lines. -/
def config_lines (beyond : List Char) : Nat → List Char → signer_config_t → signer_config_t
  | 0, _, cfg => cfg
  | fuel + 1, f, cfg =>
    match fgets 512 f with
    | none => cfg
    | some (line, rest) => config_lines beyond fuel rest (config_line beyond (cstr line) cfg)

/-- The function `signer_config_load_file (cfg, path)`: the return code and the
configuration afterwards. Each `fgets` takes at least one byte, so the length
of the file bounds the number of turns. -/
def signer_config_load_file (w : Env) (beyond : List Char) (cfg : signer_config_t)
    (path : List Char) : Int × signer_config_t :=
  match w.fopen path with
  | none => (-1, cfg)
  | some content => (0, config_lines beyond (content.length + 1) content cfg)

/-- The loop of `signer_config_parse_args (cfg, argc, argv)` on the arguments
from `argv[i]` on: the configuration afterwards, or `none` when `--help` ends
the process (`exit (0)`). -/
def parse_args_from (beyond : List Char) :
    List (List Char) → signer_config_t → Option signer_config_t
  | [], cfg => some cfg
  | [a], cfg => if a = "--help".toList then none else some cfg
  | a :: v :: rest, cfg =>
    if a = "--listen".toList then
      parse_args_from beyond rest
        { cfg with
          listen_addr := (parse_host_port v cfg.listen_addr 64 cfg.listen_port).1
          listen_port := (parse_host_port v cfg.listen_addr 64 cfg.listen_port).2 }
    else if a = "--controller".toList then
      parse_args_from beyond rest
        { cfg with
          controller_addr := (parse_host_port v cfg.controller_addr 64 cfg.controller_port).1
          controller_port := (parse_host_port v cfg.controller_addr 64 cfg.controller_port).2 }
    else if a = "--controller-path".toList then
      parse_args_from beyond rest { cfg with controller_path := strncpy v 127 beyond }
    else if a = "--key".toList then
      parse_args_from beyond rest { cfg with key_file := strncpy v 255 beyond }
    else if a = "--help".toList then none
    else parse_args_from beyond (v :: rest) cfg

/-- The function `signer_config_parse_args (cfg, argc, argv)`, with `argv` the
`argc` arguments: `argv[0]` is skipped. -/
def signer_config_parse_args (beyond : List Char) (cfg : signer_config_t)
    (argv : List (List Char)) : Option signer_config_t :=
  parse_args_from beyond (argv.drop 1) cfg

/-- The function `reload_config ()`: the configuration it stores in `g_cfg`,
the defaults and then the file `/etc/portal/portal-signer.conf`. -/
def reload_config (w : Env) (beyond : List Char) : signer_config_t :=
  (signer_config_load_file w beyond signer_config_defaults
    "/etc/portal/portal-signer.conf".toList).2

/-- The configuration `g_cfg` with which `main (argc, argv)` enters its accept
loop: `main` casts `argc` and `argv` to `void` and calls `reload_config ()`;
it has no call of `signer_config_parse_args`. -/
def main_config (w : Env) (beyond : List Char) (argv : List (List Char)) : signer_config_t :=
  let _ := argv
  reload_config w beyond

/-- The configuration of the documented precedence (`config.h`): the defaults,
then the configuration file, then the command line. `none` when `--help` ends
the process. -/
def documented_config (w : Env) (beyond : List Char) (argv : List (List Char)) :
    Option signer_config_t :=
  signer_config_parse_args beyond
    (signer_config_load_file w beyond signer_config_defaults
      "/etc/portal/portal-signer.conf".toList).2 argv

/-- The environment of the examples with a configuration file
`/etc/portal/portal-signer.conf` that holds `content`. -/
def config_env (content : List Char) : Env :=
  { example_env [] with
    fopen := fun path =>
      if path = "/etc/portal/portal-signer.conf".toList then some content
      else (example_env []).fopen path }

/-- The two lowercase hexadecimal digits of a byte value, high digit first. -/
def hex_pair (n : Nat) : List Char :=
  [hex_digits.getD (n / 16) (Char.ofNat 48), hex_digits.getD (n % 16) (Char.ofNat 48)]

/-- The text `sha256hex (data)` of the specification: the SHA-256 digest of
`data` in lowercase hexadecimal, two digits for each byte of the digest. -/
def sha256hex (w : Env) (data : List Char) : List Char :=
  (w.SHA256 data).flatMap (fun b => hex_pair b.toNat)

/-- The value the specification's flat extractor finds for the string field
`key` in the text `json`, for an output buffer of `out_sz` bytes: the first
occurrence of the quoted name is followed by optional white space, a colon,
optional white space and an opening quote, and `v` is the first `out_sz - 1`
bytes of the decoding of the text after that quote. -/
def extracted (json key : List Char) (out_sz : Nat) (v : List Char) : Prop :=
  ∃ i rest t, first_occurrence (QUOTE :: key ++ [QUOTE]) json i ∧
    after_blanks (Char.ofNat 58) (json.drop (i + (key.length + 2))) rest ∧
    after_blanks QUOTE rest t ∧ v = (json_decode_spec t).take (out_sz - 1)

/-- An optional field of the sign request: the extracted value, and the empty
string when there is no value to extract. -/
def extracted_or_empty (json key : List Char) (out_sz : Nat) (v : List Char) : Prop :=
  extracted json key out_sz v ∨ ((∀ x, ¬ extracted json key out_sz x) ∧ v = [])

/-- A body for the sign endpoint with the four fields, none of them empty. -/
def example_sign_body : List Char :=
  "\x7b\"method\":\"POST\",\"path\":\"/x\",\"raw_query\":\"a=1\",\"body\":\"hello\"\x7d".toList

/-! # Theorems -/

/-! ## The flat JSON extractor -/

theorem strstr_first (pat : List Char) :
    ∀ (json : List Char) (i : Nat),
      pat.isPrefixOf (json.drop i) = true →
      (∀ j < i, pat.isPrefixOf (json.drop j) = false) →
      strstr json pat = some (json.drop i) := by
  intro json
  induction json with
  | nil =>
    intro i h _
    have hp : pat = [] := by
      cases pat with
      | nil => rfl
      | cons a l => simp [List.isPrefixOf] at h
    simp [strstr, hp]
  | cons a t ih =>
    intro i h hfirst
    cases i with
    | zero =>
      simp only [List.drop_zero] at h
      simp [strstr, h]
    | succ k =>
      have h0 : pat.isPrefixOf (a :: t) = false := by
        have := hfirst 0 (Nat.succ_pos k)
        simpa using this
      have hrec := ih k (by simpa using h) (fun j hj => by
        have := hfirst (j + 1) (Nat.succ_lt_succ hj)
        simpa using this)
      simp [strstr, h0, hrec]

theorem json_unescape_eq_spec (c : Char) : json_unescape c = spec_unescape c := by
  unfold json_unescape spec_unescape
  by_cases h1 : c = QUOTE
  · subst h1; decide
  · by_cases h2 : c = BSLASH
    · subst h2; decide
    · by_cases h3 : c = Char.ofNat 47
      · subst h3; decide
      · simp only [h1, h2, h3, if_false]

theorem json_copy_eq (out_sz : Nat) :
    ∀ (n : Nat) (p out : List Char), p.length ≤ n →
      json_copy out_sz p out = out ++ (json_decode_spec p).take (out_sz - 1 - out.length) := by
  intro n
  induction n with
  | zero =>
    intro p out hp
    have : p = [] := List.length_eq_zero.mp (Nat.le_zero.mp hp)
    subst this
    simp [json_copy, json_decode_spec]
  | succ n ih =>
    intro p out hp
    have step : ∀ (x : Char) (l : List Char), out.length + 1 < out_sz →
        out ++ [x] ++ List.take (out_sz - 1 - (out ++ [x]).length) l =
          out ++ List.take (out_sz - 1 - out.length) (x :: l) := by
      intro x l hlt
      have hk : out_sz - 1 - out.length = (out_sz - 1 - (out ++ [x]).length) + 1 := by
        simp only [List.length_append, List.length_singleton]; omega
      rw [hk, List.take_succ_cons]
      simp
    match p, hp with
    | [], _ => simp [json_copy, json_decode_spec]
    | [c], _ =>
      by_cases hlt : out.length + 1 < out_sz
      · by_cases hc : c = QUOTE
        · simp [json_copy, json_decode_spec, hc, hlt]
        · by_cases hb : c = BSLASH
          · simp [json_copy, json_decode_spec, hc, hb, hlt]
          · simp only [json_copy, json_decode_spec, hlt, hc, hb, if_true, if_false]
            simpa using step c [] hlt
      · have hk : out_sz - 1 - out.length = 0 := by omega
        simp [json_copy, hlt, hk]
    | c :: e :: p2, hp =>
      have hp1 : (e :: p2).length ≤ n := by simpa using hp
      have hp2 : p2.length ≤ n := by
        simp only [List.length_cons] at hp1; omega
      by_cases hlt : out.length + 1 < out_sz
      · by_cases hc : c = QUOTE
        · simp [json_copy, json_decode_spec, hc, hlt]
        · by_cases hb : c = BSLASH
          · simp only [json_copy, json_decode_spec, hlt, hc, hb, if_true, if_false]
            rw [ih p2 _ hp2, json_unescape_eq_spec]
            exact step _ _ hlt
          · simp only [json_copy, json_decode_spec, hlt, hc, hb, if_true, if_false]
            rw [ih (e :: p2) _ hp1]
            exact step _ _ hlt
      · have hk : out_sz - 1 - out.length = 0 := by omega
        simp [json_copy, hlt, hk]

theorem dropWhile_append_of_all (f : Char → Bool) :
    ∀ (ws rest : List Char), (∀ c ∈ ws, f c = true) →
      (ws ++ rest).dropWhile f = rest.dropWhile f := by
  intro ws
  induction ws with
  | nil => intro rest _; rfl
  | cons a t ih =>
    intro rest h
    have ha : f a = true := h a (List.mem_cons_self a t)
    simp only [List.cons_append, List.dropWhile_cons, ha, if_true]
    exact ih rest (fun c hc => h c (List.mem_cons_of_mem a hc))

/-- C10: when the first occurrence of the quoted name is followed by blanks, a
colon, blanks and an opening quote, `json_get_string` returns 0 and stores the
first `out_sz - 1` bytes of the decoding of the text after that quote, up to
its first unescaped quote (names of at most 125 bytes, `out_sz ≥ 1`). -/
theorem json_get_string_decodes (json key out ws1 ws2 value : List Char) (out_sz i : Nat)
    (hsz : 0 < out_sz) (hkey : key.length ≤ 125)
    (hfirst : ∀ j < i, (QUOTE :: key ++ [QUOTE]).isPrefixOf (json.drop j) = false)
    (hat : json.drop i =
      QUOTE :: key ++ [QUOTE] ++ ws1 ++ Char.ofNat 58 :: ws2 ++ QUOTE :: value)
    (hws1 : ∀ c ∈ ws1, json_ws c = true) (hws2 : ∀ c ∈ ws2, json_ws c = true) :
    json_get_string json key out out_sz = (0, (json_decode_spec value).take (out_sz - 1)) := by
  have hpat : snprintf 128 (QUOTE :: key ++ [QUOTE]) = QUOTE :: key ++ [QUOTE] := by
    unfold snprintf
    apply List.take_of_length_le
    simp only [List.cons_append, List.length_cons, List.length_append, List.length_singleton,
      List.length_nil]
    omega
  have hpre : (QUOTE :: key ++ [QUOTE]).isPrefixOf (json.drop i) = true := by
    rw [hat, List.isPrefixOf_iff_prefix]
    exact ⟨ws1 ++ Char.ofNat 58 :: ws2 ++ QUOTE :: value, by simp⟩
  have hstr := strstr_first (QUOTE :: key ++ [QUOTE]) json i hpre hfirst
  have hdrop : (json.drop i).drop (QUOTE :: key ++ [QUOTE]).length =
      ws1 ++ Char.ofNat 58 :: (ws2 ++ QUOTE :: value) := by
    rw [hat]
    have : QUOTE :: key ++ [QUOTE] ++ ws1 ++ Char.ofNat 58 :: ws2 ++ QUOTE :: value =
        (QUOTE :: key ++ [QUOTE]) ++ (ws1 ++ Char.ofNat 58 :: (ws2 ++ QUOTE :: value)) := by
      simp
    rw [this, List.drop_left]
  have hcolon : json_ws (Char.ofNat 58) = false := by decide
  have hquote : json_ws QUOTE = false := by decide
  have h1 : (ws1 ++ Char.ofNat 58 :: (ws2 ++ QUOTE :: value)).dropWhile json_ws =
      Char.ofNat 58 :: (ws2 ++ QUOTE :: value) := by
    rw [dropWhile_append_of_all json_ws ws1 _ hws1, List.dropWhile_cons, hcolon]
    rfl
  have h2 : (ws2 ++ QUOTE :: value).dropWhile json_ws = QUOTE :: value := by
    rw [dropWhile_append_of_all json_ws ws2 _ hws2, List.dropWhile_cons, hquote]
    rfl
  unfold json_get_string
  rw [if_neg (Nat.pos_iff_ne_zero.mp hsz)]
  simp only [hpat, hstr, hdrop, h1, List.head?_cons, List.drop_succ_cons, List.drop_zero, h2,
    ne_eq, not_true_eq_false, if_false]
  rw [json_copy_eq out_sz value.length value [] (Nat.le_refl _)]
  simp

/-- C10, the scenario of the specification: for the object holding field `a`
with the value text `x`, backslash, quote, `y`, the extractor yields `x"y`. -/
theorem json_get_string_decodes_witness :
    json_get_string "\x7b\"a\":\"x\\\"y\"\x7d".toList "a".toList [] 16 = (0, "x\"y".toList) :=
  (json_get_string_decodes "\x7b\"a\":\"x\\\"y\"\x7d".toList "a".toList [] [] []
    "x\\\"y\"\x7d".toList 16 1 (by decide) (by decide) (by decide) (by decide)
    (by decide) (by decide)).trans (by decide)

/-! ## The canonical string -/

theorem bytes_to_hex_lower_length (bytes : List Char) :
    (bytes_to_hex_lower bytes).length = 2 * bytes.length := by
  induction bytes with
  | nil => rfl
  | cons b bs ih => simp only [bytes_to_hex_lower, List.length_cons, ih]; omega

theorem hex_digit_mem (n : Nat) (h : n < 16) : hex_digit n ∈ "0123456789abcdef".toList := by
  unfold hex_digit
  interval_cases n <;> decide

theorem bytes_to_hex_lower_digits (bytes : List Char) :
    ∀ c ∈ bytes_to_hex_lower bytes, c ∈ "0123456789abcdef".toList := by
  induction bytes with
  | nil => intro c hc; simp [bytes_to_hex_lower] at hc
  | cons b bs ih =>
    intro c hc
    simp only [bytes_to_hex_lower, List.mem_cons] at hc
    have hand : ∀ m : Nat, m &&& 15 < 16 := fun m =>
      Nat.lt_succ_of_le (Nat.and_le_right)
    rcases hc with h | h | h
    · rw [h]; exact hex_digit_mem _ (hand _)
    · rw [h]; exact hex_digit_mem _ (hand _)
    · exact ih c h

theorem build_canonical_v1_eq (w : Env) (ts nonce method path : List Char)
    (raw_query body : Option (List Char)) (hmalloc : w.malloc_canonical = true) :
    build_canonical_v1 w ts nonce method path raw_query body =
      some (ts ++ [LF] ++ nonce ++ [LF] ++ method ++ [LF] ++ path ++ [LF] ++
        raw_query.getD [] ++ [LF] ++ bytes_to_hex_lower (w.SHA256 (body.getD [])) ++ [LF]) := by
  unfold build_canonical_v1 sha256_hex_lower snprintf
  simp only [hmalloc, Bool.true_eq_false, if_false, Option.some.injEq]
  rw [List.take_of_length_le]
  · simp
  · simp only [List.length_append, List.length_cons, List.length_nil]
    omega

theorem bytes_to_hex_lower_eq :
    ∀ bytes : List Char, (∀ b ∈ bytes, b.toNat < 256) →
      bytes_to_hex_lower bytes = bytes.flatMap (fun b => hex_pair b.toNat) := by
  intro bytes
  induction bytes with
  | nil => intro _; rfl
  | cons b bs ih =>
    intro h
    have hb : b.toNat < 256 := h b (List.mem_cons_self b bs)
    have h1 : (b.toNat >>> 4) &&& 15 = b.toNat / 16 := by
      rw [Nat.shiftRight_eq_div_pow, show (15 : Nat) = 2 ^ 4 - 1 from rfl,
        Nat.and_pow_two_sub_one_eq_mod]
      exact Nat.mod_eq_of_lt (by omega)
    have h2 : b.toNat &&& 15 = b.toNat % 16 := by
      rw [show (15 : Nat) = 2 ^ 4 - 1 from rfl, Nat.and_pow_two_sub_one_eq_mod]
    simp only [bytes_to_hex_lower, List.flatMap_cons, hex_pair, h1, h2,
      ih (fun c hc => h c (List.mem_cons_of_mem b hc)), hex_digit, hex_digits,
      List.cons_append, List.nil_append]

theorem hex_value_pair (n : Nat) (h : n < 256) : hex_value (hex_pair n) = n := by
  have h1 : n / 16 < 16 := by omega
  have h2 : n % 16 < 16 := by omega
  have key : ∀ a < 16, ∀ b < 16,
      hex_value [hex_digits.getD a (Char.ofNat 48), hex_digits.getD b (Char.ofNat 48)] =
        a * 16 + b := by
    decide
  rw [hex_pair, key _ h1 _ h2]
  omega

theorem hex_value_at :
    ∀ (bytes : List Char) (i : Nat), (∀ b ∈ bytes, b.toNat < 256) → i < bytes.length →
      hex_value (((bytes.flatMap (fun b => hex_pair b.toNat)).drop (2 * i)).take 2) =
        (bytes.getD i NUL).toNat := by
  intro bytes
  induction bytes with
  | nil => intro i _ hi; simp at hi
  | cons b bs ih =>
    intro i h hi
    cases i with
    | zero =>
      have : (((b :: bs).flatMap (fun b => hex_pair b.toNat)).drop (2 * 0)).take 2 =
          hex_pair b.toNat := by
        simp [List.flatMap_cons, hex_pair]
      rw [this, hex_value_pair _ (h b (List.mem_cons_self b bs))]
      rfl
    | succ i =>
      have : ((b :: bs).flatMap (fun b => hex_pair b.toNat)).drop (2 * (i + 1)) =
          (bs.flatMap (fun b => hex_pair b.toNat)).drop (2 * i) := by
        rw [List.flatMap_cons, show 2 * (i + 1) = (hex_pair b.toNat).length + 2 * i by
          simp [hex_pair]; omega, ← List.drop_drop, List.drop_left]
      rw [this, ih i (fun c hc => h c (List.mem_cons_of_mem b hc)) (by simpa using hi)]
      simp

/-- C4: when its allocation succeeds, `build_canonical_v1` returns the six
fields in the order timestamp, nonce, method, path, raw query, `sha256hex` of
the body, each followed by one line feed; a NULL raw query counts as empty and
a NULL body as the empty input. The digest field is the lowercase hexadecimal
text of the SHA-256 digest of the body: 64 digits, of which the pair at
position `2 i` has the value of byte `i` of the digest. -/
theorem build_canonical_v1_layout (w : Env) (ts nonce method path : List Char)
    (raw_query body : Option (List Char)) (hmalloc : w.malloc_canonical = true)
    (hbytes : ∀ b ∈ w.SHA256 (body.getD []), b.toNat < 256) :
    build_canonical_v1 w ts nonce method path raw_query body =
        some (ts ++ [LF] ++ nonce ++ [LF] ++ method ++ [LF] ++ path ++ [LF] ++
          raw_query.getD [] ++ [LF] ++ sha256hex w (body.getD []) ++ [LF]) ∧
      (sha256hex w (body.getD [])).length = 64 ∧
      (∀ c ∈ sha256hex w (body.getD []), c ∈ "0123456789abcdef".toList) ∧
      ∀ i < 32, hex_value (((sha256hex w (body.getD [])).drop (2 * i)).take 2) =
        ((w.SHA256 (body.getD [])).getD i NUL).toNat := by
  have he : bytes_to_hex_lower (w.SHA256 (body.getD [])) = sha256hex w (body.getD []) :=
    bytes_to_hex_lower_eq _ hbytes
  refine ⟨?_, ?_, ?_, ?_⟩
  · rw [build_canonical_v1_eq w ts nonce method path raw_query body hmalloc, he]
  · rw [← he, bytes_to_hex_lower_length, w.SHA256_length]
  · rw [← he]
    exact bytes_to_hex_lower_digits _
  · intro i hi
    exact hex_value_at _ i hbytes (by rw [w.SHA256_length]; exact hi)

/-- C4, two instances. The scenario of the specification: method GET, path /a,
empty query and empty body give `TS`, `NONCE`, `GET`, `/a`, an empty line and
the SHA-256 digest of the empty input, each followed by a line feed. With the
body `abc` the last field is the digest of `abc`. -/
theorem build_canonical_v1_layout_witness :
    build_canonical_v1 (example_env []) "TS".toList "NONCE".toList "GET".toList "/a".toList
        (some []) (some []) =
      some ("TS\nNONCE\nGET\n/a\n\n".toList ++
        "e3b0c44298fc1c149afbf4c8996fb92427ae41e4649b934ca495991b7852b855\n".toList) ∧
    build_canonical_v1 (example_env []) "TS".toList "NONCE".toList "POST".toList "/a".toList
        (some "x=1".toList) (some "abc".toList) =
      some ("TS\nNONCE\nPOST\n/a\nx=1\n".toList ++
        "ba7816bf8f01cfea414140de5dae2223b00361a396177a9cb410ff61f20015ad\n".toList) :=
  ⟨(build_canonical_v1_layout (example_env []) "TS".toList "NONCE".toList "GET".toList
      "/a".toList (some []) (some []) rfl (by decide!)).1.trans (by decide!),
    (build_canonical_v1_layout (example_env []) "TS".toList "NONCE".toList "POST".toList
      "/a".toList (some "x=1".toList) (some "abc".toList) rfl (by decide!)).1.trans
      (by decide!)⟩

/-! ## The key file and the signature -/

theorem key_end_spec (buf : List Char) (start : Nat) :
    ∀ e : Nat, e ≤ buf.length →
      (buf.take (key_end buf start e)).drop start =
        ((buf.take e).drop start).rdropWhile isspace := by
  intro e
  induction e with
  | zero => intro _; simp [key_end]
  | succ e ih =>
    intro he
    have hlt : e < buf.length := he
    have htake : buf.take (e + 1) = buf.take e ++ [buf.getD e NUL] := by
      rw [List.take_succ, List.getD_eq_getElem?_getD]
      simp [List.getElem?_eq_getElem hlt]
    by_cases hc : e + 1 > start ∧ isspace (buf.getD e NUL) = true
    · have hse : start ≤ (buf.take e).length := by
        rw [List.length_take]; omega
      simp only [key_end, hc, and_self, if_true]
      rw [ih (Nat.le_of_lt hlt), htake, List.drop_append_of_le_length hse,
        List.rdropWhile_concat, if_pos hc.2]
    · simp only [key_end, hc, if_false]
      by_cases hs : e + 1 > start
      · have hse : start ≤ (buf.take e).length := by
          rw [List.length_take]; omega
        have hns : ¬ isspace (buf.getD e NUL) = true := fun h => hc ⟨hs, h⟩
        rw [htake, List.drop_append_of_le_length hse, List.rdropWhile_concat, if_neg hns]
      · have : (buf.take (e + 1)).drop start = [] := by
          apply List.drop_eq_nil_of_le
          rw [List.length_take]; omega
        rw [this]; rfl

theorem key_end_le (buf : List Char) (start : Nat) : ∀ e : Nat, key_end buf start e ≤ e := by
  intro e
  induction e with
  | zero => simp [key_end]
  | succ e ih =>
    unfold key_end
    split_ifs
    · exact Nat.le_succ_of_le ih
    · exact Nat.le_refl _

theorem drop_takeWhile_length (f : Char → Bool) (buf : List Char) :
    buf.drop (buf.takeWhile f).length = buf.dropWhile f := by
  induction buf with
  | nil => rfl
  | cons a t ih =>
    by_cases ha : f a = true
    · simp [List.takeWhile_cons, List.dropWhile_cons, ha, ih]
    · simp [List.takeWhile_cons, List.dropWhile_cons, ha]

theorem takeWhile_length_le (f : Char → Bool) (buf : List Char) :
    (buf.takeWhile f).length ≤ buf.length := by
  induction buf with
  | nil => simp
  | cons a t ih =>
    by_cases ha : f a = true
    · simp [List.takeWhile_cons, ha, ih]
    · simp [List.takeWhile_cons, ha]

theorem read_key_file_ok (w : Env) (path content : List Char)
    (hopen : w.fopen path = some content) (hkey : trim (content.take 4095) ≠ [])
    (hmk : w.malloc_key = true) :
    read_key_file w path = (0, trim (content.take 4095)) := by
  generalize hbuf : content.take 4095 = buf at hkey
  have hspec := key_end_spec buf (buf.takeWhile isspace).length buf.length (Nat.le_refl _)
  rw [List.take_length, drop_takeWhile_length, List.drop_take, drop_takeWhile_length] at hspec
  have hke := key_end_le buf (buf.takeWhile isspace).length buf.length
  have hst := takeWhile_length_le isspace buf
  have hlen : key_end buf (buf.takeWhile isspace).length buf.length -
      (buf.takeWhile isspace).length = (trim buf).length := by
    have := congrArg List.length hspec
    rw [List.length_take] at this
    have hd : (buf.dropWhile isspace).length = buf.length - (buf.takeWhile isspace).length := by
      rw [← drop_takeWhile_length, List.length_drop]
    unfold trim
    rw [← this, hd]
    omega
  have hne : buf.length ≠ 0 := by
    intro h0
    have : buf = [] := List.length_eq_zero.mp h0
    rw [this] at hkey
    exact hkey rfl
  have hlen0 : (trim buf).length ≠ 0 := fun h => hkey (List.length_eq_zero.mp h)
  unfold read_key_file
  simp only [hopen, hbuf, hne, if_false, hlen, hlen0, hmk, Bool.true_eq_false]
  rw [← hlen, drop_takeWhile_length, hspec]
  rfl

theorem EVP_EncodeBlock_length :
    ∀ l : List Char, (EVP_EncodeBlock l).length = 4 * ((l.length + 2) / 3)
  | [] => rfl
  | [_] => by simp [EVP_EncodeBlock]
  | [_, _] => by simp [EVP_EncodeBlock]
  | _ :: _ :: _ :: rest => by
    simp only [EVP_EncodeBlock, List.length_cons, EVP_EncodeBlock_length rest]
    omega

theorem hmac_sha256_base64_ok (w : Env) (key msg out_b64 mac : List Char)
    (hmac : w.HMAC key msg = some mac) (hpos : 0 < mac.length) (hfit : mac.length ≤ 93) :
    hmac_sha256_base64 w key msg out_b64 = (0, EVP_EncodeBlock mac) := by
  unfold hmac_sha256_base64
  have h0 : mac.length ≠ 0 := Nat.pos_iff_ne_zero.mp hpos
  have h1 : ¬ 4 * ((mac.length + 2) / 3) + 1 > 128 := by omega
  simp only [hmac, h0, if_false, h1]
  rw [List.take_of_length_le]
  rw [EVP_EncodeBlock_length]

theorem portal_sign_v1_value (w : Env) (key_file method path : List Char)
    (raw_query body : Option (List Char)) (out_sig : portal_sig_t) (content C mac : List Char)
    (hopen : w.fopen key_file = some content) (hkey : trim (content.take 4095) ≠ [])
    (hmk : w.malloc_key = true)
    (hC : build_canonical_v1 w (gen_timestamp w) (gen_nonce w) method path raw_query body =
      some C)
    (hmac : w.HMAC (trim (content.take 4095)) C = some mac)
    (hpos : 0 < mac.length) (hfit : mac.length ≤ 93) :
    portal_sign_v1_hmac_sha256_base64 w key_file method path raw_query body out_sig =
      (0, ⟨gen_timestamp w, gen_nonce w, EVP_EncodeBlock mac⟩) := by
  unfold portal_sign_v1_hmac_sha256_base64
  rw [read_key_file_ok w key_file content hopen hkey hmk]
  simp only [ne_eq, not_true_eq_false, if_false, hC,
    hmac_sha256_base64_ok w _ C _ mac hmac hpos hfit]

/-- C1 (amended): when the first 4095 bytes of the key file, trimmed of white
space, give a non-empty key `k`, and the allocations and the HMAC primitive
succeed, `portal_sign_v1_hmac_sha256_base64` returns 0 and the signature it
writes is the base64 text of `HMAC (k, C)`, where `C` is `build_canonical_v1`
of the timestamp and nonce it wrote and of the given method, path, query and
body. A second invocation with the same digests and key that writes the same
timestamp and nonce writes the same signature. -/
theorem portal_sign_v1_signature (w : Env) (key_file method path : List Char)
    (raw_query body : Option (List Char)) (out_sig : portal_sig_t) (content : List Char)
    (hopen : w.fopen key_file = some content) (hkey : trim (content.take 4095) ≠ [])
    (hmk : w.malloc_key = true) (hmc : w.malloc_canonical = true)
    (hmac : ∀ msg, ∃ mac, w.HMAC (trim (content.take 4095)) msg = some mac ∧ mac.length = 32) :
    (portal_sign_v1_hmac_sha256_base64 w key_file method path raw_query body out_sig).1 = 0 ∧
      (∃ C mac,
        build_canonical_v1 w
            (portal_sign_v1_hmac_sha256_base64 w key_file method path raw_query body
              out_sig).2.timestamp
            (portal_sign_v1_hmac_sha256_base64 w key_file method path raw_query body
              out_sig).2.nonce
            method path raw_query body = some C ∧
          w.HMAC (trim (content.take 4095)) C = some mac ∧
          (portal_sign_v1_hmac_sha256_base64 w key_file method path raw_query body
            out_sig).2.signature = EVP_EncodeBlock mac) ∧
      ∀ (w2 : Env) (key_file2 content2 : List Char) (out_sig2 : portal_sig_t),
        w2.SHA256 = w.SHA256 → w2.HMAC = w.HMAC → w2.fopen key_file2 = some content2 →
        trim (content2.take 4095) = trim (content.take 4095) →
        w2.malloc_key = true → w2.malloc_canonical = true →
        (portal_sign_v1_hmac_sha256_base64 w2 key_file2 method path raw_query body
          out_sig2).2.timestamp =
          (portal_sign_v1_hmac_sha256_base64 w key_file method path raw_query body
            out_sig).2.timestamp →
        (portal_sign_v1_hmac_sha256_base64 w2 key_file2 method path raw_query body
          out_sig2).2.nonce =
          (portal_sign_v1_hmac_sha256_base64 w key_file method path raw_query body
            out_sig).2.nonce →
        (portal_sign_v1_hmac_sha256_base64 w2 key_file2 method path raw_query body
          out_sig2).2.signature =
          (portal_sign_v1_hmac_sha256_base64 w key_file method path raw_query body
            out_sig).2.signature := by
  have hC := build_canonical_v1_eq w (gen_timestamp w) (gen_nonce w) method path raw_query
    body hmc
  obtain ⟨mac, hm, hl⟩ := hmac
    (gen_timestamp w ++ [LF] ++ gen_nonce w ++ [LF] ++ method ++ [LF] ++ path ++ [LF] ++
      raw_query.getD [] ++ [LF] ++ bytes_to_hex_lower (w.SHA256 (body.getD [])) ++ [LF])
  have hv := portal_sign_v1_value w key_file method path raw_query body out_sig content _ mac
    hopen hkey hmk hC hm (by omega) (by omega)
  rw [hv]
  refine ⟨rfl, ⟨_, mac, hC, hm, rfl⟩, ?_⟩
  intro w2 key_file2 content2 out_sig2 hsha hh hopen2 hk2 hmk2 hmc2
  have hC2 := build_canonical_v1_eq w2 (gen_timestamp w2) (gen_nonce w2) method path
    raw_query body hmc2
  obtain ⟨mac2, hm2, hl2⟩ := hmac
    (gen_timestamp w2 ++ [LF] ++ gen_nonce w2 ++ [LF] ++ method ++ [LF] ++ path ++ [LF] ++
      raw_query.getD [] ++ [LF] ++ bytes_to_hex_lower (w2.SHA256 (body.getD [])) ++ [LF])
  rw [← hk2, ← hh] at hm2
  have hv2 := portal_sign_v1_value w2 key_file2 method path raw_query body out_sig2 content2 _
    mac2 hopen2 (by rw [hk2]; exact hkey) hmk2 hC2 hm2 (by omega) (by omega)
  rw [hv2]
  intro hts hn
  simp only at hts hn ⊢
  rw [hts, hn, hsha, hh, hk2, hm] at hm2
  rw [Option.some.inj hm2]

/-- C1, an instance: with the key file of the example, whose content trims to
`secret`, the signature written for GET /x with query `a=1` and an empty body
is the base64 text of the HMAC-SHA256 of the canonical string. -/
theorem portal_sign_v1_signature_witness :
    (portal_sign_v1_hmac_sha256_base64 (example_env []) example_cfg.key_file "GET".toList
        "/x".toList (some "a=1".toList) (some []) ⟨[], [], []⟩).1 = 0 ∧
      (portal_sign_v1_hmac_sha256_base64 (example_env []) example_cfg.key_file "GET".toList
        "/x".toList (some "a=1".toList) (some []) ⟨[], [], []⟩).2 =
        ⟨"1700000000".toList, "1700000000-1a2b3c4d00000005".toList,
          "gXlctJE1Ql/G/EEiq2fV2EPVmDVKrpuptD3+6RL7bzE=".toList⟩ :=
  ⟨(portal_sign_v1_signature (example_env []) example_cfg.key_file "GET".toList "/x".toList
    (some "a=1".toList) (some []) ⟨[], [], []⟩ "secret\n".toList (by decide!) (by decide!) rfl rfl
    (fun msg => ⟨hmac_sha256 "secret".toList msg, by
      have h : trim ("secret\n".toList.take 4095) = "secret".toList := by decide!
      rw [h]
      exact ⟨rfl, by simp [hmac_sha256, sha256, be_bytes]⟩⟩)).1, by decide!⟩

/-- C1, the claim as stated fails: the content of this key file trims to the
non-empty key `k`, yet the 4095 bytes read from it are all blank and
`portal_sign_v1_hmac_sha256_base64` returns -2. -/
theorem portal_sign_v1_long_key_file :
    trim (List.replicate 4095 (Char.ofNat 32) ++ "k".toList) = "k".toList ∧
      (portal_sign_v1_hmac_sha256_base64
        { example_env [] with
          fopen := fun _ => some (List.replicate 4095 (Char.ofNat 32) ++ "k".toList) }
        example_cfg.key_file "GET".toList "/x".toList (some []) (some []) ⟨[], [], []⟩).1 = -2 := by
  constructor <;> decide!

/-! ## The controller client -/

theorem snprintf_of_lt (size : Nat) (text : List Char) (h : text.length < size) :
    snprintf size text = text := by
  unfold snprintf
  exact List.take_of_length_le (by omega)

theorem controller_verify_eq (w : Env) (cfg : signer_config_t) (orig_method orig_uri : List Char)
    (sig : portal_sig_t) (ha : cfg.controller_addr ≠ []) (hp : cfg.controller_path ≠ [])
    (hb : (verify_body_text orig_method orig_uri sig).length < 1024)
    (hr : (verify_request_text cfg (verify_body_text orig_method orig_uri sig).length
      (verify_body_text orig_method orig_uri sig)).length < 2048)
    (hs : w.socket_ok = true) (hi : w.inet_pton cfg.controller_addr = true)
    (hc : w.connect_ok = true) :
    controller_verify w cfg orig_method orig_uri sig =
      (if w.write_ok (verify_request_text cfg (verify_body_text orig_method orig_uri sig).length
          (verify_body_text orig_method orig_uri sig)) = false then -7
        else controller_status (w.controller (verify_request_text cfg
          (verify_body_text orig_method orig_uri sig).length
          (verify_body_text orig_method orig_uri sig))),
       [Event.connect cfg.controller_addr (cfg.controller_port % 65536),
        Event.send (verify_request_text cfg (verify_body_text orig_method orig_uri sig).length
          (verify_body_text orig_method orig_uri sig))]) := by
  unfold controller_verify
  have h1 : ¬ (cfg.controller_addr = [] ∨ cfg.controller_path = []) := by
    rintro (h | h)
    · exact ha h
    · exact hp h
  have h2 : ¬ (((verify_body_text orig_method orig_uri sig).length : Int) ≤ 0 ∨
      ((verify_body_text orig_method orig_uri sig).length : Int) ≥ 1024) := by
    have : 0 < (verify_body_text orig_method orig_uri sig).length := by
      simp [verify_body_text]
    omega
  have h6 : ¬ (((verify_request_text cfg (verify_body_text orig_method orig_uri sig).length
        (verify_body_text orig_method orig_uri sig)).length : Int) ≤ 0 ∨
      ((verify_request_text cfg (verify_body_text orig_method orig_uri sig).length
        (verify_body_text orig_method orig_uri sig)).length : Int) ≥ 2048) := by
    have : 0 < (verify_request_text cfg (verify_body_text orig_method orig_uri sig).length
        (verify_body_text orig_method orig_uri sig)).length := by
      simp [verify_request_text]
    omega
  simp only [if_neg h1, snprintf_of_lt 1024 _ hb, if_neg h2, hs, hi, hc, Bool.true_eq_false,
    if_false, if_neg h6, snprintf_of_lt 2048 _ hr]
  split_ifs <;> rfl

theorem controller_verify_send (w : Env) (cfg : signer_config_t) (orig_method orig_uri : List Char)
    (sig : portal_sig_t) (bytes : List Char)
    (h : Event.send bytes ∈ (controller_verify w cfg orig_method orig_uri sig).2) :
    bytes = verify_request_text cfg (verify_body_text orig_method orig_uri sig).length
        (verify_body_text orig_method orig_uri sig) := by
  by_cases c : cfg.controller_addr ≠ [] ∧ cfg.controller_path ≠ [] ∧
      (verify_body_text orig_method orig_uri sig).length < 1024 ∧
      (verify_request_text cfg (verify_body_text orig_method orig_uri sig).length
        (verify_body_text orig_method orig_uri sig)).length < 2048 ∧
      w.socket_ok = true ∧ w.inet_pton cfg.controller_addr = true ∧ w.connect_ok = true
  · obtain ⟨ha, hp, hb, hr, hs, hi, hc⟩ := c
    rw [controller_verify_eq w cfg orig_method orig_uri sig ha hp hb hr hs hi hc] at h
    simpa using h
  · exfalso
    unfold controller_verify at h
    by_cases h1 : cfg.controller_addr = [] ∨ cfg.controller_path = []
    · simp [h1] at h
    rw [if_neg h1] at h
    by_cases h2 : ((verify_body_text orig_method orig_uri sig).length : Int) ≤ 0 ∨
        ((verify_body_text orig_method orig_uri sig).length : Int) ≥ 1024
    · simp only [h2, if_true] at h
      simp at h
    simp only [h2, if_false] at h
    have hb : (verify_body_text orig_method orig_uri sig).length < 1024 := by omega
    rw [snprintf_of_lt 1024 _ hb] at h
    by_cases h3 : w.socket_ok = false
    · simp [h3] at h
    by_cases h4 : w.inet_pton cfg.controller_addr = false
    · simp [h3, h4] at h
    by_cases h5 : w.connect_ok = false
    · simp [h3, h4, h5] at h
    simp only [h3, h4, h5, if_false] at h
    by_cases h6 : ((verify_request_text cfg (verify_body_text orig_method orig_uri sig).length
          (verify_body_text orig_method orig_uri sig)).length : Int) ≤ 0 ∨
        ((verify_request_text cfg (verify_body_text orig_method orig_uri sig).length
          (verify_body_text orig_method orig_uri sig)).length : Int) ≥ 2048
    · simp only [h6, if_true] at h
      simp at h
    have hr : (verify_request_text cfg (verify_body_text orig_method orig_uri sig).length
          (verify_body_text orig_method orig_uri sig)).length < 2048 := by omega
    apply c
    refine ⟨?_, ?_, hb, hr, ?_, ?_, ?_⟩
    · exact fun h => h1 (Or.inl h)
    · exact fun h => h1 (Or.inr h)
    · simpa using h3
    · simpa using h4
    · simpa using h5

/-- C9: every request `controller_verify` writes to the controller is
`POST <controller_path> HTTP/1.1` with the headers Host, Content-Type:
application/json, Content-Length (the byte length of the body) and Connection:
close, followed by the JSON body with the original method and URI as received
and the security object `kid` = v1, timestamp, nonce, signature; and it writes
that request, on a connection to the configured address and to the port
`controller_port` modulo 65536, whenever the controller is configured and
connected and the texts fit their buffers. -/
theorem controller_verify_request (w : Env) (cfg : signer_config_t)
    (orig_method orig_uri : List Char) (sig : portal_sig_t) (body request : List Char)
    (hbody : body =
      "\x7b\"method\":\"".toList ++ orig_method ++ "\",\"uri\":\"".toList ++ orig_uri ++
        "\",\"security\":\x7b\"kid\":\"v1\",\"timestamp\":\"".toList ++ sig.timestamp ++
        "\",\"nonce\":\"".toList ++ sig.nonce ++ "\",\"signature\":\"".toList ++
        sig.signature ++ "\"\x7d\x7d".toList)
    (hreq : request =
      "POST ".toList ++ cfg.controller_path ++ " HTTP/1.1\r\n".toList ++
        "Host: ".toList ++ cfg.controller_addr ++ ":".toList ++ fmt_d cfg.controller_port ++
        "\r\n".toList ++ "Content-Type: application/json\r\n".toList ++
        "Content-Length: ".toList ++ fmt_d body.length ++ "\r\n".toList ++
        "Connection: close\r\n".toList ++ "\r\n".toList ++ body) :
    (∀ bytes, Event.send bytes ∈ (controller_verify w cfg orig_method orig_uri sig).2 →
        bytes = request) ∧
      (cfg.controller_addr ≠ [] → cfg.controller_path ≠ [] → body.length < 1024 →
        request.length < 2048 → w.socket_ok = true → w.inet_pton cfg.controller_addr = true →
        w.connect_ok = true →
        (controller_verify w cfg orig_method orig_uri sig).2 =
          [Event.connect cfg.controller_addr (cfg.controller_port % 65536),
            Event.send request]) := by
  have hb : body = verify_body_text orig_method orig_uri sig := by
    rw [hbody]
    simp [verify_body_text]
  have hr : request = verify_request_text cfg (verify_body_text orig_method orig_uri sig).length
      (verify_body_text orig_method orig_uri sig) := by
    rw [hreq, hb]
    simp [verify_request_text]
  constructor
  · intro bytes h
    rw [hr]
    exact controller_verify_send w cfg orig_method orig_uri sig bytes h
  · intro ha hp hbl hrl hs hi hc
    rw [hb] at hbl
    rw [hr] at hrl
    rw [controller_verify_eq w cfg orig_method orig_uri sig ha hp hbl hrl hs hi hc, hr]

/-- C9, an instance: the request written for GET /a?b=1 and a signature. -/
theorem controller_verify_request_witness :
    (controller_verify (example_env []) example_cfg "GET".toList "/a?b=1".toList
        ⟨"1700000000".toList, "1700000000-1a2b3c4d00000005".toList,
          "baSm6hPVvg+JpqyNNIqKKFrNXR6D62xbnyxxHQAdO4Y=".toList⟩).2 =
      [Event.connect "127.0.0.1".toList 9090,
        Event.send ("POST /portal/context/verify HTTP/1.1\r\nHost: 127.0.0.1:9090\r\n".toList ++
          "Content-Type: application/json\r\nContent-Length: 177\r\n".toList ++
          "Connection: close\r\n\r\n".toList ++
          "\x7b\"method\":\"GET\",\"uri\":\"/a?b=1\",\"security\":\x7b\"kid\":\"v1\",".toList ++
          "\"timestamp\":\"1700000000\",\"nonce\":\"1700000000-1a2b3c4d00000005\",".toList ++
          "\"signature\":\"baSm6hPVvg+JpqyNNIqKKFrNXR6D62xbnyxxHQAdO4Y=\"\x7d\x7d".toList)] :=
  ((controller_verify_request (example_env []) example_cfg "GET".toList "/a?b=1".toList
    ⟨"1700000000".toList, "1700000000-1a2b3c4d00000005".toList,
      "baSm6hPVvg+JpqyNNIqKKFrNXR6D62xbnyxxHQAdO4Y=".toList⟩ _ _ rfl rfl).2
    (by decide) (by decide) (by decide!) (by decide!) rfl rfl rfl).trans (by decide!)

/-- The port of the connection is the configured `int` modulo 65536: with
`controller_port` 74626 the request goes to port 9090, and its `Host` header
names port 74626. -/
theorem controller_verify_port_wraps :
    (controller_verify (example_env []) ⟨"127.0.0.1".toList, 9000, "127.0.0.1".toList, 74626,
        "/v".toList, "/k".toList⟩ "GET".toList "/a".toList
        ⟨"1".toList, "2".toList, "3".toList⟩).2 =
      [Event.connect "127.0.0.1".toList 9090,
        Event.send ("POST /v HTTP/1.1\r\nHost: 127.0.0.1:74626\r\n".toList ++
          "Content-Type: application/json\r\nContent-Length: 95\r\n".toList ++
          "Connection: close\r\n\r\n".toList ++
          "\x7b\"method\":\"GET\",\"uri\":\"/a\",\"security\":\x7b\"kid\":\"v1\",".toList ++
          "\"timestamp\":\"1\",\"nonce\":\"2\",\"signature\":\"3\"\x7d\x7d".toList)] := by
  decide!

/-! ## The connection handler: routing -/

theorem handle_client_of_request (w : Env) (cfg : signer_config_t) (inp : List RdEv)
    (r : Request) (rest : List RdEv) (hread : read_request w inp = .request r rest) :
    portal_signer_handle_client w cfg inp = some ⟨route w cfg r, rest⟩ := by
  unfold portal_signer_handle_client
  rw [hread]

theorem controller_status_zero (response : List RdEv) :
    controller_status response = 0 ↔
      ∃ line rest code, read_line MAX_LINE response [] = (some line, rest) ∧ line ≠ [] ∧
        scan_status (cstr line) = some code ∧ 200 ≤ code ∧ code ≤ 299 := by
  unfold controller_status
  constructor
  · intro h
    split at h
    · simp at h
    · rename_i buf rest heq
      by_cases h0 : buf.length = 0
      · simp [h0] at h
      · rw [if_neg h0] at h
        split at h
        · simp at h
        · rename_i code hcode
          by_cases hc : code ≥ 200 ∧ code < 300
          · exact ⟨buf, rest, code, heq, fun hb => h0 (by simp [hb]), hcode, hc.1, by omega⟩
          · simp [hc] at h
  · rintro ⟨line, rest, code, hl, hne, hs, h1, h2⟩
    rw [hl]
    have h0 : line.length ≠ 0 := fun h => hne (List.length_eq_zero.mp h)
    simp only [h0, if_false, hs]
    rw [if_pos ⟨h1, by omega⟩]

theorem controller_verify_zero (w : Env) (cfg : signer_config_t)
    (orig_method orig_uri : List Char) (sig : portal_sig_t) :
    (controller_verify w cfg orig_method orig_uri sig).1 = 0 ↔
      controller_allows w cfg orig_method orig_uri sig := by
  unfold controller_allows
  rw [← controller_status_zero]
  constructor
  · intro h
    unfold controller_verify at h
    by_cases h1 : cfg.controller_addr = [] ∨ cfg.controller_path = []
    · simp [h1] at h
    rw [if_neg h1] at h
    by_cases h2 : ((verify_body_text orig_method orig_uri sig).length : Int) ≤ 0 ∨
        ((verify_body_text orig_method orig_uri sig).length : Int) ≥ 1024
    · simp only [h2, if_true] at h
      simp at h
    simp only [h2, if_false] at h
    have hb : (verify_body_text orig_method orig_uri sig).length < 1024 := by omega
    rw [snprintf_of_lt 1024 _ hb] at h
    by_cases h3 : w.socket_ok = false
    · simp [h3] at h
    by_cases h4 : w.inet_pton cfg.controller_addr = false
    · simp [h3, h4] at h
    by_cases h5 : w.connect_ok = false
    · simp [h3, h4, h5] at h
    simp only [h3, h4, h5, if_false] at h
    by_cases h6 : ((verify_request_text cfg (verify_body_text orig_method orig_uri sig).length
          (verify_body_text orig_method orig_uri sig)).length : Int) ≤ 0 ∨
        ((verify_request_text cfg (verify_body_text orig_method orig_uri sig).length
          (verify_body_text orig_method orig_uri sig)).length : Int) ≥ 2048
    · simp only [h6, if_true] at h
      simp at h
    simp only [h6, if_false] at h
    have hr : (verify_request_text cfg (verify_body_text orig_method orig_uri sig).length
          (verify_body_text orig_method orig_uri sig)).length < 2048 := by omega
    rw [snprintf_of_lt 2048 _ hr] at h
    by_cases h7 : w.write_ok (verify_request_text cfg
        (verify_body_text orig_method orig_uri sig).length
        (verify_body_text orig_method orig_uri sig)) = false
    · simp [h7] at h
    simp only [h7, if_false] at h
    refine ⟨fun h => h1 (Or.inl h), fun h => h1 (Or.inr h), hb, hr, ?_, ?_, ?_, ?_, h⟩
    · simpa using h3
    · simpa using h4
    · simpa using h5
    · simpa using h7
  · rintro ⟨ha, hp, hb, hr, hs, hi, hc, hw, hst⟩
    rw [controller_verify_eq w cfg orig_method orig_uri sig ha hp hb hr hs hi hc]
    simp only [hw, Bool.true_eq_false, if_false]
    exact hst

theorem controller_verify_no_write (w : Env) (cfg : signer_config_t)
    (orig_method orig_uri : List Char) (sig : portal_sig_t) :
    client_writes (controller_verify w cfg orig_method orig_uri sig).2 = [] := by
  unfold controller_verify
  by_cases h1 : cfg.controller_addr = [] ∨ cfg.controller_path = []
  · rw [if_pos h1]; rfl
  rw [if_neg h1]
  by_cases h2 : ((verify_body_text orig_method orig_uri sig).length : Int) ≤ 0 ∨
      ((verify_body_text orig_method orig_uri sig).length : Int) ≥ 1024
  · simp only [h2, if_true]; rfl
  simp only [h2, if_false]
  by_cases h3 : w.socket_ok = false
  · simp only [h3, if_true]; rfl
  by_cases h4 : w.inet_pton cfg.controller_addr = false
  · simp only [h3, h4, if_true, if_false]; rfl
  by_cases h5 : w.connect_ok = false
  · simp only [h3, h4, h5, if_true, if_false]; rfl
  simp only [h3, h4, h5, if_false]
  split_ifs <;> rfl

theorem client_writes_append (a b : List Event) :
    client_writes (a ++ b) = client_writes a ++ client_writes b := by
  induction a with
  | nil => rfl
  | cons e t ih => cases e <;> simp [client_writes, ih]

theorem route_verify (w : Env) (cfg : signer_config_t) (r : Request)
    (hnot : ¬ (r.req_method = "POST".toList ∧ r.req_path = "/sign".toList))
    (hm : r.orig_method ≠ []) (hu : r.orig_uri ≠ []) :
    route w cfg r =
      Event.sign r.orig_method (split_uri r.orig_uri 512 512).1 (split_uri r.orig_uri 512 512).2
          [] ::
        (if (portal_sign_v1_hmac_sha256_base64 w cfg.key_file r.orig_method
            (split_uri r.orig_uri 512 512).1 (some (split_uri r.orig_uri 512 512).2) (some [])
            ⟨[], [], []⟩).1 ≠ 0 then http_reply 500 "Internal Server Error".toList
         else
           (controller_verify w cfg r.orig_method r.orig_uri
              (portal_sign_v1_hmac_sha256_base64 w cfg.key_file r.orig_method
                (split_uri r.orig_uri 512 512).1 (some (split_uri r.orig_uri 512 512).2)
                (some []) ⟨[], [], []⟩).2).2 ++
             (if (controller_verify w cfg r.orig_method r.orig_uri
                (portal_sign_v1_hmac_sha256_base64 w cfg.key_file r.orig_method
                  (split_uri r.orig_uri 512 512).1 (some (split_uri r.orig_uri 512 512).2)
                  (some []) ⟨[], [], []⟩).2).1 = 0 then http_reply 204 "No Content".toList
              else http_reply 401 "Unauthorized".toList)) := by
  unfold route
  have h2 : ¬ (r.orig_method = [] ∨ r.orig_uri = []) := by
    rintro (h | h)
    · exact hm h
    · exact hu h
  rw [if_neg hnot, if_neg h2]

/-- In the verify flow, once signing has succeeded, the handler answers 204
exactly when the controller call completed and the `int` that `sscanf` stores
for the first line of the controller's response is from 200 to 299, and it
answers 401 in every other case. -/
theorem verify_flow_fail_closed (w : Env) (cfg : signer_config_t) (inp : List RdEv)
    (r : Request) (rest : List RdEv) (sig : portal_sig_t)
    (hread : read_request w inp = .request r rest)
    (hnot : ¬ (r.req_method = "POST".toList ∧ r.req_path = "/sign".toList))
    (hm : r.orig_method ≠ []) (hu : r.orig_uri ≠ [])
    (hsign : portal_sign_v1_hmac_sha256_base64 w cfg.key_file r.orig_method
      (split_uri r.orig_uri 512 512).1 (some (split_uri r.orig_uri 512 512).2) (some [])
      ⟨[], [], []⟩ = (0, sig)) :
    ∃ trace, portal_signer_handle_client w cfg inp = some ⟨trace, rest⟩ ∧
      (client_writes trace = [http_reply_text 204 "No Content".toList] ↔
        controller_allows w cfg r.orig_method r.orig_uri sig) ∧
      (¬ controller_allows w cfg r.orig_method r.orig_uri sig →
        client_writes trace = [http_reply_text 401 "Unauthorized".toList]) := by
  refine ⟨_, handle_client_of_request w cfg inp r rest hread, ?_⟩
  rw [route_verify w cfg r hnot hm hu, hsign]
  simp only [ne_eq, not_true_eq_false, if_false, client_writes, client_writes_append,
    controller_verify_no_write, List.nil_append]
  have hne : http_reply_text 401 "Unauthorized".toList ≠ http_reply_text 204 "No Content".toList := by
    decide
  by_cases ha : controller_allows w cfg r.orig_method r.orig_uri sig
  · have h0 := (controller_verify_zero w cfg r.orig_method r.orig_uri sig).mpr ha
    simp [h0, ha, http_reply, client_writes]
  · have h0 : ¬ (controller_verify w cfg r.orig_method r.orig_uri sig).1 = 0 := fun h =>
      ha ((controller_verify_zero w cfg r.orig_method r.orig_uri sig).mp h)
    simp [h0, ha, http_reply, client_writes]
    exact hne

/-- An instance: a verify request whose controller answers 204 is answered
204. -/
theorem verify_flow_fail_closed_witness :
    ∃ trace,
      portal_signer_handle_client (example_env "HTTP/1.1 204 No Content\r\n\r\n".toList)
          example_cfg
          (stream ("GET /auth HTTP/1.1\r\nX-Original-Method: GET\r\n".toList ++
            "X-Original-URI: /a?b=1\r\n\r\n".toList)) = some ⟨trace, []⟩ ∧
        client_writes trace = [http_reply_text 204 "No Content".toList] := by
  obtain ⟨trace, h1, h2, _⟩ := verify_flow_fail_closed
    (example_env "HTTP/1.1 204 No Content\r\n\r\n".toList) example_cfg
    (stream ("GET /auth HTTP/1.1\r\nX-Original-Method: GET\r\n".toList ++
      "X-Original-URI: /a?b=1\r\n\r\n".toList))
    ⟨"GET".toList, "/auth".toList, "GET".toList, "/a?b=1".toList, none⟩ []
    ⟨"1700000000".toList, "1700000000-1a2b3c4d00000005".toList,
      "baSm6hPVvg+JpqyNNIqKKFrNXR6D62xbnyxxHQAdO4Y=".toList⟩
    (by decide!) (by decide) (by decide) (by decide) (by decide!)
  refine ⟨trace, h1, h2.mpr ?_⟩
  refine ⟨by decide, by decide, by decide!, by decide!, rfl, rfl, rfl, rfl,
    "HTTP/1.1 204 No Content\r\n".toList, stream "\r\n".toList, 204, by decide!, by decide,
    by decide!, by decide, by decide⟩

/-- A verify request whose controller answers 403 is answered 401. -/
theorem verify_flow_denied_example :
    (portal_signer_handle_client (example_env "HTTP/1.1 403 Forbidden\r\n\r\n".toList)
        example_cfg
        (stream ("GET /auth HTTP/1.1\r\nX-Original-Method: GET\r\n".toList ++
          "X-Original-URI: /a?b=1\r\n\r\n".toList))).map (fun o => client_writes o.trace) =
      some [http_reply_text 401 "Unauthorized".toList] := by
  decide!

/-- C3, the failing input: the controller answers a verify request with the
status line `HTTP/1.1 4294967496 OK`. The status code is not in 200..299, but
`sscanf` converts the digits with `%d` and the `int` it stores is 200, so the
handler answers 204 where the claim promises 401. -/
theorem status_code_wraps :
    decimal_value "4294967496".toList = 4294967496 ∧
      scan_status "HTTP/1.1 4294967496 OK\r\n".toList = some 200 ∧
      (portal_signer_handle_client (example_env "HTTP/1.1 4294967496 OK\r\n\r\n".toList)
          example_cfg
          (stream ("GET /auth HTTP/1.1\r\nX-Original-Method: GET\r\n".toList ++
            "X-Original-URI: /a?b=1\r\n\r\n".toList))).map (fun o => client_writes o.trace) =
        some [http_reply_text 204 "No Content".toList] := by
  decide!

/-! ## The connection handler: signing failures -/

theorem trim_eq_nil_iff (l : List Char) : trim l = [] ↔ ∀ c ∈ l, isspace c = true := by
  unfold trim
  constructor
  · intro h
    by_cases hd : l.dropWhile isspace = []
    · exact List.dropWhile_eq_nil_iff.mp hd
    · exfalso
      have hall := List.rdropWhile_eq_nil_iff.mp h
      cases hl : l.dropWhile isspace with
      | nil => exact hd hl
      | cons a t =>
        have ha : isspace a = true := hall a (by rw [hl]; exact List.mem_cons_self a t)
        have hna := List.head_dropWhile_not isspace l (by rw [hl]; simp)
        simp only [hl, List.head_cons] at hna
        rw [ha] at hna
        exact absurd hna (by decide)
  · intro h
    rw [List.dropWhile_eq_nil_iff.mpr h]
    rfl

theorem read_key_file_blank (w : Env) (path content : List Char)
    (hopen : w.fopen path = some content) (hblank : trim content = []) :
    (read_key_file w path).1 ≠ 0 := by
  have hall := (trim_eq_nil_iff content).mp hblank
  have hall2 : ∀ c ∈ content.take 4095, isspace c = true := fun c hc =>
    hall c (List.mem_of_mem_take hc)
  generalize hbuf : content.take 4095 = buf at hall2
  have htw : buf.takeWhile isspace = buf := List.takeWhile_eq_self_iff.mpr hall2
  have hke := key_end_le buf (buf.takeWhile isspace).length buf.length
  rw [htw] at hke
  unfold read_key_file
  simp only [hopen, hbuf]
  split_ifs with h1 h2 h3
  · decide
  · decide
  · decide
  · exfalso
    apply h2
    rw [htw]
    omega

theorem portal_sign_v1_rc_zero (w : Env) (key_file method path : List Char)
    (raw_query body : Option (List Char)) (out_sig : portal_sig_t)
    (h : (portal_sign_v1_hmac_sha256_base64 w key_file method path raw_query body out_sig).1 = 0) :
    (read_key_file w key_file).1 = 0 ∧
      ∃ C mac, w.HMAC (read_key_file w key_file).2 C = some mac ∧ 0 < mac.length ∧
        mac.length ≤ 93 ∧
        portal_sign_v1_hmac_sha256_base64 w key_file method path raw_query body out_sig =
          (0, ⟨gen_timestamp w, gen_nonce w, EVP_EncodeBlock mac⟩) := by
  unfold portal_sign_v1_hmac_sha256_base64 at h ⊢
  by_cases hk : (read_key_file w key_file).1 ≠ 0
  · simp [hk] at h
  · simp only [hk, if_false] at h ⊢
    refine ⟨by simpa using hk, ?_⟩
    cases hC : build_canonical_v1 w (gen_timestamp w) (gen_nonce w) method path raw_query body with
    | none => simp [hC] at h
    | some C =>
      simp only [hC] at h ⊢
      unfold hmac_sha256_base64 at h ⊢
      cases hm : w.HMAC (read_key_file w key_file).2 C with
      | none => simp [hm] at h
      | some mac =>
        simp only [hm] at h ⊢
        by_cases h0 : mac.length = 0
        · simp [h0] at h
        · simp only [h0, if_false] at h ⊢
          by_cases h1 : 4 * ((mac.length + 2) / 3) + 1 > 128
          · simp [h1] at h
          · simp only [h1, if_false]
            refine ⟨C, mac, hm, by omega, by omega, ?_⟩
            rw [List.take_of_length_le]
            rw [EVP_EncodeBlock_length]

theorem portal_sign_v1_fails (w : Env) (key_file : List Char)
    (hfail : w.fopen key_file = none ∨
      (∃ content, w.fopen key_file = some content ∧ trim content = []) ∨
      (∀ key msg, w.HMAC key msg = none))
    (method path : List Char) (raw_query body : Option (List Char)) (out_sig : portal_sig_t) :
    (portal_sign_v1_hmac_sha256_base64 w key_file method path raw_query body out_sig).1 ≠ 0 := by
  intro h
  obtain ⟨hk, C, mac, hm, _, _, _⟩ :=
    portal_sign_v1_rc_zero w key_file method path raw_query body out_sig h
  rcases hfail with hf | ⟨content, hopen, hblank⟩ | hf
  · unfold read_key_file at hk
    simp [hf] at hk
  · exact read_key_file_blank w key_file content hopen hblank hk
  · rw [hf] at hm
    exact absurd hm (by simp)

theorem handle_sign_endpoint_eq (w : Env) (cfg : signer_config_t) (req_body : List Char)
    (hm : (json_get_string req_body "method".toList [] 16).1 = 0)
    (hp : (json_get_string req_body "path".toList [] 512).1 = 0) :
    handle_sign_endpoint w cfg req_body =
      Event.sign (json_get_string req_body "method".toList [] 16).2
          (json_get_string req_body "path".toList [] 512).2
          (json_optional req_body "raw_query".toList 512)
          (json_optional req_body "body".toList MAX_BODY) ::
        (if (portal_sign_v1_hmac_sha256_base64 w cfg.key_file
            (json_get_string req_body "method".toList [] 16).2
            (json_get_string req_body "path".toList [] 512).2
            (some (json_optional req_body "raw_query".toList 512))
            (some (json_optional req_body "body".toList MAX_BODY)) ⟨[], [], []⟩).1 ≠ 0
         then http_reply 500 "Internal Server Error".toList
         else http_reply_json 200 (snprintf 512 (sign_response_text
           (portal_sign_v1_hmac_sha256_base64 w cfg.key_file
             (json_get_string req_body "method".toList [] 16).2
             (json_get_string req_body "path".toList [] 512).2
             (some (json_optional req_body "raw_query".toList 512))
             (some (json_optional req_body "body".toList MAX_BODY)) ⟨[], [], []⟩).2))) := by
  unfold handle_sign_endpoint
  simp only [hm, hp, ne_eq, not_true_eq_false, if_false]

theorem route_sign (w : Env) (cfg : signer_config_t) (r : Request)
    (hm : r.req_method = "POST".toList) (hp : r.req_path = "/sign".toList) :
    route w cfg r =
      match r.body with
      | none => http_reply 400 "Bad Request".toList
      | some body => handle_sign_endpoint w cfg (cstr body) := by
  unfold route
  rw [if_pos ⟨hm, hp⟩]

/-- C6: in both flows a failing signer is answered 500 and nothing else
happens: the trace is the call of the signer followed by the 500 reply, so the
controller is not called and neither 401 nor 204 is written. The signer fails
whenever the key file cannot be opened, trims to nothing, or the HMAC
primitive fails. -/
theorem signer_failure_is_500 (w : Env) (cfg : signer_config_t) (inp : List RdEv)
    (r : Request) (rest : List RdEv) (hread : read_request w inp = .request r rest) :
    ((w.fopen cfg.key_file = none ∨
        (∃ content, w.fopen cfg.key_file = some content ∧ trim content = []) ∨
        (∀ key msg, w.HMAC key msg = none)) →
      ∀ method path raw_query body out_sig,
        (portal_sign_v1_hmac_sha256_base64 w cfg.key_file method path raw_query body
          out_sig).1 ≠ 0) ∧
    (∀ body, r.req_method = "POST".toList → r.req_path = "/sign".toList →
      r.body = some body →
      (json_get_string (cstr body) "method".toList [] 16).1 = 0 →
      (json_get_string (cstr body) "path".toList [] 512).1 = 0 →
      (portal_sign_v1_hmac_sha256_base64 w cfg.key_file
        (json_get_string (cstr body) "method".toList [] 16).2
        (json_get_string (cstr body) "path".toList [] 512).2
        (some (json_optional (cstr body) "raw_query".toList 512))
        (some (json_optional (cstr body) "body".toList MAX_BODY)) ⟨[], [], []⟩).1 ≠ 0 →
      portal_signer_handle_client w cfg inp =
        some ⟨[Event.sign (json_get_string (cstr body) "method".toList [] 16).2
            (json_get_string (cstr body) "path".toList [] 512).2
            (json_optional (cstr body) "raw_query".toList 512)
            (json_optional (cstr body) "body".toList MAX_BODY),
          Event.write (http_reply_text 500 "Internal Server Error".toList)], rest⟩) ∧
    (¬ (r.req_method = "POST".toList ∧ r.req_path = "/sign".toList) →
      r.orig_method ≠ [] → r.orig_uri ≠ [] →
      (portal_sign_v1_hmac_sha256_base64 w cfg.key_file r.orig_method
        (split_uri r.orig_uri 512 512).1 (some (split_uri r.orig_uri 512 512).2) (some [])
        ⟨[], [], []⟩).1 ≠ 0 →
      portal_signer_handle_client w cfg inp =
        some ⟨[Event.sign r.orig_method (split_uri r.orig_uri 512 512).1
            (split_uri r.orig_uri 512 512).2 [],
          Event.write (http_reply_text 500 "Internal Server Error".toList)], rest⟩) := by
  refine ⟨fun hfail method path raw_query body out_sig =>
    portal_sign_v1_fails w cfg.key_file hfail method path raw_query body out_sig, ?_, ?_⟩
  · intro body hm hp hb hjm hjp hs
    rw [handle_client_of_request w cfg inp r rest hread, route_sign w cfg r hm hp, hb]
    simp only [handle_sign_endpoint_eq w cfg (cstr body) hjm hjp, if_pos hs, http_reply]
  · intro hnot hm hu hs
    rw [handle_client_of_request w cfg inp r rest hread, route_verify w cfg r hnot hm hu,
      if_pos hs]
    rfl

/-- C6, an instance: with no key file at the configured path, a verify request
is answered 500 and the controller is not called. -/
theorem signer_failure_is_500_witness :
    portal_signer_handle_client
        { example_env "HTTP/1.1 204 No Content\r\n\r\n".toList with fopen := fun _ => none }
        example_cfg
        (stream ("GET /auth HTTP/1.1\r\nX-Original-Method: GET\r\n".toList ++
          "X-Original-URI: /a?b=1\r\n\r\n".toList)) =
      some ⟨[Event.sign "GET".toList "/a".toList "b=1".toList [],
        Event.write "HTTP/1.1 500 Internal Server Error\r\nContent-Length: 0\r\n\r\n".toList],
        []⟩ :=
  ((signer_failure_is_500
    { example_env "HTTP/1.1 204 No Content\r\n\r\n".toList with fopen := fun _ => none }
    example_cfg
    (stream ("GET /auth HTTP/1.1\r\nX-Original-Method: GET\r\n".toList ++
      "X-Original-URI: /a?b=1\r\n\r\n".toList))
    ⟨"GET".toList, "/auth".toList, "GET".toList, "/a?b=1".toList, none⟩ []
    (by decide!)).2.2 (by decide) (by decide) (by decide) (by decide!)).trans (by decide!)

/-- C7: for a request `POST /sign`, a missing body and a failure of the
extractor for `method` or for `path` are answered 400 without any call of the
signer; once both are extracted the signer is called and the answer is 500 or
200, whatever the extractor yields for `raw_query` and `body`. -/
theorem sign_endpoint_bad_request (w : Env) (cfg : signer_config_t) (inp : List RdEv)
    (r : Request) (rest : List RdEv) (hread : read_request w inp = .request r rest)
    (hm : r.req_method = "POST".toList) (hp : r.req_path = "/sign".toList) :
    (r.body = none →
      portal_signer_handle_client w cfg inp =
        some ⟨[Event.write (http_reply_text 400 "Bad Request".toList)], rest⟩) ∧
    (∀ body, r.body = some body →
      ((json_get_string (cstr body) "method".toList [] 16).1 ≠ 0 ∨
        (json_get_string (cstr body) "path".toList [] 512).1 ≠ 0) →
      portal_signer_handle_client w cfg inp =
        some ⟨[Event.write (http_reply_text 400 "Bad Request".toList)], rest⟩) ∧
    (∀ body, r.body = some body →
      (json_get_string (cstr body) "method".toList [] 16).1 = 0 →
      (json_get_string (cstr body) "path".toList [] 512).1 = 0 →
      ∃ reply, portal_signer_handle_client w cfg inp =
          some ⟨Event.sign (json_get_string (cstr body) "method".toList [] 16).2
            (json_get_string (cstr body) "path".toList [] 512).2
            (json_optional (cstr body) "raw_query".toList 512)
            (json_optional (cstr body) "body".toList MAX_BODY) :: reply, rest⟩ ∧
        (reply = [Event.write (http_reply_text 500 "Internal Server Error".toList)] ∨
          ∃ json, reply = [Event.write (http_reply_json_header 200 json.length),
            Event.write json])) := by
  rw [handle_client_of_request w cfg inp r rest hread, route_sign w cfg r hm hp]
  refine ⟨?_, ?_, ?_⟩
  · intro hb
    rw [hb]
    rfl
  · intro body hb hj
    rw [hb]
    simp only
    unfold handle_sign_endpoint
    by_cases h1 : (json_get_string (cstr body) "method".toList [] 16).1 ≠ 0
    · rw [if_pos h1]
      rfl
    · have h2 : (json_get_string (cstr body) "path".toList [] 512).1 ≠ 0 := by
        rcases hj with h | h
        · exact absurd h h1
        · exact h
      rw [if_neg h1, if_pos h2]
      rfl
  · intro body hb hjm hjp
    rw [hb]
    simp only [handle_sign_endpoint_eq w cfg (cstr body) hjm hjp]
    split_ifs
    · exact ⟨_, rfl, Or.inl rfl⟩
    · exact ⟨_, rfl, Or.inr ⟨_, rfl⟩⟩

/-- C7, an instance: `POST /sign` without Content-Length is answered 400. -/
theorem sign_endpoint_bad_request_witness :
    portal_signer_handle_client (example_env []) example_cfg
        (stream "POST /sign HTTP/1.1\r\nHost: signer\r\n\r\n".toList) =
      some ⟨[Event.write "HTTP/1.1 400 Bad Request\r\nContent-Length: 0\r\n\r\n".toList], []⟩ :=
  ((sign_endpoint_bad_request (example_env []) example_cfg
    (stream "POST /sign HTTP/1.1\r\nHost: signer\r\n\r\n".toList)
    ⟨"POST".toList, "/sign".toList, [], [], none⟩ [] (by decide!) rfl rfl).1 rfl).trans
    (by decide!)

/-! ## The connection handler: the sign endpoint -/

theorem snprintf_length_le (size : Nat) (text : List Char) :
    (snprintf size text).length ≤ size - 1 := by
  unfold snprintf
  rw [List.length_take]
  omega

theorem fmt_d_length_small : ∀ n : Nat, n < 1000 → (fmt_d (n : Int)).length ≤ 3 := by
  decide!

/-- The five replies without a body, as the bytes on the wire. -/
theorem http_reply_texts :
    http_reply_text 400 "Bad Request".toList =
        "HTTP/1.1 400 Bad Request\r\nContent-Length: 0\r\n\r\n".toList ∧
      http_reply_text 413 "Payload Too Large".toList =
        "HTTP/1.1 413 Payload Too Large\r\nContent-Length: 0\r\n\r\n".toList ∧
      http_reply_text 500 "Internal Server Error".toList =
        "HTTP/1.1 500 Internal Server Error\r\nContent-Length: 0\r\n\r\n".toList ∧
      http_reply_text 204 "No Content".toList =
        "HTTP/1.1 204 No Content\r\nContent-Length: 0\r\n\r\n".toList ∧
      http_reply_text 401 "Unauthorized".toList =
        "HTTP/1.1 401 Unauthorized\r\nContent-Length: 0\r\n\r\n".toList := by
  decide

theorem http_reply_json_header_eq (body_len : Nat) (h : body_len < 1000) :
    http_reply_json_header 200 body_len =
      "HTTP/1.1 200 OK\r\nContent-Type: application/json\r\nContent-Length: ".toList ++
        fmt_d body_len ++ "\r\n\r\n".toList := by
  have hl := fmt_d_length_small body_len h
  have h200 : fmt_d 200 = "200".toList := by decide
  unfold http_reply_json_header
  rw [h200, snprintf_of_lt]
  · have e : "HTTP/1.1 ".toList ++ "200".toList ++
        " OK\r\nContent-Type: application/json\r\nContent-Length: ".toList =
        "HTTP/1.1 200 OK\r\nContent-Type: application/json\r\nContent-Length: ".toList := by
      decide
    rw [e]
  · have e1 : "HTTP/1.1 ".toList.length = 9 := by decide
    have e2 : "200".toList.length = 3 := by decide
    have e3 : " OK\r\nContent-Type: application/json\r\nContent-Length: ".toList.length = 53 := by
      decide
    have e4 : "\r\n\r\n".toList.length = 4 := by decide
    simp only [List.length_append, e1, e2, e3, e4]
    omega

/-- The reply of the sign endpoint in terms of the calls the handler makes:
when `json_get_string` returns 0 for `method` and for `path`, with a key file
whose first 4095 bytes trim to a non-empty key, and with allocation and the
HMAC primitive succeeding, the handler calls the signer on what the four calls
stored and writes a 200 response with the timestamp, nonce and signature of
that signing. -/
theorem sign_endpoint_reply (w : Env) (cfg : signer_config_t) (inp : List RdEv)
    (r : Request) (rest : List RdEv) (body content : List Char)
    (hread : read_request w inp = .request r rest)
    (hm : r.req_method = "POST".toList) (hp : r.req_path = "/sign".toList)
    (hb : r.body = some body)
    (hjm : (json_get_string (cstr body) "method".toList [] 16).1 = 0)
    (hjp : (json_get_string (cstr body) "path".toList [] 512).1 = 0)
    (hopen : w.fopen cfg.key_file = some content) (hkey : trim (content.take 4095) ≠ [])
    (hmk : w.malloc_key = true) (hmc : w.malloc_canonical = true)
    (hmac : ∀ msg, ∃ mac, w.HMAC (trim (content.take 4095)) msg = some mac ∧ mac.length = 32) :
    ∃ sig json,
      portal_sign_v1_hmac_sha256_base64 w cfg.key_file
          (json_get_string (cstr body) "method".toList [] 16).2
          (json_get_string (cstr body) "path".toList [] 512).2
          (some (json_optional (cstr body) "raw_query".toList 512))
          (some (json_optional (cstr body) "body".toList MAX_BODY)) ⟨[], [], []⟩ = (0, sig) ∧
        sig.signature ≠ [] ∧
        json = "\x7b\"kid\":\"v1\",\"timestamp\":\"".toList ++ sig.timestamp ++
          "\",\"nonce\":\"".toList ++ sig.nonce ++ "\",\"signature\":\"".toList ++
          sig.signature ++ "\"\x7d".toList ∧
        portal_signer_handle_client w cfg inp =
          some ⟨[Event.sign (json_get_string (cstr body) "method".toList [] 16).2
              (json_get_string (cstr body) "path".toList [] 512).2
              (json_optional (cstr body) "raw_query".toList 512)
              (json_optional (cstr body) "body".toList MAX_BODY),
            Event.write
              ("HTTP/1.1 200 OK\r\nContent-Type: application/json\r\nContent-Length: ".toList ++
                fmt_d json.length ++ "\r\n\r\n".toList),
            Event.write json], rest⟩ := by
  have hC := build_canonical_v1_eq w (gen_timestamp w) (gen_nonce w)
    (json_get_string (cstr body) "method".toList [] 16).2
    (json_get_string (cstr body) "path".toList [] 512).2
    (some (json_optional (cstr body) "raw_query".toList 512))
    (some (json_optional (cstr body) "body".toList MAX_BODY)) hmc
  obtain ⟨mac, hmc2, hl⟩ := hmac _
  have hv := portal_sign_v1_value w cfg.key_file _ _ _ _ ⟨[], [], []⟩ content _ mac
    hopen hkey hmk hC hmc2 (by omega) (by omega)
  have hsl : (EVP_EncodeBlock mac).length = 44 := by
    rw [EVP_EncodeBlock_length, hl]
  have hts := snprintf_length_le 32 (fmt_d w.time_timestamp)
  have hno := snprintf_length_le 64
    (fmt_d w.time_nonce ++ Char.ofNat 45 :: (fmt_08lx w.rand1 ++ fmt_08lx w.rand2))
  have htext : sign_response_text ⟨gen_timestamp w, gen_nonce w, EVP_EncodeBlock mac⟩ =
      "\x7b\"kid\":\"v1\",\"timestamp\":\"".toList ++ gen_timestamp w ++
        "\",\"nonce\":\"".toList ++ gen_nonce w ++ "\",\"signature\":\"".toList ++
        EVP_EncodeBlock mac ++ "\"\x7d".toList := by
    simp [sign_response_text]
  have hfit : (sign_response_text ⟨gen_timestamp w, gen_nonce w, EVP_EncodeBlock mac⟩).length
      < 512 := by
    rw [htext]
    have e1 : "\x7b\"kid\":\"v1\",\"timestamp\":\"".toList.length = 25 := by decide
    have e2 : "\",\"nonce\":\"".toList.length = 11 := by decide
    have e3 : "\",\"signature\":\"".toList.length = 15 := by decide
    have e4 : "\"\x7d".toList.length = 2 := by decide
    simp only [List.length_append, hsl, e1, e2, e3, e4]
    unfold gen_timestamp gen_nonce
    omega
  refine ⟨_, _, hv, ?_, rfl, ?_⟩
  · intro h
    have := congrArg List.length h
    simp only [hsl, List.length_nil] at this
    omega
  · rw [htext] at hfit
    rw [handle_client_of_request w cfg inp r rest hread, route_sign w cfg r hm hp, hb]
    simp only [handle_sign_endpoint_eq w cfg (cstr body) hjm hjp, hv, ne_eq,
      not_true_eq_false, if_false, htext, snprintf_of_lt 512 _ hfit, http_reply_json]
    rw [http_reply_json_header_eq _ (by omega)]

/-- The scenario of the specification for the sign endpoint: the sign request
for GET /x with query `a=1` and an empty body is answered 200 with `kid` v1
and a signature. -/
theorem sign_endpoint_scenario :
    (portal_signer_handle_client (example_env []) example_cfg
        (stream ("POST /sign HTTP/1.1\r\nContent-Length: 56\r\n\r\n".toList ++
          "\x7b\"method\":\"GET\",\"path\":\"/x\",\"raw_query\":\"a=1\",\"body\":\"\"\x7d".toList))).map
        (fun o => client_writes o.trace) =
      some ["HTTP/1.1 200 OK\r\nContent-Type: application/json\r\nContent-Length: 134\r\n\r\n".toList,
        ("\x7b\"kid\":\"v1\",\"timestamp\":\"1700000000\",".toList ++
          "\"nonce\":\"1700000000-1a2b3c4d00000005\",".toList ++
          "\"signature\":\"gXlctJE1Ql/G/EEiq2fV2EPVmDVKrpuptD3+6RL7bzE=\"\x7d".toList)] := by
  decide!

/-- C2, the claim as stated fails: this body is a flat JSON object with the
string fields `path` and `method`, the key is readable, and the answer is 400,
because the first occurrence of the quoted name `method` is the value of
`path`. -/
theorem sign_endpoint_first_occurrence :
    portal_signer_handle_client (example_env []) example_cfg
        (stream ("POST /sign HTTP/1.1\r\nContent-Length: 34\r\n\r\n".toList ++
          "\x7b\"path\":\"method\",\"method\":\"GET\"\x7d".toList)) =
      some ⟨[Event.write "HTTP/1.1 400 Bad Request\r\nContent-Length: 0\r\n\r\n".toList], []⟩ := by
  decide!

/-! ## The connection handler: reading a request from the wire -/

theorem stream_append (a b : List Char) : stream (a ++ b) = stream a ++ stream b := by
  unfold stream
  exact List.map_append _ _ _

theorem read_line_byte (cap : Nat) (c : Char) (rest : List RdEv) (buf : List Char)
    (h : buf.length + 1 < cap) (hc : c ≠ LF) :
    read_line cap (RdEv.byte c :: rest) buf = read_line cap rest (buf ++ [c]) := by
  simp only [read_line, h, if_true, hc, if_false]

theorem read_line_lf (cap : Nat) (rest : List RdEv) (buf : List Char)
    (h : buf.length + 1 < cap) :
    read_line cap (RdEv.byte LF :: rest) buf = (some (buf ++ [LF]), rest) := by
  simp only [read_line, h, if_true]

theorem read_line_clean (cap : Nat) (srest : List RdEv) :
    ∀ (l buf : List Char), (∀ c ∈ l, c ≠ LF) → buf.length + l.length + 2 < cap →
      read_line cap (stream l ++ RdEv.byte CR :: RdEv.byte LF :: srest) buf =
        (some (buf ++ l ++ [CR, LF]), srest) := by
  intro l
  induction l with
  | nil =>
    intro buf _ hlen
    simp only [List.length_nil] at hlen
    have h2 : (buf ++ [CR]).length + 1 < cap := by
      simp only [List.length_append, List.length_singleton]; omega
    show read_line cap (RdEv.byte CR :: RdEv.byte LF :: srest) buf = _
    rw [read_line_byte cap CR _ buf (by omega) (by decide), read_line_lf cap srest _ h2]
    simp
  | cons a t ih =>
    intro buf hl hlen
    simp only [List.length_cons] at hlen
    have hrec := ih (buf ++ [a]) (fun c hc => hl c (List.mem_cons_of_mem a hc)) (by
      simp only [List.length_append, List.length_singleton]
      omega)
    show read_line cap (RdEv.byte a :: (stream t ++ RdEv.byte CR :: RdEv.byte LF :: srest)) buf = _
    rw [read_line_byte cap a _ buf (by omega) (hl a (List.mem_cons_self a t)), hrec]
    simp

theorem stream_line (l rest : List Char) :
    stream (l ++ [CR, LF] ++ rest) = stream l ++ RdEv.byte CR :: RdEv.byte LF :: stream rest := by
  simp [stream]

theorem cstr_of_no_nul (l : List Char) (h : ∀ c ∈ l, c ≠ NUL) : cstr l = l := by
  unfold cstr
  apply List.takeWhile_eq_self_iff.mpr
  intro c hc
  simpa using h c hc

theorem rstrip_crlf_clean (l : List Char) (h : ∀ c ∈ l, c ≠ CR ∧ c ≠ LF ∧ c ≠ NUL) :
    rstrip_crlf (l ++ [CR, LF]) = l := by
  unfold rstrip_crlf
  have hn : ∀ c ∈ l ++ [CR, LF], c ≠ NUL := by
    intro c hc
    rcases List.mem_append.mp hc with hc | hc
    · exact (h c hc).2.2
    · simp only [List.mem_cons, List.mem_singleton, List.not_mem_nil, or_false] at hc
      rcases hc with hc | hc <;> rw [hc] <;> decide
  rw [cstr_of_no_nul _ hn]
  have e : l ++ [CR, LF] = (l ++ [CR]) ++ [LF] := by simp
  rw [e, List.rdropWhile_concat_pos _ _ _ (by decide),
    List.rdropWhile_concat_pos _ _ _ (by decide)]
  apply List.rdropWhile_eq_self_iff.mpr
  intro hne
  have hm := h _ (List.getLast_mem hne)
  simp [hm.1, hm.2.1]

theorem read_body_stream :
    ∀ (bytes : List Char) (want : Nat) (body : List Char),
      read_body want (stream bytes) body = (some (body ++ bytes.take want), stream (bytes.drop want)) := by
  intro bytes
  induction bytes with
  | nil =>
    intro want body
    cases want <;> simp [read_body, stream]
  | cons a t ih =>
    intro want body
    cases want with
    | zero => simp [read_body, stream]
    | succ n =>
      simp only [stream, List.map_cons, read_body, List.take_succ_cons, List.drop_succ_cons]
      have := ih n (body ++ [a])
      simp only [stream] at this
      rw [this]
      simp

theorem wire_lines_length (hs : List (List Char)) : hs.length ≤ (wire_lines hs).length := by
  induction hs with
  | nil => simp [wire_lines]
  | cons l ls ih =>
    simp only [wire_lines, List.length_cons, List.length_append, List.length_nil]
    omega

theorem read_headers_wire (body : List Char) :
    ∀ (hs : List (List Char)) (fuel : Nat) (h0 h : Headers), hs.length < fuel →
      (∀ l ∈ hs, clean_line l ∧ l ≠ []) → header_lines hs h0 = some h →
      read_headers fuel (stream (wire_lines hs ++ [CR, LF] ++ body)) h0 =
        .done h (stream body) := by
  intro hs
  induction hs with
  | nil =>
    intro fuel h0 h hf _ hh
    obtain ⟨f, rfl⟩ : ∃ f, fuel = f + 1 := ⟨fuel - 1, by omega⟩
    have hl := read_line_clean MAX_LINE (stream body) [] [] (by simp) (by decide)
    have e : stream (wire_lines [] ++ [CR, LF] ++ body) =
        stream [] ++ RdEv.byte CR :: RdEv.byte LF :: stream body := by
      simp [wire_lines, stream]
    rw [e]
    simp only [read_headers, hl, List.nil_append]
    have hr : rstrip_crlf [CR, LF] = [] := by decide
    simp only [hr, if_true, List.length_cons, List.length_nil]
    simp only [header_lines, Option.some.injEq] at hh
    simp [hh]
  | cons l ls ih =>
    intro fuel h0 h hf hc hh
    obtain ⟨f, rfl⟩ : ∃ f, fuel = f + 1 := ⟨fuel - 1, by omega⟩
    obtain ⟨⟨hlen, hchars⟩, hne⟩ := hc l (List.mem_cons_self l ls)
    have hl := read_line_clean MAX_LINE (stream (wire_lines ls ++ [CR, LF] ++ body)) l []
      (fun c hc => (hchars c hc).2.1) (by simp only [List.length_nil, MAX_LINE]; omega)
    have e : wire_lines (l :: ls) ++ [CR, LF] ++ body =
        l ++ [CR, LF] ++ (wire_lines ls ++ [CR, LF] ++ body) := by
      simp [wire_lines]
    rw [e, stream_line]
    simp only [read_headers, hl, List.nil_append]
    have hlen0 : ¬ (l ++ [CR, LF]).length = 0 := by simp
    simp only [hlen0, if_false, rstrip_crlf_clean l hchars, hne]
    simp only [header_lines] at hh
    cases hhl : header_line l h0 with
    | none => simp [hhl] at hh
    | some h2 =>
      simp only [hhl] at hh ⊢
      exact ih f h2 h (by simp only [List.length_cons] at hf; omega)
        (fun x hx => hc x (List.mem_cons_of_mem l hx)) hh

theorem read_request_wire (w : Env) (request_line : List Char) (headers : List (List Char))
    (body req_method req_path : List Char) (h : Headers)
    (hrl : clean_line request_line)
    (hparse : parse_request_line request_line = some (req_method, req_path))
    (hc : ∀ l ∈ headers, clean_line l ∧ l ≠ [])
    (hh : header_lines headers ⟨[], [], 0⟩ = some h)
    (hmalloc : w.malloc_body = true) :
    read_request w (stream (wire_request request_line headers body)) =
      if h.content_len > 0 then
        .request ⟨req_method, req_path, h.orig_method, h.orig_uri,
          some (body.take h.content_len.toNat)⟩ (stream (body.drop h.content_len.toNat))
      else .request ⟨req_method, req_path, h.orig_method, h.orig_uri, none⟩ (stream body) := by
  obtain ⟨hlen, hchars⟩ := hrl
  have e : wire_request request_line headers body =
      request_line ++ [CR, LF] ++ (wire_lines headers ++ [CR, LF] ++ body) := by
    simp [wire_request]
  have hl := read_line_clean MAX_LINE (stream (wire_lines headers ++ [CR, LF] ++ body))
    request_line [] (fun c hc => (hchars c hc).2.1)
    (by simp only [List.length_nil, MAX_LINE]; omega)
  have hfuel : headers.length < (stream (wire_lines headers ++ [CR, LF] ++ body)).length + 1 := by
    have := wire_lines_length headers
    simp only [stream, List.length_map, List.length_append]
    omega
  have hhd := read_headers_wire body headers _ ⟨[], [], 0⟩ h hfuel hc hh
  simp only [List.nil_append] at hl
  unfold read_request
  rw [e, stream_line, hl]
  have hlen0 : ¬ (request_line ++ [CR, LF]).length = 0 := by simp
  simp only [hlen0, if_false, rstrip_crlf_clean request_line hchars, hparse, hhd,
    hmalloc, Bool.true_eq_false, read_body_stream, List.nil_append]

/-! ## The connection handler: missing original headers -/

theorem strncasecmp_eq_iff (l lit lower : List Char) (n : Nat)
    (hlit : (lit.take n).map tolower = lower) :
    strncasecmp_eq l lit n = true ↔ (l.take n).map tolower = lower := by
  unfold strncasecmp_eq
  rw [hlit]
  exact decide_eq_true_iff

theorem header_get_int_bounds (value : List Char) (out : Int)
    (hv : ∀ v rest, scan_long value = some (v, rest) → -2147483648 ≤ v ∧ v ≤ 65536)
    (hout : 0 ≤ out ∧ out ≤ 65536) :
    (header_get_int value out).2 ≤ 65536 := by
  unfold header_get_int
  split_ifs
  · exact hout.2
  · cases hs : scan_long value with
    | none => exact hout.2
    | some p =>
      obtain ⟨v, rest⟩ := p
      have := hv v rest hs
      simp only [to_int]
      omega

theorem header_line_cases (l : List Char) (h0 : Headers) :
    header_line l h0 = some { h0 with orig_method := snprintf 64 (header_value l 18) } ∧
        (l.take 18).map tolower = "x-original-method:".toList ∨
      header_line l h0 = some { h0 with orig_uri := snprintf 512 (header_value l 15) } ∧
        (l.take 15).map tolower = "x-original-uri:".toList ∨
      (l.take 15).map tolower = "content-length:".toList ∧
        header_line l h0 =
          (if (if (header_get_int (header_value l 15) h0.content_len).2 < 0 then 0
              else (header_get_int (header_value l 15) h0.content_len).2) > MAX_BODY then none
           else some { h0 with content_len :=
              if (header_get_int (header_value l 15) h0.content_len).2 < 0 then 0
              else (header_get_int (header_value l 15) h0.content_len).2 }) ∨
      header_line l h0 = some h0 := by
  by_cases c1 : strncasecmp_eq l "X-Original-Method:".toList 18 = true
  · left
    exact ⟨by simp only [header_line, c1, if_true],
      (strncasecmp_eq_iff l _ _ 18 (by decide)).mp c1⟩
  · by_cases c2 : strncasecmp_eq l "X-Original-URI:".toList 15 = true
    · right; left
      exact ⟨by simp only [header_line, c1, c2, if_true, Bool.false_eq_true, if_false],
        (strncasecmp_eq_iff l _ _ 15 (by decide)).mp c2⟩
    · by_cases c3 : strncasecmp_eq l "Content-Length:".toList 15 = true
      · right; right; left
        exact ⟨(strncasecmp_eq_iff l _ _ 15 (by decide)).mp c3,
          by simp only [header_line, c1, c2, c3, if_true, Bool.false_eq_true, if_false]⟩
      · right; right; right
        simp only [header_line, c1, c2, c3, Bool.false_eq_true, if_false]

theorem header_line_within_limit (l : List Char) (h0 : Headers)
    (hl : (l.take 15).map tolower = "content-length:".toList →
      ∀ v rest, scan_long (header_value l 15) = some (v, rest) → -2147483648 ≤ v ∧ v ≤ 65536)
    (h0b : 0 ≤ h0.content_len ∧ h0.content_len ≤ 65536) :
    ∃ h, header_line l h0 = some h ∧ 0 ≤ h.content_len ∧ h.content_len ≤ 65536 := by
  rcases header_line_cases l h0 with ⟨e, _⟩ | ⟨e, _⟩ | ⟨hm, e⟩ | e
  · exact ⟨_, e, h0b⟩
  · exact ⟨_, e, h0b⟩
  · have hb := header_get_int_bounds (header_value l 15) h0.content_len (hl hm) h0b
    have hc : ¬ (if (header_get_int (header_value l 15) h0.content_len).2 < 0 then 0
        else (header_get_int (header_value l 15) h0.content_len).2) > (MAX_BODY : Int) := by
      simp only [MAX_BODY]
      split_ifs <;> omega
    rw [if_neg hc] at e
    refine ⟨_, e, ?_⟩
    simp only
    split_ifs <;> omega
  · exact ⟨_, e, h0b⟩

theorem header_lines_within_limit :
    ∀ (hs : List (List Char)) (h0 : Headers),
      (∀ l ∈ hs, (l.take 15).map tolower = "content-length:".toList →
        ∀ v rest, scan_long (header_value l 15) = some (v, rest) → -2147483648 ≤ v ∧ v ≤ 65536) →
      0 ≤ h0.content_len ∧ h0.content_len ≤ 65536 →
      ∃ h, header_lines hs h0 = some h ∧ 0 ≤ h.content_len ∧ h.content_len ≤ 65536 := by
  intro hs
  induction hs with
  | nil => intro h0 _ hb; exact ⟨h0, rfl, hb⟩
  | cons l ls ih =>
    intro h0 hl hb
    obtain ⟨h1, e1, b1⟩ := header_line_within_limit l h0 (hl l (List.mem_cons_self l ls)) hb
    obtain ⟨h, e, b⟩ := ih h1 (fun x hx => hl x (List.mem_cons_of_mem l hx)) b1
    exact ⟨h, by simp only [header_lines, e1, e], b⟩

theorem header_line_orig (l : List Char) (h0 h1 : Headers) (he : header_line l h0 = some h1) :
    (h1.orig_method = h0.orig_method ∨
        (l.take 18).map tolower = "x-original-method:".toList ∧
          h1.orig_method = snprintf 64 (header_value l 18)) ∧
      (h1.orig_uri = h0.orig_uri ∨
        (l.take 15).map tolower = "x-original-uri:".toList ∧
          h1.orig_uri = snprintf 512 (header_value l 15)) := by
  rcases header_line_cases l h0 with ⟨e, hm⟩ | ⟨e, hm⟩ | ⟨_, e⟩ | e
  · rw [e] at he
    simp only [Option.some.injEq] at he
    rw [← he]
    exact ⟨Or.inr ⟨hm, rfl⟩, Or.inl rfl⟩
  · rw [e] at he
    simp only [Option.some.injEq] at he
    rw [← he]
    exact ⟨Or.inl rfl, Or.inr ⟨hm, rfl⟩⟩
  · rw [e] at he
    split_ifs at he <;>
      (simp only [Option.some.injEq] at he
       rw [← he]
       exact ⟨Or.inl rfl, Or.inl rfl⟩)
  · rw [e] at he
    simp only [Option.some.injEq] at he
    rw [← he]
    exact ⟨Or.inl rfl, Or.inl rfl⟩

theorem header_lines_method_empty :
    ∀ (hs : List (List Char)) (h0 h : Headers),
      (∀ l ∈ hs, (l.take 18).map tolower = "x-original-method:".toList →
        header_value l 18 = []) →
      h0.orig_method = [] → header_lines hs h0 = some h → h.orig_method = [] := by
  intro hs
  induction hs with
  | nil =>
    intro h0 h _ hm hh
    simp only [header_lines, Option.some.injEq] at hh
    rw [← hh]; exact hm
  | cons l ls ih =>
    intro h0 h hl hm hh
    simp only [header_lines] at hh
    cases h1e : header_line l h0 with
    | none => simp [h1e] at hh
    | some h1 =>
      simp only [h1e] at hh
      refine ih h1 h (fun x hx => hl x (List.mem_cons_of_mem l hx)) ?_ hh
      rcases (header_line_orig l h0 h1 h1e).1 with e | ⟨hmatch, e⟩
      · rw [e]; exact hm
      · rw [e, hl l (List.mem_cons_self l ls) hmatch]
        rfl

theorem header_lines_uri_empty :
    ∀ (hs : List (List Char)) (h0 h : Headers),
      (∀ l ∈ hs, (l.take 15).map tolower = "x-original-uri:".toList →
        header_value l 15 = []) →
      h0.orig_uri = [] → header_lines hs h0 = some h → h.orig_uri = [] := by
  intro hs
  induction hs with
  | nil =>
    intro h0 h _ hm hh
    simp only [header_lines, Option.some.injEq] at hh
    rw [← hh]; exact hm
  | cons l ls ih =>
    intro h0 h hl hm hh
    simp only [header_lines] at hh
    cases h1e : header_line l h0 with
    | none => simp [h1e] at hh
    | some h1 =>
      simp only [h1e] at hh
      refine ih h1 h (fun x hx => hl x (List.mem_cons_of_mem l hx)) ?_ hh
      rcases (header_line_orig l h0 h1 h1e).2 with e | ⟨hmatch, e⟩
      · rw [e]; exact hm
      · rw [e, hl l (List.mem_cons_self l ls) hmatch]
        rfl

/-- Requests whose lines fit the line buffer: with a parsable request line
that is not `POST /sign`, Content-Length headers that declare at most 65536
bytes, and every X-Original-Method header, or every X-Original-URI header,
absent or with an empty value (names compared without regard to case), the
answer is 400: the signer and the controller are not called. -/
theorem missing_original_header_is_400 (w : Env) (cfg : signer_config_t)
    (request_line : List Char) (headers : List (List Char))
    (body req_method req_path : List Char)
    (hrl : clean_line request_line)
    (hparse : parse_request_line request_line = some (req_method, req_path))
    (hnot : ¬ (req_method = "POST".toList ∧ req_path = "/sign".toList))
    (hclean : ∀ l ∈ headers, clean_line l ∧ l ≠ [])
    (hlimit : ∀ l ∈ headers, (l.take 15).map tolower = "content-length:".toList →
      ∀ v rest, scan_long (header_value l 15) = some (v, rest) → -2147483648 ≤ v ∧ v ≤ 65536)
    (hmalloc : w.malloc_body = true)
    (hmiss :
      (∀ l ∈ headers, (l.take 18).map tolower = "x-original-method:".toList →
        header_value l 18 = []) ∨
      (∀ l ∈ headers, (l.take 15).map tolower = "x-original-uri:".toList →
        header_value l 15 = [])) :
    ∃ rest,
      portal_signer_handle_client w cfg (stream (wire_request request_line headers body)) =
        some ⟨[Event.write (http_reply_text 400 "Bad Request".toList)], rest⟩ := by
  obtain ⟨h, hh, _⟩ := header_lines_within_limit headers ⟨[], [], 0⟩ hlimit (by decide)
  have hread := read_request_wire w request_line headers body req_method req_path h hrl hparse
    hclean hh hmalloc
  have hempty : h.orig_method = [] ∨ h.orig_uri = [] := by
    rcases hmiss with hm | hu
    · exact Or.inl (header_lines_method_empty headers _ h hm rfl hh)
    · exact Or.inr (header_lines_uri_empty headers _ h hu rfl hh)
  have hroute : ∀ b, route w cfg ⟨req_method, req_path, h.orig_method, h.orig_uri, b⟩ =
      [Event.write (http_reply_text 400 "Bad Request".toList)] := by
    intro b
    unfold route
    rw [if_neg hnot, if_pos hempty]
    rfl
  by_cases hc : h.content_len > 0
  · rw [if_pos hc] at hread
    exact ⟨_, (handle_client_of_request w cfg _ _ _ hread).trans (by rw [hroute])⟩
  · rw [if_neg hc] at hread
    exact ⟨_, (handle_client_of_request w cfg _ _ _ hread).trans (by rw [hroute])⟩

/-- The scenario of the specification: a verify request that lacks
X-Original-URI, with every line within the line buffer, is answered 400. -/
theorem missing_original_header_is_400_witness :
    ∃ rest,
      portal_signer_handle_client (example_env []) example_cfg
          (stream (wire_request "GET /auth HTTP/1.1".toList
            ["x-original-METHOD: GET".toList, "Content-Length: 3".toList] "abc".toList)) =
        some ⟨[Event.write (http_reply_text 400 "Bad Request".toList)], rest⟩ :=
  missing_original_header_is_400 (example_env []) example_cfg "GET /auth HTTP/1.1".toList
    ["x-original-METHOD: GET".toList, "Content-Length: 3".toList] "abc".toList "GET".toList
    "/auth".toList
    (by unfold clean_line; decide) (by decide) (by decide)
    (by unfold clean_line; decide)
    (by
      intro l hl hm v rest hs
      simp only [List.mem_cons, List.mem_singleton, List.not_mem_nil, or_false] at hl
      rcases hl with rfl | rfl
      · exact absurd hm (by decide)
      · have h3 : scan_long (header_value "Content-Length: 3".toList 15) = some (3, []) := by
          decide
        rw [h3] at hs
        have hv : (3 : Int) = v := (Prod.mk.inj (Option.some.inj hs)).1
        rw [← hv]
        decide)
    rfl (Or.inr (by decide))

/-- C8: a request without an X-Original-URI header that is not answered 400.
Its header `X-Pad` is 1045 bytes long; `read_line` stores the first 1023 bytes
and leaves the rest of the line unread, so the header loop reads the remaining
bytes, `X-Original-URI: /a?b=1`, as the next header line. The handler signs
GET /a with query b=1, calls the controller and answers 204. -/
theorem original_uri_from_overlong_line :
    (portal_signer_handle_client (example_env "HTTP/1.1 204 No Content\r\n\r\n".toList)
        example_cfg
        (stream (wire_request "GET /auth HTTP/1.1".toList
          ["X-Original-Method: GET".toList,
            "X-Pad: ".toList ++ List.replicate 1016 (Char.ofNat 97) ++
              "X-Original-URI: /a?b=1".toList] []))).map (fun o => o.trace) =
      some [Event.sign "GET".toList "/a".toList "b=1".toList [],
        Event.connect "127.0.0.1".toList 9090,
        Event.send (verify_request_text example_cfg 177
          (verify_body_text "GET".toList "/a?b=1".toList
            ⟨"1700000000".toList, "1700000000-1a2b3c4d00000005".toList,
              "baSm6hPVvg+JpqyNNIqKKFrNXR6D62xbnyxxHQAdO4Y=".toList⟩)),
        Event.write (http_reply_text 204 "No Content".toList)] := by
  decide!

/-! ## The connection handler: a sign request without a body -/

theorem header_lines_no_content_length :
    ∀ (hs : List (List Char)) (h0 : Headers),
      (∀ l ∈ hs, (l.take 15).map tolower ≠ "content-length:".toList) →
      ∃ h, header_lines hs h0 = some h ∧ h.content_len = h0.content_len := by
  intro hs
  induction hs with
  | nil => intro h0 _; exact ⟨h0, rfl, rfl⟩
  | cons l ls ih =>
    intro h0 hl
    have hnl := hl l (List.mem_cons_self l ls)
    rcases header_line_cases l h0 with ⟨e, _⟩ | ⟨e, _⟩ | ⟨hm, _⟩ | e
    · obtain ⟨h, e2, c2⟩ := ih { h0 with orig_method := snprintf 64 (header_value l 18) }
        (fun x hx => hl x (List.mem_cons_of_mem l hx))
      exact ⟨h, by simp only [header_lines, e, e2], c2⟩
    · obtain ⟨h, e2, c2⟩ := ih { h0 with orig_uri := snprintf 512 (header_value l 15) }
        (fun x hx => hl x (List.mem_cons_of_mem l hx))
      exact ⟨h, by simp only [header_lines, e, e2], c2⟩
    · exact absurd hm hnl
    · obtain ⟨h, e2, c2⟩ := ih h0 (fun x hx => hl x (List.mem_cons_of_mem l hx))
      exact ⟨h, by simp only [header_lines, e, e2], c2⟩

/-- A request `POST /sign` from the wire without any Content-Length header is
answered 400: no body is read and the signer is not called. -/
theorem sign_request_without_content_length (w : Env) (cfg : signer_config_t)
    (request_line : List Char) (headers : List (List Char)) (body : List Char)
    (hrl : clean_line request_line)
    (hparse : parse_request_line request_line = some ("POST".toList, "/sign".toList))
    (hclean : ∀ l ∈ headers, clean_line l ∧ l ≠ [])
    (habsent : ∀ l ∈ headers, (l.take 15).map tolower ≠ "content-length:".toList)
    (hmalloc : w.malloc_body = true) :
    portal_signer_handle_client w cfg (stream (wire_request request_line headers body)) =
      some ⟨[Event.write (http_reply_text 400 "Bad Request".toList)], stream body⟩ := by
  obtain ⟨h, hh, hc⟩ := header_lines_no_content_length headers ⟨[], [], 0⟩ habsent
  have hread := read_request_wire w request_line headers body _ _ h hrl hparse hclean hh hmalloc
  have hc0 : ¬ h.content_len > 0 := by
    rw [hc]
    decide
  rw [if_neg hc0] at hread
  rw [handle_client_of_request w cfg _ _ _ hread, route_sign w cfg _ rfl rfl]
  rfl

/-! ## The connection handler always returns -/

theorem read_headers_wire_too_large (l : List Char) (hs2 : List (List Char)) (body : List Char)
    (hl : clean_line l) (hne : l ≠ []) :
    ∀ (hs1 : List (List Char)) (fuel : Nat) (h0 h1 : Headers), hs1.length < fuel →
      (∀ x ∈ hs1, clean_line x ∧ x ≠ []) → header_lines hs1 h0 = some h1 →
      header_line l h1 = none →
      read_headers fuel (stream (wire_lines (hs1 ++ l :: hs2) ++ [CR, LF] ++ body)) h0 =
        .too_large (stream (wire_lines hs2 ++ [CR, LF] ++ body)) := by
  intro hs1
  induction hs1 with
  | nil =>
    intro fuel h0 h1 hf _ hh hnone
    obtain ⟨f, rfl⟩ : ∃ f, fuel = f + 1 := ⟨fuel - 1, by omega⟩
    simp only [header_lines, Option.some.injEq] at hh
    subst hh
    have hrl := read_line_clean MAX_LINE (stream (wire_lines hs2 ++ [CR, LF] ++ body)) l []
      (fun c hc => (hl.2 c hc).2.1) (by simp only [List.length_nil, MAX_LINE]; have := hl.1; omega)
    have e : wire_lines ([] ++ l :: hs2) ++ [CR, LF] ++ body =
        l ++ [CR, LF] ++ (wire_lines hs2 ++ [CR, LF] ++ body) := by
      simp [wire_lines]
    rw [e, stream_line]
    simp only [read_headers, hrl, List.nil_append]
    have hlen0 : ¬ (l ++ [CR, LF]).length = 0 := by simp
    simp only [hlen0, if_false, rstrip_crlf_clean l hl.2, hne, hnone]
  | cons x xs ih =>
    intro fuel h0 h1 hf hc hh hnone
    obtain ⟨f, rfl⟩ : ∃ f, fuel = f + 1 := ⟨fuel - 1, by omega⟩
    obtain ⟨⟨hlen, hchars⟩, hxne⟩ := hc x (List.mem_cons_self x xs)
    have hrl := read_line_clean MAX_LINE
      (stream (wire_lines (xs ++ l :: hs2) ++ [CR, LF] ++ body)) x []
      (fun c hc => (hchars c hc).2.1) (by simp only [List.length_nil, MAX_LINE]; omega)
    have e : wire_lines (x :: xs ++ l :: hs2) ++ [CR, LF] ++ body =
        x ++ [CR, LF] ++ (wire_lines (xs ++ l :: hs2) ++ [CR, LF] ++ body) := by
      simp [wire_lines]
    rw [e, stream_line]
    simp only [read_headers, hrl, List.nil_append]
    have hlen0 : ¬ (x ++ [CR, LF]).length = 0 := by simp
    simp only [hlen0, if_false, rstrip_crlf_clean x hchars, hxne]
    simp only [header_lines] at hh
    cases hhl : header_line x h0 with
    | none => simp [hhl] at hh
    | some h2 =>
      simp only [hhl] at hh ⊢
      exact ih f h2 h1 (by simp only [List.length_cons] at hf; omega)
        (fun y hy => hc y (List.mem_cons_of_mem x hy)) hh hnone

theorem header_line_over_limit (l : List Char) (h0 : Headers) (v : Int) (vrest : List Char)
    (hm : (l.take 15).map tolower = "content-length:".toList)
    (hv : scan_long (header_value l 15) = some (v, vrest))
    (hgt : 65536 < v) (hlt : v < 2147483648) :
    header_line l h0 = none := by
  have c3 : strncasecmp_eq l "Content-Length:".toList 15 = true :=
    (strncasecmp_eq_iff l _ _ 15 (by decide)).mpr hm
  have c2 : ¬ strncasecmp_eq l "X-Original-URI:".toList 15 = true := by
    intro h
    have := (strncasecmp_eq_iff l "X-Original-URI:".toList "x-original-uri:".toList 15
      (by decide)).mp h
    rw [hm] at this
    exact absurd this (by decide)
  have c1 : ¬ strncasecmp_eq l "X-Original-Method:".toList 18 = true := by
    intro h
    have h18 := (strncasecmp_eq_iff l "X-Original-Method:".toList "x-original-method:".toList 18
      (by decide)).mp h
    have h15 : ((l.take 18).map tolower).take 15 = (l.take 15).map tolower := by
      rw [← List.map_take, List.take_take]
      rfl
    rw [h18, hm] at h15
    exact absurd h15 (by decide)
  have hval : header_value l 15 ≠ [] := by
    intro h
    rw [h] at hv
    have hnil : scan_long [] = none := by decide
    rw [hnil] at hv
    exact absurd hv (by simp)
  have hto : to_int v = v := by
    simp only [to_int]
    omega
  have hg : (header_get_int (header_value l 15) h0.content_len).2 = v := by
    simp only [header_get_int, hval, if_false, hv, hto]
  simp only [header_line, c1, c2, c3, Bool.false_eq_true, if_false, if_true, hg, MAX_BODY]
  have h1 : ¬ v < 0 := by omega
  simp only [h1, if_false]
  rw [if_pos (by simpa using hgt)]

/-- A Content-Length header that declares more than 65536 and less than 2^31
bytes is answered 413 at once: nothing after that header line is read, so no
byte of the body. -/
theorem content_length_over_limit_is_413 (w : Env) (cfg : signer_config_t)
    (request_line : List Char) (before : List (List Char)) (l : List Char)
    (after : List (List Char)) (body req_method req_path : List Char) (h1 : Headers) (v : Int)
    (vrest : List Char)
    (hrl : clean_line request_line)
    (hparse : parse_request_line request_line = some (req_method, req_path))
    (hclean : ∀ x ∈ before, clean_line x ∧ x ≠ []) (hl : clean_line l)
    (hbefore : header_lines before ⟨[], [], 0⟩ = some h1)
    (hm : (l.take 15).map tolower = "content-length:".toList)
    (hv : scan_long (header_value l 15) = some (v, vrest))
    (hgt : 65536 < v) (hlt : v < 2147483648) :
    portal_signer_handle_client w cfg
        (stream (wire_request request_line (before ++ l :: after) body)) =
      some ⟨[Event.write (http_reply_text 413 "Payload Too Large".toList)],
        stream (wire_lines after ++ [CR, LF] ++ body)⟩ := by
  have hne : l ≠ [] := by
    intro h
    rw [h] at hm
    exact absurd hm (by decide)
  have hnone := header_line_over_limit l h1 v vrest hm hv hgt hlt
  obtain ⟨hlen, hchars⟩ := hrl
  have e : wire_request request_line (before ++ l :: after) body =
      request_line ++ [CR, LF] ++ (wire_lines (before ++ l :: after) ++ [CR, LF] ++ body) := by
    simp [wire_request]
  have hrd := read_line_clean MAX_LINE
    (stream (wire_lines (before ++ l :: after) ++ [CR, LF] ++ body))
    request_line [] (fun c hc => (hchars c hc).2.1)
    (by simp only [List.length_nil, MAX_LINE]; omega)
  have hfuel : before.length <
      (stream (wire_lines (before ++ l :: after) ++ [CR, LF] ++ body)).length + 1 := by
    have := wire_lines_length (before ++ l :: after)
    simp only [stream, List.length_map, List.length_append, List.length_cons] at this ⊢
    omega
  have hhd := read_headers_wire_too_large l after body hl hne before _ ⟨[], [], 0⟩ h1 hfuel
    hclean hbefore hnone
  simp only [List.nil_append] at hrd
  have hlen0 : ¬ (request_line ++ [CR, LF]).length = 0 := by simp
  unfold portal_signer_handle_client read_request
  rw [e, stream_line, hrd]
  simp only [hlen0, if_false, rstrip_crlf_clean request_line hchars, hparse, hhd, http_reply]

/-- C5, the failing input: a verify request that declares a body of 4294967296
bytes is not answered 413. `strtol` yields 4294967296, the conversion to `int`
stores 0, and the request goes on to the controller and is answered 204. -/
theorem content_length_wraps :
    (portal_signer_handle_client (example_env "HTTP/1.1 204 No Content\r\n\r\n".toList)
        example_cfg
        (stream (wire_request "GET /auth HTTP/1.1".toList
          ["X-Original-Method: GET".toList, "X-Original-URI: /a?b=1".toList,
            "Content-Length: 4294967296".toList] []))).map (fun o => client_writes o.trace) =
      some [http_reply_text 204 "No Content".toList] := by
  decide!

/-! ## The flat JSON extractor: failures -/

theorem strstr_none (pat : List Char) :
    ∀ (json : List Char), strstr json pat = none →
      ∀ i, pat.isPrefixOf (json.drop i) = false := by
  intro json
  induction json with
  | nil =>
    intro h i
    have hp : pat ≠ [] := by
      intro hp
      simp [strstr, hp] at h
    cases pat with
    | nil => exact absurd rfl hp
    | cons a l => simp [List.isPrefixOf]
  | cons a t ih =>
    intro h i
    by_cases h0 : pat.isPrefixOf (a :: t) = true
    · simp [strstr, h0] at h
    · have h0f : pat.isPrefixOf (a :: t) = false := Bool.eq_false_iff.mpr h0
      have ht : strstr t pat = none := by simpa [strstr, h0f] using h
      cases i with
      | zero => simpa using h0f
      | succ k => simpa using ih ht k

theorem strstr_some (pat : List Char) :
    ∀ (json s : List Char), strstr json pat = some s →
      ∃ i, first_occurrence pat json i ∧ s = json.drop i := by
  intro json
  induction json with
  | nil =>
    intro s h
    by_cases hp : pat = []
    · subst hp
      refine ⟨0, ⟨by simp [List.isPrefixOf], fun j hj => absurd hj (Nat.not_lt_zero j)⟩, ?_⟩
      simpa [strstr] using h.symm
    · simp [strstr, hp] at h
  | cons a t ih =>
    intro s h
    by_cases h0 : pat.isPrefixOf (a :: t) = true
    · refine ⟨0, ⟨by simpa using h0, fun j hj => absurd hj (Nat.not_lt_zero j)⟩, ?_⟩
      simpa [strstr, h0] using h.symm
    · have h0f : pat.isPrefixOf (a :: t) = false := Bool.eq_false_iff.mpr h0
      have ht : strstr t pat = some s := by simpa [strstr, h0f] using h
      obtain ⟨i, ⟨hi, hfirst⟩, hs⟩ := ih s ht
      refine ⟨i + 1, ⟨by simpa using hi, ?_⟩, by simpa using hs⟩
      intro j hj
      cases j with
      | zero => simpa using h0f
      | succ k => simpa using hfirst k (by omega)

theorem first_occurrence_unique (pat text : List Char) (i j : Nat)
    (hi : first_occurrence pat text i) (hj : first_occurrence pat text j) : i = j := by
  rcases Nat.lt_trichotomy i j with h | h | h
  · have := hj.2 i h
    rw [hi.1] at this
    exact absurd this (by decide)
  · exact h
  · have := hi.2 j h
    rw [hj.1] at this
    exact absurd this (by decide)

theorem after_blanks_iff (c : Char) (hc : json_ws c = false) (s rest : List Char) :
    after_blanks c s rest ↔ s.dropWhile json_ws = c :: rest := by
  constructor
  · rintro ⟨ws, hs, hws⟩
    rw [hs, dropWhile_append_of_all json_ws ws _ hws, List.dropWhile_cons, hc]
    rfl
  · intro h
    refine ⟨s.takeWhile json_ws, ?_, ?_⟩
    · rw [← h, List.takeWhile_append_dropWhile]
    · intro x hx
      exact (List.mem_takeWhile_imp hx)

theorem head_ne_of_dropWhile (s : List Char) (c : Char)
    (h : s.head? ≠ some c) : ∀ rest, s ≠ c :: rest := by
  intro rest hs
  rw [hs] at h
  exact h rfl

theorem json_get_string_cases (json key out : List Char) (out_sz : Nat)
    (hsz : 0 < out_sz) (hkey : key.length ≤ 125) :
    (strstr json (QUOTE :: key ++ [QUOTE]) = none ∧
        json_get_string json key out out_sz = (-2, out)) ∨
      (∃ i, first_occurrence (QUOTE :: key ++ [QUOTE]) json i ∧
        (∀ rest, (json.drop (i + (QUOTE :: key ++ [QUOTE]).length)).dropWhile json_ws ≠
          Char.ofNat 58 :: rest) ∧
        json_get_string json key out out_sz = (-3, out)) ∨
      (∃ i rest, first_occurrence (QUOTE :: key ++ [QUOTE]) json i ∧
        (json.drop (i + (QUOTE :: key ++ [QUOTE]).length)).dropWhile json_ws =
          Char.ofNat 58 :: rest ∧
        (∀ v, rest.dropWhile json_ws ≠ QUOTE :: v) ∧
        json_get_string json key out out_sz = (-4, out)) ∨
      (∃ i rest v, first_occurrence (QUOTE :: key ++ [QUOTE]) json i ∧
        (json.drop (i + (QUOTE :: key ++ [QUOTE]).length)).dropWhile json_ws =
          Char.ofNat 58 :: rest ∧
        rest.dropWhile json_ws = QUOTE :: v ∧
        json_get_string json key out out_sz = (0, json_copy out_sz v [])) := by
  have hpat : snprintf 128 (QUOTE :: key ++ [QUOTE]) = QUOTE :: key ++ [QUOTE] := by
    unfold snprintf
    apply List.take_of_length_le
    simp only [List.cons_append, List.length_cons, List.length_append, List.length_singleton,
      List.length_nil]
    omega
  unfold json_get_string
  rw [if_neg (Nat.pos_iff_ne_zero.mp hsz)]
  simp only [hpat]
  cases hs : strstr json (QUOTE :: key ++ [QUOTE]) with
  | none => exact Or.inl ⟨rfl, rfl⟩
  | some p0 =>
    obtain ⟨i, hfo, hp0⟩ := strstr_some _ json p0 hs
    have hdrop : p0.drop (QUOTE :: key ++ [QUOTE]).length =
        json.drop (i + (QUOTE :: key ++ [QUOTE]).length) := by
      rw [hp0, List.drop_drop, Nat.add_comm]
    simp only [hdrop]
    right
    by_cases h1 : ((json.drop (i + (QUOTE :: key ++ [QUOTE]).length)).dropWhile json_ws).head? =
        some (Char.ofNat 58)
    · cases hp1 : (json.drop (i + (QUOTE :: key ++ [QUOTE]).length)).dropWhile json_ws with
      | nil => rw [hp1] at h1; simp at h1
      | cons c rest =>
        rw [hp1] at h1
        have hc : c = Char.ofNat 58 := by simpa using h1
        subst hc
        right
        simp only [List.head?_cons, ne_eq, not_true_eq_false, if_false, List.drop_succ_cons,
          List.drop_zero]
        by_cases h2 : (rest.dropWhile json_ws).head? = some QUOTE
        · cases hp2 : rest.dropWhile json_ws with
          | nil => rw [hp2] at h2; simp at h2
          | cons d v =>
            rw [hp2] at h2
            have hd : d = QUOTE := by simpa using h2
            subst hd
            right
            refine ⟨i, rest, v, hfo, hp1, hp2, ?_⟩
            simp
        · left
          refine ⟨i, rest, hfo, hp1, head_ne_of_dropWhile _ _ h2, ?_⟩
          simp [h2]
    · left
      refine ⟨i, hfo, head_ne_of_dropWhile _ _ h1, ?_⟩
      rw [if_pos h1]

/-- C11: for a name of at most 125 bytes and a non-empty output buffer,
`json_get_string` returns a failure exactly when the quoted name does not
occur in the input, or its first occurrence is not followed, after optional
white space, by a colon, or that colon is not followed, after optional white
space, by an opening quote; and on a failure the output buffer is unchanged. -/
theorem json_get_string_fails_iff (json key out : List Char) (out_sz : Nat)
    (hsz : 0 < out_sz) (hkey : key.length ≤ 125) :
    ((json_get_string json key out out_sz).1 ≠ 0 ↔
        (∀ i, (QUOTE :: key ++ [QUOTE]).isPrefixOf (json.drop i) = false) ∨
        (∃ i, first_occurrence (QUOTE :: key ++ [QUOTE]) json i ∧
          ∀ rest, ¬ after_blanks (Char.ofNat 58) (json.drop (i + (key.length + 2))) rest) ∨
        (∃ i rest, first_occurrence (QUOTE :: key ++ [QUOTE]) json i ∧
          after_blanks (Char.ofNat 58) (json.drop (i + (key.length + 2))) rest ∧
          ∀ v, ¬ after_blanks QUOTE rest v)) ∧
      ((json_get_string json key out out_sz).1 ≠ 0 →
        (json_get_string json key out out_sz).2 = out) := by
  have hlen : (QUOTE :: key ++ [QUOTE]).length = key.length + 2 := by simp
  have hcolon : json_ws (Char.ofNat 58) = false := by decide
  have hquote : json_ws QUOTE = false := by decide
  rcases json_get_string_cases json key out out_sz hsz hkey with
    ⟨hnone, hr⟩ | ⟨i, hfo, hno, hr⟩ | ⟨i, rest, hfo, hc, hno, hr⟩ | ⟨i, rest, v, hfo, hc, hq, hr⟩
  · rw [hr]
    exact ⟨⟨fun _ => Or.inl (strstr_none _ json hnone), fun _ => by simp⟩, fun _ => rfl⟩
  · rw [hr]
    refine ⟨⟨fun _ => Or.inr (Or.inl ⟨i, hfo, ?_⟩), fun _ => by simp⟩, fun _ => rfl⟩
    intro rest hab
    rw [← hlen] at hab
    exact hno rest ((after_blanks_iff _ hcolon _ _).mp hab)
  · rw [hr]
    refine ⟨⟨fun _ => Or.inr (Or.inr ⟨i, rest, hfo, ?_, ?_⟩), fun _ => by simp⟩, fun _ => rfl⟩
    · rw [← hlen]
      exact (after_blanks_iff _ hcolon _ _).mpr hc
    · intro v hab
      exact hno v ((after_blanks_iff _ hquote _ _).mp hab)
  · rw [hr]
    refine ⟨⟨fun h => absurd rfl h, ?_⟩, fun h => absurd rfl h⟩
    rintro (hall | ⟨j, hfj, hno⟩ | ⟨j, rest2, hfj, hc2, hno⟩)
    · have := hall i
      rw [hfo.1] at this
      exact absurd this (by decide)
    · have hij := first_occurrence_unique _ _ _ _ hfj hfo
      subst hij
      exact absurd ((after_blanks_iff _ hcolon _ _).mpr (hlen ▸ hc)) (hno rest)
    · have hij := first_occurrence_unique _ _ _ _ hfj hfo
      subst hij
      have h2 := (after_blanks_iff _ hcolon _ _).mp hc2
      rw [← hlen, hc] at h2
      have hrest : rest = rest2 := by
        injection h2
      subst hrest
      exact absurd ((after_blanks_iff _ hquote _ _).mpr hq) (hno v)

/-- C11, three inputs that fail and keep the buffer: no such name, a name
followed by a comma, a value that is not a string. -/
theorem json_get_string_fails_iff_witness :
    json_get_string "\x7b\"b\":\"x\"\x7d".toList "a".toList "old".toList 16 =
        (-2, "old".toList) ∧
      json_get_string "\x7b\"b\":\"a\",\"a\":\"x\"\x7d".toList "a".toList "old".toList 16 =
        (-3, "old".toList) ∧
      json_get_string "\x7b\"a\": 5\x7d".toList "a".toList "old".toList 16 =
        (-4, "old".toList) ∧
      (json_get_string "\x7b\"a\": 5\x7d".toList "a".toList "old".toList 16).2 =
        "old".toList :=
  ⟨by decide, by decide, by decide,
    (json_get_string_fails_iff "\x7b\"a\": 5\x7d".toList "a".toList "old".toList 16
      (by decide) (by decide)).2 (by decide)⟩

/-! ## The signature text -/

theorem base64_value_digit : ∀ n < 64, base64_value (b64_digit n) = some n := by
  decide

theorem b64_digit_mem : ∀ n < 64, b64_digit n ∈ base64_alphabet := by
  decide

theorem b64_digit_ne_pad : ∀ n < 64, b64_digit n ≠ Char.ofNat 61 := by
  decide

theorem lor_shift4 : ∀ x < 4, ∀ y < 16, (x <<< 4) ||| y = x * 16 + y := by
  decide

theorem lor_shift2 : ∀ x < 16, ∀ y < 4, (x <<< 2) ||| y = x * 4 + y := by
  decide

theorem byte_bits (a : Nat) :
    a >>> 2 = a / 4 ∧ a &&& 3 = a % 4 ∧ a >>> 4 = a / 16 ∧ a &&& 15 = a % 16 ∧
      a >>> 6 = a / 64 ∧ a &&& 63 = a % 64 := by
  refine ⟨Nat.shiftRight_eq_div_pow a 2, Nat.and_pow_two_sub_one_eq_mod a 2,
    Nat.shiftRight_eq_div_pow a 4, Nat.and_pow_two_sub_one_eq_mod a 4,
    Nat.shiftRight_eq_div_pow a 6, Nat.and_pow_two_sub_one_eq_mod a 6⟩

theorem sextets (a b c : Nat) (hb : b < 256) (hc : c < 256) :
    a >>> 2 = a / 4 ∧ ((a &&& 3) <<< 4) ||| (b >>> 4) = a % 4 * 16 + b / 16 ∧
      ((b &&& 15) <<< 2) ||| (c >>> 6) = b % 16 * 4 + c / 64 ∧ c &&& 63 = c % 64 ∧
      (a &&& 3) <<< 4 = a % 4 * 16 ∧ (b &&& 15) <<< 2 = b % 16 * 4 := by
  obtain ⟨a1, a2, _, _, _, _⟩ := byte_bits a
  obtain ⟨_, _, b3, b4, _, _⟩ := byte_bits b
  obtain ⟨_, _, _, _, c5, c6⟩ := byte_bits c
  refine ⟨a1, ?_, ?_, c6, ?_, ?_⟩
  · rw [a2, b3]
    exact lor_shift4 (a % 4) (Nat.mod_lt _ (by decide)) (b / 16) (by omega)
  · rw [b4, c5]
    exact lor_shift2 (b % 16) (Nat.mod_lt _ (by decide)) (c / 64) (by omega)
  · rw [a2, Nat.shiftLeft_eq]
  · rw [b4, Nat.shiftLeft_eq]

theorem base64_decode_encode :
    ∀ l : List Char, (∀ c ∈ l, c.toNat < 256) → base64_decode (EVP_EncodeBlock l) = some l
  | [], _ => rfl
  | [a], h => by
    have ha : a.toNat < 256 := h a (by simp)
    obtain ⟨e1, _, _, _, e5, _⟩ := sextets a.toNat 0 0 (by decide) (by decide)
    have h1 := base64_value_digit (a.toNat / 4) (by omega)
    have h2 := base64_value_digit (a.toNat % 4 * 16) (by omega)
    simp only [EVP_EncodeBlock, base64_decode, e1, e5, h1, h2, and_self, if_true]
    have hv : a.toNat / 4 * 4 + a.toNat % 4 * 16 / 16 = a.toNat := by omega
    rw [hv, Char.ofNat_toNat]
  | [a, b], h => by
    have ha : a.toNat < 256 := h a (by simp)
    have hb : b.toNat < 256 := h b (by simp)
    obtain ⟨e1, e2, _, _, _, e6⟩ := sextets a.toNat b.toNat 0 hb (by decide)
    have h1 := base64_value_digit (a.toNat / 4) (by omega)
    have h2 := base64_value_digit (a.toNat % 4 * 16 + b.toNat / 16) (by omega)
    have h3 := base64_value_digit (b.toNat % 16 * 4) (by omega)
    have n3 := b64_digit_ne_pad (b.toNat % 16 * 4) (by omega)
    simp only [EVP_EncodeBlock, base64_decode, e1, e2, e6, h1, h2, h3, n3, false_and, and_self,
      if_true, if_false]
    have hv1 : a.toNat / 4 * 4 + (a.toNat % 4 * 16 + b.toNat / 16) / 16 = a.toNat := by omega
    have hv2 : (a.toNat % 4 * 16 + b.toNat / 16) % 16 * 16 + b.toNat % 16 * 4 / 4 = b.toNat := by
      omega
    rw [hv1, hv2, Char.ofNat_toNat, Char.ofNat_toNat]
  | a :: b :: c :: rest, h => by
    have ha : a.toNat < 256 := h a (by simp)
    have hb : b.toNat < 256 := h b (by simp)
    have hc : c.toNat < 256 := h c (by simp)
    obtain ⟨e1, e2, e3, e4, _, _⟩ := sextets a.toNat b.toNat c.toNat hb hc
    have h1 := base64_value_digit (a.toNat / 4) (by omega)
    have h2 := base64_value_digit (a.toNat % 4 * 16 + b.toNat / 16) (by omega)
    have h3 := base64_value_digit (b.toNat % 16 * 4 + c.toNat / 64) (by omega)
    have h4 := base64_value_digit (c.toNat % 64) (by omega)
    have n3 := b64_digit_ne_pad (b.toNat % 16 * 4 + c.toNat / 64) (by omega)
    have n4 := b64_digit_ne_pad (c.toNat % 64) (by omega)
    have ih := base64_decode_encode rest (fun x hx => h x (by simp [hx]))
    simp only [EVP_EncodeBlock, base64_decode, e1, e2, e3, e4, h1, h2, h3, h4, n3, n4, false_and,
      if_false, ih, Option.map_some']
    have hv1 : a.toNat / 4 * 4 + (a.toNat % 4 * 16 + b.toNat / 16) / 16 = a.toNat := by omega
    have hv2 : (a.toNat % 4 * 16 + b.toNat / 16) % 16 * 16 +
        (b.toNat % 16 * 4 + c.toNat / 64) / 4 = b.toNat := by omega
    have hv3 : (b.toNat % 16 * 4 + c.toNat / 64) % 4 * 64 + c.toNat % 64 = c.toNat := by omega
    rw [hv1, hv2, hv3, Char.ofNat_toNat, Char.ofNat_toNat, Char.ofNat_toNat]

theorem EVP_EncodeBlock_padded :
    ∀ l : List Char, (∀ c ∈ l, c.toNat < 256) → l.length % 3 = 2 →
      ∃ body, EVP_EncodeBlock l = body ++ [Char.ofNat 61] ∧ ∀ c ∈ body, c ∈ base64_alphabet
  | [], _, hl => by simp at hl
  | [_], _, hl => by simp at hl
  | [a, b], h, _ => by
    have hb : b.toNat < 256 := h b (by simp)
    obtain ⟨e1, e2, _, _, _, e6⟩ := sextets a.toNat b.toNat 0 hb (by decide)
    have ha : a.toNat < 256 := h a (by simp)
    refine ⟨[b64_digit (a.toNat / 4), b64_digit (a.toNat % 4 * 16 + b.toNat / 16),
      b64_digit (b.toNat % 16 * 4)], by simp [EVP_EncodeBlock, e1, e2, e6], ?_⟩
    intro c hc
    simp only [List.mem_cons, List.mem_singleton, List.not_mem_nil, or_false] at hc
    rcases hc with rfl | rfl | rfl
    · exact b64_digit_mem _ (by omega)
    · exact b64_digit_mem _ (by omega)
    · exact b64_digit_mem _ (by omega)
  | a :: b :: c :: rest, h, hl => by
    have ha : a.toNat < 256 := h a (by simp)
    have hb : b.toNat < 256 := h b (by simp)
    have hc : c.toNat < 256 := h c (by simp)
    obtain ⟨e1, e2, e3, e4, _, _⟩ := sextets a.toNat b.toNat c.toNat hb hc
    obtain ⟨body, hbody, hmem⟩ := EVP_EncodeBlock_padded rest
      (fun x hx => h x (by simp [hx])) (by simp only [List.length_cons] at hl; omega)
    refine ⟨b64_digit (a.toNat / 4) :: b64_digit (a.toNat % 4 * 16 + b.toNat / 16) ::
      b64_digit (b.toNat % 16 * 4 + c.toNat / 64) :: b64_digit (c.toNat % 64) :: body,
      by simp [EVP_EncodeBlock, e1, e2, e3, e4, hbody], ?_⟩
    intro x hx
    simp only [List.mem_cons] at hx
    rcases hx with rfl | rfl | rfl | rfl | hx
    · exact b64_digit_mem _ (by omega)
    · exact b64_digit_mem _ (by omega)
    · exact b64_digit_mem _ (by omega)
    · exact b64_digit_mem _ (by omega)
    · exact hmem x hx

/-- C12: when HMAC-SHA256 yields its 32 digest bytes, `hmac_sha256_base64`
returns 0 and the signature it stores has 44 characters: 43 characters of the
base64 alphabet and then one padding character `=`; decoding it as base64
gives the 32 digest bytes back. -/
theorem hmac_sha256_base64_shape (w : Env) (key msg out_b64 mac : List Char)
    (hmac : w.HMAC key msg = some mac) (hlen : mac.length = 32)
    (hbytes : ∀ c ∈ mac, c.toNat < 256) :
    ∃ s, hmac_sha256_base64 w key msg out_b64 = (0, s) ∧ s.length = 44 ∧
      (∀ c ∈ s.take 43, c ∈ base64_alphabet) ∧ s.drop 43 = [Char.ofNat 61] ∧
      base64_decode s = some mac := by
  refine ⟨EVP_EncodeBlock mac,
    hmac_sha256_base64_ok w key msg out_b64 mac hmac (by omega) (by omega), ?_, ?_, ?_,
    base64_decode_encode mac hbytes⟩
  · rw [EVP_EncodeBlock_length, hlen]
  · obtain ⟨body, hbody, hmem⟩ := EVP_EncodeBlock_padded mac hbytes (by rw [hlen])
    have hl : body.length = 43 := by
      have := EVP_EncodeBlock_length mac
      rw [hbody, hlen] at this
      simpa using this
    rw [hbody, ← hl, List.take_left]
    exact hmem
  · obtain ⟨body, hbody, hmem⟩ := EVP_EncodeBlock_padded mac hbytes (by rw [hlen])
    have hl : body.length = 43 := by
      have := EVP_EncodeBlock_length mac
      rw [hbody, hlen] at this
      simpa using this
    rw [hbody, ← hl, List.drop_left]

/-- C12, an instance: the signature of the canonical string `x` under the key
`secret`, with the reference HMAC-SHA256. -/
theorem hmac_sha256_base64_shape_witness :
    ∃ s, hmac_sha256_base64 (example_env []) "secret".toList "x".toList [] = (0, s) ∧
      s.length = 44 ∧ (∀ c ∈ s.take 43, c ∈ base64_alphabet) ∧ s.drop 43 = [Char.ofNat 61] ∧
      base64_decode s = some (hmac_sha256 "secret".toList "x".toList) :=
  hmac_sha256_base64_shape (example_env []) "secret".toList "x".toList []
    (hmac_sha256 "secret".toList "x".toList) rfl (by decide!) (by decide!)

/-! ## The nonce -/

theorem toDigitsCore_append (b : Nat) :
    ∀ (fuel n : Nat) (ds : List Char),
      Nat.toDigitsCore b fuel n ds = Nat.toDigitsCore b fuel n [] ++ ds := by
  intro fuel
  induction fuel with
  | zero => intro n ds; simp [Nat.toDigitsCore]
  | succ f ih =>
    intro n ds
    simp only [Nat.toDigitsCore]
    by_cases h : n / b = 0
    · simp [h]
    · simp only [h, if_false]
      rw [ih (n / b) (Nat.digitChar (n % b) :: ds), ih (n / b) [Nat.digitChar (n % b)]]
      simp

theorem toDigitsCore_value (b : Nat) (hb : 2 ≤ b) (dv : Char → Nat)
    (hdv : ∀ k < b, dv (Nat.digitChar k) = k) :
    ∀ (fuel n : Nat), n < fuel →
      (Nat.toDigitsCore b fuel n []).foldl (fun acc c => acc * b + dv c) 0 = n := by
  intro fuel
  induction fuel with
  | zero => intro n h; exact absurd h (Nat.not_lt_zero n)
  | succ f ih =>
    intro n hn
    have hmod : n % b < b := Nat.mod_lt _ (by omega)
    simp only [Nat.toDigitsCore]
    by_cases h : n / b = 0
    · have hlt : n < b := by
        rcases Nat.lt_or_ge n b with h1 | h1
        · exact h1
        · have : 0 < n / b := Nat.div_pos h1 (by omega)
          omega
      simp only [h, if_true, List.foldl_cons, List.foldl_nil, Nat.zero_mul, Nat.zero_add]
      rw [hdv _ hmod, Nat.mod_eq_of_lt hlt]
    · simp only [h, if_false]
      have hdiv : n / b < f := by
        have : n / b < n := Nat.div_lt_self (by
          rcases Nat.eq_zero_or_pos n with h0 | h0
          · rw [h0] at h; simp at h
          · exact h0) (by omega)
        omega
      rw [toDigitsCore_append, List.foldl_append, ih _ hdiv]
      simp only [List.foldl_cons, List.foldl_nil]
      rw [hdv _ hmod]
      exact Nat.div_add_mod' n b

theorem toDigitsCore_mem (b : Nat) (hb : 2 ≤ b) (p : Char → Prop)
    (hp : ∀ k < b, p (Nat.digitChar k)) :
    ∀ (fuel n : Nat), ∀ c ∈ Nat.toDigitsCore b fuel n [], p c := by
  intro fuel
  induction fuel with
  | zero => intro n c hc; simp [Nat.toDigitsCore] at hc
  | succ f ih =>
    intro n c hc
    have hmod : n % b < b := Nat.mod_lt _ (by omega)
    simp only [Nat.toDigitsCore] at hc
    by_cases h : n / b = 0
    · simp only [h, if_true, List.mem_singleton] at hc
      rw [hc]; exact hp _ hmod
    · simp only [h, if_false] at hc
      rw [toDigitsCore_append, List.mem_append, List.mem_singleton] at hc
      rcases hc with hc | hc
      · exact ih _ c hc
      · rw [hc]; exact hp _ hmod

theorem toDigitsCore_head (b : Nat) (hb : 2 ≤ b)
    (hz : ∀ k < b, k ≠ 0 → Nat.digitChar k ≠ Char.ofNat 48) :
    ∀ (fuel n : Nat), n < fuel → n ≠ 0 →
      ∃ c t, Nat.toDigitsCore b fuel n [] = c :: t ∧ c ≠ Char.ofNat 48 := by
  intro fuel
  induction fuel with
  | zero => intro n h; exact absurd h (Nat.not_lt_zero n)
  | succ f ih =>
    intro n hn hn0
    have hmod : n % b < b := Nat.mod_lt _ (by omega)
    simp only [Nat.toDigitsCore]
    by_cases h : n / b = 0
    · have hlt : n < b := by
        rcases Nat.lt_or_ge n b with h1 | h1
        · exact h1
        · have : 0 < n / b := Nat.div_pos h1 (by omega)
          omega
      simp only [h, if_true]
      refine ⟨_, [], rfl, hz _ hmod ?_⟩
      rw [Nat.mod_eq_of_lt hlt]; exact hn0
    · simp only [h, if_false]
      have hdiv : n / b < f := by
        have : n / b < n := Nat.div_lt_self (Nat.pos_of_ne_zero hn0) (by omega)
        omega
      obtain ⟨c, t, he, hc⟩ := ih _ hdiv h
      rw [toDigitsCore_append, he]
      exact ⟨c, t ++ [Nat.digitChar (n % b)], rfl, hc⟩

theorem hex_value_zeros (k : Nat) (s : List Char) :
    hex_value (List.replicate k (Char.ofNat 48) ++ s) = hex_value s := by
  unfold hex_value
  rw [List.foldl_append]
  congr 1
  induction k with
  | zero => rfl
  | succ k ih =>
    rw [List.replicate_succ, List.foldl_cons]
    exact ih

theorem fmt_08lx_spec (v : Nat) (hv : v < 4294967296) :
    (fmt_08lx v).length = 8 ∧ (∀ c ∈ fmt_08lx v, c ∈ hex_digits) ∧ hex_value (fmt_08lx v) = v := by
  have hlen : (Nat.toDigits 16 v).length ≤ 8 :=
    Nat.toDigitsCore_length 16 (by decide) (v + 1) v 8 (by simpa using hv) (by decide)
  have hmem : ∀ c ∈ Nat.toDigits 16 v, c ∈ hex_digits :=
    toDigitsCore_mem 16 (by decide) (fun c => c ∈ hex_digits) (by decide) (v + 1) v
  refine ⟨?_, ?_, ?_⟩
  · unfold fmt_08lx
    rw [List.length_append, List.length_replicate]
    omega
  · intro c hc
    unfold fmt_08lx at hc
    rw [List.mem_append] at hc
    rcases hc with hc | hc
    · rw [(List.mem_replicate.mp hc).2]; decide
    · exact hmem c hc
  · unfold fmt_08lx
    rw [hex_value_zeros]
    exact toDigitsCore_value 16 (by decide) (fun c => hex_digits.indexOf c) (by decide) (v + 1) v
      (Nat.lt_succ_self v)

theorem fmt_d_spec (t : Int) (h0 : 0 ≤ t) (hmax : t < 9223372036854775808) :
    (fmt_d t).length ≤ 19 ∧ fmt_d t ≠ [] ∧ (∀ c ∈ fmt_d t, c.isDigit = true) ∧
      (decimal_value (fmt_d t) : Int) = t ∧
      ((fmt_d t).head? = some (Char.ofNat 48) → fmt_d t = [Char.ofNat 48]) := by
  have hfmt : fmt_d t = Nat.toDigits 10 t.toNat := by
    unfold fmt_d
    rw [if_neg (by omega)]
  have hn : t.toNat < 10 ^ 19 := by
    have : (t.toNat : Int) = t := Int.toNat_of_nonneg h0
    norm_num
    omega
  rw [hfmt]
  have hval : decimal_value (Nat.toDigits 10 t.toNat) = t.toNat :=
    toDigitsCore_value 10 (by decide) (fun c => c.toNat - 48) (by decide) (t.toNat + 1) t.toNat
      (Nat.lt_succ_self _)
  refine ⟨Nat.toDigitsCore_length 10 (by decide) _ _ 19 hn (by decide), ?_,
    toDigitsCore_mem 10 (by decide) (fun c => c.isDigit = true) (by decide) _ _, ?_, ?_⟩
  · by_cases hz : t.toNat = 0
    · rw [hz]; decide
    · obtain ⟨c, tl, he, _⟩ := toDigitsCore_head 10 (by decide) (by decide) (t.toNat + 1) t.toNat
        (Nat.lt_succ_self _) hz
      unfold Nat.toDigits
      rw [he]
      exact List.cons_ne_nil c tl
  · rw [hval]
    exact Int.toNat_of_nonneg h0
  · intro hhead
    by_cases hz : t.toNat = 0
    · rw [hz]; decide
    · obtain ⟨c, tl, he, hc⟩ := toDigitsCore_head 10 (by decide) (by decide) (t.toNat + 1)
        t.toNat (Nat.lt_succ_self _) hz
      unfold Nat.toDigits at hhead
      rw [he] at hhead
      simp only [List.head?_cons, Option.some.injEq] at hhead
      exact absurd hhead hc

/-- C13: for a clock value `t` with `0 ≤ t` (a `long`) and two draws below
`2 ^ 32`, `gen_nonce` stores the decimal representation of `t` (digits with
the value `t`, no leading zero), a hyphen, and 16 lowercase hexadecimal digits,
8 for each draw with the value of that draw; the text has at most 63 bytes, so
nothing of it is cut by the 64-byte buffer. -/
theorem gen_nonce_format (w : Env) (ht : 0 ≤ w.time_nonce)
    (hlong : w.time_nonce < 9223372036854775808)
    (hr1 : w.rand1 < 4294967296) (hr2 : w.rand2 < 4294967296) :
    ∃ d h1 h2, gen_nonce w = d ++ Char.ofNat 45 :: (h1 ++ h2) ∧
      d ≠ [] ∧ (∀ c ∈ d, c.isDigit = true) ∧ (decimal_value d : Int) = w.time_nonce ∧
      (d.head? = some (Char.ofNat 48) → d = [Char.ofNat 48]) ∧
      h1.length = 8 ∧ h2.length = 8 ∧ (∀ c ∈ h1 ++ h2, c ∈ hex_digits) ∧
      hex_value h1 = w.rand1 ∧ hex_value h2 = w.rand2 ∧
      (gen_nonce w).length = d.length + 17 ∧ (gen_nonce w).length ≤ 63 := by
  obtain ⟨dl, dne, ddig, dval, dhead⟩ := fmt_d_spec w.time_nonce ht hlong
  obtain ⟨l1, m1, v1⟩ := fmt_08lx_spec w.rand1 hr1
  obtain ⟨l2, m2, v2⟩ := fmt_08lx_spec w.rand2 hr2
  have hlen : (fmt_d w.time_nonce ++ Char.ofNat 45 :: (fmt_08lx w.rand1 ++ fmt_08lx w.rand2)).length =
      (fmt_d w.time_nonce).length + 17 := by
    simp only [List.length_append, List.length_cons, l1, l2]
  have hg : gen_nonce w =
      fmt_d w.time_nonce ++ Char.ofNat 45 :: (fmt_08lx w.rand1 ++ fmt_08lx w.rand2) := by
    unfold gen_nonce
    exact snprintf_of_lt 64 _ (by rw [hlen]; omega)
  refine ⟨fmt_d w.time_nonce, fmt_08lx w.rand1, fmt_08lx w.rand2, hg, dne, ddig, dval, dhead,
    l1, l2, ?_, v1, v2, ?_, ?_⟩
  · intro c hc
    rcases List.mem_append.mp hc with h | h
    · exact m1 c h
    · exact m2 c h
  · rw [hg, hlen]
  · rw [hg, hlen]; omega

/-- C13, an instance: the clock at 1700000000 and the draws `0x1a2b3c4d` and
`0x5` give the nonce `1700000000-1a2b3c4d00000005`. -/
theorem gen_nonce_format_witness :
    gen_nonce (example_env []) = "1700000000-1a2b3c4d00000005".toList ∧
      ∃ d h1 h2, gen_nonce (example_env []) = d ++ Char.ofNat 45 :: (h1 ++ h2) ∧
        d ≠ [] ∧ (∀ c ∈ d, c.isDigit = true) ∧
        (decimal_value d : Int) = (example_env []).time_nonce ∧
        (d.head? = some (Char.ofNat 48) → d = [Char.ofNat 48]) ∧
        h1.length = 8 ∧ h2.length = 8 ∧ (∀ c ∈ h1 ++ h2, c ∈ hex_digits) ∧
        hex_value h1 = (example_env []).rand1 ∧ hex_value h2 = (example_env []).rand2 ∧
        (gen_nonce (example_env [])).length = d.length + 17 ∧
        (gen_nonce (example_env [])).length ≤ 63 :=
  ⟨by decide, gen_nonce_format (example_env []) (by decide) (by decide) (by decide) (by decide)⟩

/-! ## The key file -/

/-- C14: for a key file of at most 4095 bytes (the allocation of the key
succeeding), `read_key_file` fails exactly when the file cannot be opened, is
empty, or holds white space only; otherwise the key is the content without its
leading and trailing white space. -/
theorem read_key_file_trims (w : Env) (path : List Char) (file : Option (List Char))
    (hopen : w.fopen path = file) (hlen : ∀ content, file = some content → content.length ≤ 4095)
    (hmk : w.malloc_key = true) :
    ((read_key_file w path).1 ≠ 0 ↔
        file = none ∨ file = some [] ∨
          ∃ content, file = some content ∧ ∀ c ∈ content, isspace c = true) ∧
      (∀ content, file = some content → (read_key_file w path).1 = 0 →
        (read_key_file w path).2 = trim content) := by
  cases file with
  | none =>
    have hr : read_key_file w path = (-1, []) := by
      unfold read_key_file
      rw [hopen]
    rw [hr]
    exact ⟨⟨fun _ => Or.inl rfl, fun _ => by decide⟩, fun c hc => by simp at hc⟩
  | some content =>
    have htake : content.take 4095 = content := List.take_of_length_le (hlen content rfl)
    by_cases hblank : trim content = []
    · have hfail := read_key_file_blank w path content hopen hblank
      refine ⟨⟨fun _ => Or.inr (Or.inr ⟨content, rfl, (trim_eq_nil_iff content).mp hblank⟩),
        fun _ => hfail⟩, fun c _ h0 => absurd h0 hfail⟩
    · have hok := read_key_file_ok w path content hopen (by rw [htake]; exact hblank) hmk
      rw [htake] at hok
      rw [hok]
      refine ⟨⟨fun h => absurd rfl h, ?_⟩, ?_⟩
      · rintro (h | h | ⟨c, hc, hall⟩)
        · simp at h
        · have : content = [] := by simpa using h
          rw [this] at hblank
          exact absurd (by decide) hblank
        · have : content = c := by simpa using hc
          rw [← this] at hall
          exact absurd ((trim_eq_nil_iff content).mpr hall) hblank
      · intro c hc _
        have : content = c := by simpa using hc
        rw [this]

/-- C14, an instance: the key file of the examples holds `secret` and a line
feed, and the key is `secret`. -/
theorem read_key_file_trims_witness :
    read_key_file (example_env []) "/etc/portal/portal.signing.key".toList =
        (0, "secret".toList) ∧
      (∀ content, some "secret\n".toList = some content →
        (read_key_file (example_env []) "/etc/portal/portal.signing.key".toList).1 = 0 →
        (read_key_file (example_env []) "/etc/portal/portal.signing.key".toList).2 =
          trim content) :=
  ⟨by decide,
    (read_key_file_trims (example_env []) "/etc/portal/portal.signing.key".toList
      (some "secret\n".toList) (by decide)
      (fun content h => by
        have : "secret\n".toList = content := by simpa using h
        rw [← this]; decide)
      rfl).2⟩

/-! ## The connection handler: the number of responses -/

/-- A read that fails while a header line is read: the handler returns, has
done nothing, and leaves what follows the failed read unread. -/
theorem handler_silent_on_failed_read :
    portal_signer_handle_client (example_env []) example_cfg
        (stream "GET /auth HTTP/1.1\r\nX-Original-Me".toList ++ RdEv.error ::
          stream "thod: GET\r\n\r\n".toList) =
      some ⟨[], stream "thod: GET\r\n\r\n".toList⟩ := by
  decide!

/-- A read that fails while the body is read: the handler returns and has done
nothing. -/
theorem handler_silent_on_failed_body_read :
    portal_signer_handle_client (example_env []) example_cfg
        (stream "POST /sign HTTP/1.1\r\nContent-Length: 5\r\n\r\nab".toList ++
          [RdEv.error]) = some ⟨[], []⟩ := by
  decide!

/-- An error after the last event the handler reads changes nothing: the
request is answered, here with 400 for the missing original headers. -/
theorem handler_ignores_unread_error :
    portal_signer_handle_client (example_env []) example_cfg
        (stream "GET /auth HTTP/1.1\r\n\r\n".toList ++ [RdEv.error]) =
      some ⟨[Event.write "HTTP/1.1 400 Bad Request\r\nContent-Length: 0\r\n\r\n".toList],
        [RdEv.error]⟩ := by
  decide!

/-! ## The request line -/

theorem tokens_from_eq :
    ∀ (s cur : List Char),
      tokens_from s cur =
        if cur ++ s.takeWhile (fun c => !isspace c) = [] then
          tokens_from (s.dropWhile (fun c => !isspace c)) []
        else (cur ++ s.takeWhile (fun c => !isspace c)) ::
          tokens_from (s.dropWhile (fun c => !isspace c)) [] := by
  intro s
  induction s with
  | nil =>
    intro cur
    by_cases h : cur = []
    · simp [tokens_from, h]
    · simp [tokens_from, h]
  | cons c t ih =>
    intro cur
    by_cases hc : isspace c = true
    · by_cases h : cur = []
      · simp [tokens_from, hc, h]
      · simp [tokens_from, hc, h]
    · have hc2 : isspace c = false := by simpa using hc
      rw [tokens_from, if_neg hc, ih (cur ++ [c])]
      simp [hc2]

theorem tokens_from_blanks :
    ∀ (s : List Char), tokens_from s [] = tokens_from (s.dropWhile isspace) [] := by
  intro s
  induction s with
  | nil => rfl
  | cons c t ih =>
    by_cases hc : isspace c = true
    · rw [List.dropWhile_cons, if_pos hc, ← ih]
      simp [tokens_from, hc]
    · rw [List.dropWhile_cons, if_neg hc]

theorem tokens_eq (s : List Char) :
    tokens s =
      if s.dropWhile isspace = [] then []
      else (s.dropWhile isspace).takeWhile (fun c => !isspace c) ::
        tokens ((s.dropWhile isspace).dropWhile (fun c => !isspace c)) := by
  unfold tokens
  rw [tokens_from_blanks s]
  cases h : s.dropWhile isspace with
  | nil => simp [tokens_from]
  | cons c t =>
    have hc : isspace c = false := by
      have := List.head_dropWhile_not isspace s (by rw [h]; exact List.cons_ne_nil c t)
      simpa [h] using this
    rw [tokens_from_eq]
    simp [hc]

theorem scan_s_eq (width : Nat) (s : List Char) (hw : 0 < width) :
    scan_s width s =
      if s.dropWhile isspace = [] then none
      else some (((s.dropWhile isspace).takeWhile (fun c => !isspace c)).take width,
        (s.dropWhile isspace).drop
          (((s.dropWhile isspace).takeWhile (fun c => !isspace c)).take width).length) := by
  unfold scan_s
  cases h : s.dropWhile isspace with
  | nil => simp
  | cons c t =>
    have hc : isspace c = false := by
      have := List.head_dropWhile_not isspace s (by rw [h]; exact List.cons_ne_nil c t)
      simpa [h] using this
    have hne : ((c :: t).takeWhile (fun c => !isspace c)).take width ≠ [] := by
      rw [List.takeWhile_cons]
      simp only [hc, Bool.not_false, if_true]
      cases width with
      | zero => exact absurd hw (Nat.lt_irrefl 0)
      | succ n => simp
    simp only [hne, if_false]
    simp

theorem mem_takeWhile_pred (p : Char → Bool) (l : List Char) (x : Char)
    (h : x ∈ l.takeWhile p) : p x = true :=
  List.mem_takeWhile_imp h

theorem takeWhile_dropWhile_nil (p : Char → Bool) :
    ∀ l : List Char, (l.dropWhile p).takeWhile p = [] := by
  intro l
  induction l with
  | nil => rfl
  | cons a t ih =>
    by_cases h : p a = true
    · rw [List.dropWhile_cons, if_pos h]; exact ih
    · rw [List.dropWhile_cons, if_neg h, List.takeWhile_cons, if_neg h]

theorem takeWhile_append_of_all (p : Char → Bool) :
    ∀ (a b : List Char), (∀ c ∈ a, p c = true) →
      (a ++ b).takeWhile p = a ++ b.takeWhile p := by
  intro a
  induction a with
  | nil => intro b _; rfl
  | cons x t ih =>
    intro b h
    have hx : p x = true := h x (List.mem_cons_self x t)
    rw [List.cons_append, List.takeWhile_cons, if_pos hx,
      ih b (fun c hc => h c (List.mem_cons_of_mem x hc))]
    rfl

theorem dropWhile_of_head_not (p : Char → Bool) (c : Char) (t : List Char)
    (h : p c = false) : (c :: t).dropWhile p = c :: t := by
  rw [List.dropWhile_cons]
  simp [h]

theorem tokens_cons (line t1 : List Char) (rest : List (List Char))
    (h : tokens line = t1 :: rest) :
    line.dropWhile isspace ≠ [] ∧
      t1 = (line.dropWhile isspace).takeWhile (fun c => !isspace c) ∧
      rest = tokens ((line.dropWhile isspace).dropWhile (fun c => !isspace c)) ∧
      t1 ≠ [] ∧ (∀ c ∈ t1, (!isspace c) = true) ∧
      line.dropWhile isspace =
        t1 ++ (line.dropWhile isspace).dropWhile (fun c => !isspace c) := by
  rw [tokens_eq] at h
  by_cases h0 : line.dropWhile isspace = []
  · rw [if_pos h0] at h; simp at h
  · rw [if_neg h0] at h
    have h1 : (line.dropWhile isspace).takeWhile (fun c => !isspace c) = t1 :=
      (List.cons.inj h).1
    have h2 := (List.cons.inj h).2
    refine ⟨h0, h1.symm, h2.symm, ?_, ?_, ?_⟩
    · rw [← h1]
      cases hs : line.dropWhile isspace with
      | nil => exact absurd hs h0
      | cons c t =>
        have hc : isspace c = false := by
          have := List.head_dropWhile_not isspace line (by rw [hs]; exact List.cons_ne_nil c t)
          simpa [hs] using this
        rw [List.takeWhile_cons]
        simp [hc]
    · intro c hc
      rw [← h1] at hc
      exact mem_takeWhile_pred (fun c => !isspace c) _ c hc
    · rw [← h1, List.takeWhile_append_dropWhile]

theorem tokens_nil (line : List Char) (h : tokens line = []) :
    line.dropWhile isspace = [] := by
  rw [tokens_eq] at h
  by_cases h0 : line.dropWhile isspace = []
  · exact h0
  · rw [if_neg h0] at h; simp at h

theorem parse_request_line_tokens (line : List Char) :
    (∀ t1 t2 more, tokens line = t1 :: t2 :: more → t1.length ≤ 15 →
        parse_request_line line = some (t1, t2.take 511)) ∧
      (∀ t1 more, tokens line = t1 :: more → 15 < t1.length →
        parse_request_line line = some (t1.take 15, (t1.drop 15).take 511)) ∧
      (tokens line = [] → parse_request_line line = none) ∧
      (∀ t1, tokens line = [t1] → t1.length ≤ 15 → parse_request_line line = none) := by
  have short : ∀ t1 rest, tokens line = t1 :: rest → t1.length ≤ 15 →
      (scan_s 511 ((line.dropWhile isspace).dropWhile (fun c => !isspace c)) = none →
        parse_request_line line = none) ∧
      (∀ path r, scan_s 511 ((line.dropWhile isspace).dropWhile (fun c => !isspace c)) =
          some (path, r) → parse_request_line line = some (t1, path)) := by
    intro t1 rest h hl
    obtain ⟨h0, ht1, _, _, _, hsplit⟩ := tokens_cons line t1 rest h
    have hd : (line.dropWhile isspace).drop t1.length =
        (line.dropWhile isspace).dropWhile (fun c => !isspace c) := by
      conv_lhs => rw [hsplit]
      rw [List.drop_left]
    constructor
    · intro hs
      unfold parse_request_line
      rw [scan_s_eq 15 line (by decide), if_neg h0, ← ht1, List.take_of_length_le hl]
      simp only []
      rw [hd, hs]
    · intro path r hs
      unfold parse_request_line
      rw [scan_s_eq 15 line (by decide), if_neg h0, ← ht1, List.take_of_length_le hl]
      simp only []
      rw [hd, hs]
  refine ⟨?_, ?_, ?_, ?_⟩
  · intro t1 t2 more h hl
    obtain ⟨_, _, hrest, _, _, _⟩ := tokens_cons line t1 (t2 :: more) h
    obtain ⟨h0, ht2, _, _, _, _⟩ := tokens_cons _ t2 more hrest.symm
    exact (short t1 (t2 :: more) h hl).2 _ _ (by
      rw [scan_s_eq 511 _ (by decide), if_neg h0, ← ht2])
  · intro t1 more h hl
    obtain ⟨h0, ht1, _, hne, hall, hsplit⟩ := tokens_cons line t1 more h
    unfold parse_request_line
    rw [scan_s_eq 15 line (by decide), if_neg h0, ← ht1]
    simp only []
    have hlen : (t1.take 15).length = 15 := by
      rw [List.length_take]; omega
    have hd : (line.dropWhile isspace).drop (t1.take 15).length =
        t1.drop 15 ++ (line.dropWhile isspace).dropWhile (fun c => !isspace c) := by
      rw [hlen]
      conv_lhs => rw [hsplit]
      rw [List.drop_append_of_le_length (by omega)]
    rw [hd]
    cases hdr : t1.drop 15 with
    | nil =>
      have := congrArg List.length hdr
      rw [List.length_drop] at this
      simp only [List.length_nil] at this
      omega
    | cons c t =>
      have hmem : ∀ x ∈ c :: t, (!isspace x) = true := by
        intro x hx
        rw [← hdr] at hx
        exact hall x (List.mem_of_mem_drop hx)
      have hc : isspace c = false := by
        have := hmem c (List.mem_cons_self c t)
        simpa using this
      have hdw : ((c :: t) ++ (line.dropWhile isspace).dropWhile (fun c => !isspace c)).dropWhile
          isspace = (c :: t) ++ (line.dropWhile isspace).dropWhile (fun c => !isspace c) := by
        rw [List.cons_append]
        exact dropWhile_of_head_not isspace c _ hc
      rw [scan_s_eq 511 _ (by decide), hdw, if_neg (by simp),
        takeWhile_append_of_all _ (c :: t) _ hmem, takeWhile_dropWhile_nil, List.append_nil]
  · intro h
    have h0 := tokens_nil line h
    unfold parse_request_line
    rw [scan_s_eq 15 line (by decide), if_pos h0]
  · intro t1 h hl
    obtain ⟨_, _, hrest, _, _, _⟩ := tokens_cons line t1 [] h
    have h0 := tokens_nil _ hrest.symm
    exact (short t1 [] h hl).1 (by rw [scan_s_eq 511 _ (by decide), if_pos h0])

theorem handle_client_bad_request_line (w : Env) (cfg : signer_config_t)
    (line more : List Char) (hl : clean_line line) (hp : parse_request_line line = none) :
    portal_signer_handle_client w cfg (stream (line ++ [CR, LF] ++ more)) =
      some ⟨[Event.write (http_reply_text 400 "Bad Request".toList)], stream more⟩ := by
  have hread : read_line MAX_LINE (stream (line ++ [CR, LF] ++ more)) [] =
      (some (line ++ [CR, LF]), stream more) := by
    rw [stream_line]
    have := read_line_clean MAX_LINE (stream more) line [] (fun c hc => (hl.2 c hc).2.1) (by
      have := hl.1
      simp only [List.length_nil, MAX_LINE]
      omega)
    simpa using this
  unfold portal_signer_handle_client read_request
  rw [hread]
  simp only []
  rw [if_neg (by simp), rstrip_crlf_clean line hl.2, hp]
  rfl

/-- C17: `parse_request_line` on the white-space-separated tokens of a line.
With two tokens or more and a first token of at most 15 bytes, the method is
the first token and the path the first 511 bytes of the second (all of it when
it has at most 511 bytes). With no token, or with one token of at most 15
bytes, parsing fails, and the handler answers such a request line 400. -/
theorem parse_request_line_spec (w : Env) (cfg : signer_config_t) (line : List Char) :
    (∀ t1 t2 rest, tokens line = t1 :: t2 :: rest → t1.length ≤ 15 →
        parse_request_line line = some (t1, t2.take 511) ∧
          (t2.length ≤ 511 → parse_request_line line = some (t1, t2))) ∧
      ((tokens line = [] ∨ ∃ t1, tokens line = [t1] ∧ t1.length ≤ 15) →
        parse_request_line line = none ∧
          (clean_line line → ∀ more,
            portal_signer_handle_client w cfg (stream (line ++ [CR, LF] ++ more)) =
              some ⟨[Event.write (http_reply_text 400 "Bad Request".toList)], stream more⟩)) := by
  obtain ⟨h1, _, h3, h4⟩ := parse_request_line_tokens line
  refine ⟨?_, ?_⟩
  · intro t1 t2 rest ht hl
    refine ⟨h1 t1 t2 rest ht hl, fun hl2 => ?_⟩
    rw [h1 t1 t2 rest ht hl, List.take_of_length_le hl2]
  · intro h
    have hp : parse_request_line line = none := by
      rcases h with h | ⟨t1, ht, hl⟩
      · exact h3 h
      · exact h4 t1 ht hl
    exact ⟨hp, fun hc more => handle_client_bad_request_line w cfg line more hc hp⟩

/-- C17, a first token of 20 bytes: the line `ABCDEFGHIJKLMNOPQRST /x` has the
tokens `ABCDEFGHIJKLMNOPQRST` and `/x`, yet the method is `ABCDEFGHIJKLMNO` and
the path `PQRST`; and the line `ABCDEFGHIJKLMNOPQRST`, which has one token, is
parsed with success. -/
theorem parse_request_line_long_method :
    tokens "ABCDEFGHIJKLMNOPQRST /x".toList = ["ABCDEFGHIJKLMNOPQRST".toList, "/x".toList] ∧
      parse_request_line "ABCDEFGHIJKLMNOPQRST /x".toList =
        some ("ABCDEFGHIJKLMNO".toList, "PQRST".toList) ∧
      tokens "ABCDEFGHIJKLMNOPQRST".toList = ["ABCDEFGHIJKLMNOPQRST".toList] ∧
      parse_request_line "ABCDEFGHIJKLMNOPQRST".toList =
        some ("ABCDEFGHIJKLMNO".toList, "PQRST".toList) := by
  decide

/-- C17, two instances: the request line `GET /auth HTTP/1.1` gives the method
`GET` and the path `/auth`; the request line `GET` gets the 400 reply. -/
theorem parse_request_line_spec_witness :
    parse_request_line "GET /auth HTTP/1.1".toList = some ("GET".toList, "/auth".toList) ∧
      portal_signer_handle_client (example_env []) example_cfg
          (stream ("GET".toList ++ [CR, LF] ++ "Host: a\r\n\r\n".toList)) =
        some ⟨[Event.write (http_reply_text 400 "Bad Request".toList)],
          stream "Host: a\r\n\r\n".toList⟩ :=
  ⟨((parse_request_line_spec (example_env []) example_cfg "GET /auth HTTP/1.1".toList).1
      "GET".toList "/auth".toList ["HTTP/1.1".toList] (by decide) (by decide)).2 (by decide),
    ((parse_request_line_spec (example_env []) example_cfg "GET".toList).2
      (Or.inr ⟨"GET".toList, by decide, by decide⟩)).2 (by unfold clean_line; decide) _⟩

/-! ## The connection handler: the path of the original URI -/

theorem take_takeWhile_length (p : Char → Bool) :
    ∀ l : List Char, l.take (l.takeWhile p).length = l.takeWhile p := by
  intro l
  induction l with
  | nil => rfl
  | cons a t ih =>
    by_cases h : p a = true
    · rw [List.takeWhile_cons, if_pos h, List.length_cons, List.take_succ_cons, ih]
    · rw [List.takeWhile_cons, if_neg h]
      rfl

theorem takeWhile_all (p : Char → Bool) :
    ∀ l : List Char, (∀ c ∈ l, p c = true) → l.takeWhile p = l ∧ l.dropWhile p = [] := by
  intro l
  induction l with
  | nil => intro _; exact ⟨rfl, rfl⟩
  | cons a t ih =>
    intro h
    have ha : p a = true := h a (List.mem_cons_self a t)
    obtain ⟨h1, h2⟩ := ih (fun c hc => h c (List.mem_cons_of_mem a hc))
    rw [List.takeWhile_cons, List.dropWhile_cons, if_pos ha, if_pos ha, h1, h2]
    exact ⟨rfl, rfl⟩

theorem split_uri_eq (uri : List Char) (hlen : uri.length ≤ 511) :
    split_uri uri 512 512 =
      (uri.takeWhile (fun c => c != Char.ofNat 63),
        (uri.dropWhile (fun c => c != Char.ofNat 63)).drop 1) := by
  unfold split_uri
  by_cases hc : uri.contains (Char.ofNat 63) = true
  · rw [if_pos hc]
    have hl : (uri.takeWhile (fun c => c != Char.ofNat 63)).length ≤ uri.length :=
      takeWhile_length_le _ uri
    have hq : ((uri.dropWhile (fun c => c != Char.ofNat 63)).drop 1).length < 512 := by
      have := congrArg List.length (List.takeWhile_append_dropWhile
        (fun c => c != Char.ofNat 63) uri)
      rw [List.length_append] at this
      rw [List.length_drop]
      omega
    simp only []
    rw [if_neg (by omega), take_takeWhile_length, snprintf_of_lt 512 _ hq]
  · rw [if_neg hc]
    have hall : ∀ c ∈ uri, (c != Char.ofNat 63) = true := by
      intro c hm
      rw [bne_iff_ne]
      intro e
      rw [e] at hm
      exact hc (by simpa using hm)
    obtain ⟨h1, h2⟩ := takeWhile_all _ uri hall
    rw [h1, h2, snprintf_of_lt 512 uri (by omega)]
    rfl

theorem takeWhile_eq_nil_iff_head (uri : List Char) (hu : uri ≠ []) :
    uri.takeWhile (fun c => c != Char.ofNat 63) = [] ↔ uri.head? = some (Char.ofNat 63) := by
  cases uri with
  | nil => exact absurd rfl hu
  | cons a t =>
    rw [List.takeWhile_cons]
    by_cases h : a = Char.ofNat 63
    · simp [h]
    · simp [h]

theorem read_headers_uri_length :
    ∀ (fuel : Nat) (inp : List RdEv) (h h2 : Headers) (rest : List RdEv),
      read_headers fuel inp h = .done h2 rest → h.orig_uri.length ≤ 511 →
        h2.orig_uri.length ≤ 511 := by
  intro fuel
  induction fuel with
  | zero => intro inp h h2 rest hd; simp [read_headers] at hd
  | succ f ih =>
    intro inp h h2 rest hd hl
    unfold read_headers at hd
    cases hr : read_line MAX_LINE inp [] with
    | mk ob rest1 =>
      rw [hr] at hd
      cases ob with
      | none => simp at hd
      | some b =>
        simp only [] at hd
        by_cases h1 : b.length = 0
        · rw [if_pos h1] at hd
          simp only [HeaderResult.done.injEq] at hd
          rw [← hd.1]; exact hl
        · rw [if_neg h1] at hd
          by_cases h2e : rstrip_crlf b = []
          · rw [if_pos h2e] at hd
            simp only [HeaderResult.done.injEq] at hd
            rw [← hd.1]; exact hl
          · rw [if_neg h2e] at hd
            cases hh : header_line (rstrip_crlf b) h with
            | none => rw [hh] at hd; simp at hd
            | some h3 =>
              rw [hh] at hd
              refine ih rest1 h3 h2 rest hd ?_
              rcases (header_line_orig _ h h3 hh).2 with e | ⟨_, e⟩
              · rw [e]; exact hl
              · rw [e]
                exact snprintf_length_le 512 _

theorem read_request_uri_length (w : Env) (inp : List RdEv) (r : Request) (rest : List RdEv)
    (hr : read_request w inp = .request r rest) : r.orig_uri.length ≤ 511 := by
  unfold read_request at hr
  cases hl : read_line MAX_LINE inp [] with
  | mk ob rest1 =>
    rw [hl] at hr
    cases ob with
    | none => simp at hr
    | some buf =>
      simp only [] at hr
      by_cases h0 : buf.length = 0
      · rw [if_pos h0] at hr; simp at hr
      · rw [if_neg h0] at hr
        cases hp : parse_request_line (rstrip_crlf buf) with
        | none => rw [hp] at hr; simp at hr
        | some mp =>
          rw [hp] at hr
          simp only [] at hr
          cases hh : read_headers (rest1.length + 1) rest1 ⟨[], [], 0⟩ with
          | out_of_fuel => rw [hh] at hr; simp at hr
          | closed rest2 => rw [hh] at hr; simp at hr
          | too_large rest2 => rw [hh] at hr; simp at hr
          | done h rest2 =>
            have hlen := read_headers_uri_length _ rest1 _ h rest2 hh (by decide)
            rw [hh] at hr
            simp only [] at hr
            by_cases hc : h.content_len > 0
            · rw [if_pos hc] at hr
              by_cases hm : w.malloc_body = false
              · rw [if_pos hm] at hr; simp at hr
              · rw [if_neg hm] at hr
                cases hb : read_body h.content_len.toNat rest2 [] with
                | mk obody rest3 =>
                  rw [hb] at hr
                  cases obody with
                  | none => simp at hr
                  | some body =>
                    simp only [ReadResult.request.injEq] at hr
                    rw [← hr.1]; exact hlen
            · rw [if_neg hc] at hr
              simp only [ReadResult.request.injEq] at hr
              rw [← hr.1]; exact hlen

/-- C19: in the verify flow the path handed to the signer is the part of the
original URI before its first `?`, and the query the part after it; that path
is empty exactly when the URI begins with `?`. -/
theorem verify_flow_path (w : Env) (cfg : signer_config_t) (inp : List RdEv) (r : Request)
    (rest : List RdEv) (hread : read_request w inp = .request r rest)
    (hnot : ¬ (r.req_method = "POST".toList ∧ r.req_path = "/sign".toList))
    (hm : r.orig_method ≠ []) (hu : r.orig_uri ≠ []) :
    (∃ tail, portal_signer_handle_client w cfg inp =
        some ⟨Event.sign r.orig_method (r.orig_uri.takeWhile (fun c => c != Char.ofNat 63))
          ((r.orig_uri.dropWhile (fun c => c != Char.ofNat 63)).drop 1) [] :: tail, rest⟩) ∧
      (r.orig_uri.takeWhile (fun c => c != Char.ofNat 63) = [] ↔
        r.orig_uri.head? = some (Char.ofNat 63)) := by
  refine ⟨?_, takeWhile_eq_nil_iff_head r.orig_uri hu⟩
  have hs := split_uri_eq r.orig_uri (read_request_uri_length w inp r rest hread)
  rw [handle_client_of_request w cfg inp r rest hread, route_verify w cfg r hnot hm hu, hs]
  exact ⟨_, rfl⟩

/-- C19, an instance: for the original URI `/a?b=1` the signer is given the
path `/a` and the query `b=1`. -/
theorem verify_flow_path_witness :
    (∃ tail, portal_signer_handle_client (example_env []) example_cfg
        (stream (wire_request "GET /auth HTTP/1.1".toList
          ["X-Original-Method: GET".toList, "X-Original-URI: /a?b=1".toList] [])) =
        some ⟨Event.sign "GET".toList ("/a?b=1".toList.takeWhile (fun c => c != Char.ofNat 63))
          (("/a?b=1".toList.dropWhile (fun c => c != Char.ofNat 63)).drop 1) [] :: tail, []⟩) ∧
      ("/a?b=1".toList.takeWhile (fun c => c != Char.ofNat 63) = [] ↔
        "/a?b=1".toList.head? = some (Char.ofNat 63)) :=
  verify_flow_path (example_env []) example_cfg
    (stream (wire_request "GET /auth HTTP/1.1".toList
      ["X-Original-Method: GET".toList, "X-Original-URI: /a?b=1".toList] []))
    ⟨"GET".toList, "/auth".toList, "GET".toList, "/a?b=1".toList, none⟩ [] (by decide)
    (by decide) (by decide) (by decide)

/-- C19, an original URI without a path part: for `X-Original-URI: ?b=1` the
signer is given the empty path, not `/`. -/
theorem verify_flow_empty_path :
    (portal_signer_handle_client (example_env []) example_cfg
        (stream (wire_request "GET /auth HTTP/1.1".toList
          ["X-Original-Method: GET".toList, "X-Original-URI: ?b=1".toList] []))).map
        (fun o => o.trace.head?) =
      some (some (Event.sign "GET".toList [] "b=1".toList [])) := by
  decide!

/-! ## The connection handler: lines longer than the line buffer -/

/-- The line reader never stores more than `cap - 1` bytes. -/
theorem read_line_bounded (cap : Nat) :
    ∀ (inp : List RdEv) (buf b : List Char) (rest : List RdEv),
      read_line cap inp buf = (some b, rest) → buf.length + 1 ≤ cap → b.length + 1 ≤ cap := by
  intro inp
  induction inp with
  | nil =>
    intro buf b rest h hb
    simp only [read_line, Prod.mk.injEq, Option.some.injEq] at h
    rw [← h.1]; exact hb
  | cons ev t ih =>
    intro buf b rest h hb
    unfold read_line at h
    by_cases hc : buf.length + 1 < cap
    · rw [if_pos hc] at h
      cases ev with
      | eintr => exact ih buf b rest h hb
      | error => simp at h
      | byte c =>
        simp only [] at h
        by_cases hl : c = LF
        · rw [if_pos hl] at h
          simp only [Prod.mk.injEq, Option.some.injEq] at h
          rw [← h.1]
          simp only [List.length_append, List.length_singleton]
          omega
        · rw [if_neg hl] at h
          exact ih (buf ++ [c]) b rest h (by
            simp only [List.length_append, List.length_singleton]; omega)
    · rw [if_neg hc] at h
      simp only [Prod.mk.injEq, Option.some.injEq] at h
      rw [← h.1]; exact hb

/-- C20: two requests that differ only in the bytes of one header line beyond
its first 1023 bytes, and get different answers. In both the header `X-Pad`
begins with the same 1023 bytes; the bytes after them are read as the next
header line. In the first they are `Content-Length: 99999` and the answer is
413; in the second they are `Xontent-Length: 99999`, a header of no interest,
and the answer is 204. -/
theorem excess_bytes_are_read_as_a_header :
    ("X-Pad: ".toList ++ List.replicate 1016 (Char.ofNat 97) ++
        "Content-Length: 99999".toList).take 1023 =
      ("X-Pad: ".toList ++ List.replicate 1016 (Char.ofNat 97) ++
        "Xontent-Length: 99999".toList).take 1023 ∧
    (portal_signer_handle_client (example_env "HTTP/1.1 204 No Content\r\n\r\n".toList)
        example_cfg
        (stream (wire_request "GET /auth HTTP/1.1".toList
          ["X-Original-Method: GET".toList, "X-Original-URI: /a?b=1".toList,
            "X-Pad: ".toList ++ List.replicate 1016 (Char.ofNat 97) ++
              "Content-Length: 99999".toList] []))).map (fun o => client_writes o.trace) =
      some [http_reply_text 413 "Payload Too Large".toList] ∧
    (portal_signer_handle_client (example_env "HTTP/1.1 204 No Content\r\n\r\n".toList)
        example_cfg
        (stream (wire_request "GET /auth HTTP/1.1".toList
          ["X-Original-Method: GET".toList, "X-Original-URI: /a?b=1".toList,
            "X-Pad: ".toList ++ List.replicate 1016 (Char.ofNat 97) ++
              "Xontent-Length: 99999".toList] []))).map (fun o => client_writes o.trace) =
      some [http_reply_text 204 "No Content".toList] := by
  decide!

/-! ## The connection handler: the body -/

theorem header_line_content_length (l : List Char) (h0 : Headers) (n : Nat) (rest : List Char)
    (hm : (l.take 15).map tolower = "content-length:".toList)
    (hv : scan_long (header_value l 15) = some ((n : Int), rest)) (hn : n ≤ 65536) :
    header_line l h0 = some { h0 with content_len := (n : Int) } := by
  have c1 : strncasecmp_eq l "X-Original-Method:".toList 18 = false := by
    apply Bool.eq_false_iff.mpr
    intro c
    have h18 := (strncasecmp_eq_iff l "X-Original-Method:".toList "x-original-method:".toList 18
      (by decide)).mp c
    have h15 := congrArg (List.take 15) h18
    rw [← List.map_take, List.take_take] at h15
    rw [show min 15 18 = 15 from rfl, hm] at h15
    exact absurd h15 (by decide)
  have c2 : strncasecmp_eq l "X-Original-URI:".toList 15 = false := by
    apply Bool.eq_false_iff.mpr
    intro c
    have h15 := (strncasecmp_eq_iff l "X-Original-URI:".toList "x-original-uri:".toList 15
      (by decide)).mp c
    rw [hm] at h15
    exact absurd h15 (by decide)
  have c3 : strncasecmp_eq l "Content-Length:".toList 15 = true :=
    (strncasecmp_eq_iff l "Content-Length:".toList "content-length:".toList 15
      (by decide)).mpr hm
  have hne : header_value l 15 ≠ [] := by
    intro e
    rw [e] at hv
    have : scan_long [] = none := by decide
    rw [this] at hv
    exact absurd hv (by simp)
  have hg : header_get_int (header_value l 15) h0.content_len = (0, (n : Int)) := by
    unfold header_get_int
    rw [if_neg hne, hv]
    simp only [to_int]
    have : ((n : Int) + 2147483648) % 4294967296 - 2147483648 = (n : Int) := by omega
    rw [this]
  simp only [header_line, c1, c2, c3, hg, Bool.false_eq_true, if_false, if_true, MAX_BODY]
  rw [if_neg (by omega), if_neg (by omega)]

theorem header_line_other (l : List Char) (h0 : Headers)
    (hm : (l.take 15).map tolower ≠ "content-length:".toList) :
    ∃ h, header_line l h0 = some h ∧ h.content_len = h0.content_len := by
  rcases header_line_cases l h0 with ⟨e, _⟩ | ⟨e, _⟩ | ⟨c, _⟩ | e
  · exact ⟨_, e, rfl⟩
  · exact ⟨_, e, rfl⟩
  · exact absurd c hm
  · exact ⟨_, e, rfl⟩

theorem header_lines_content_length (n : Nat) (hn : n ≤ 65536) :
    ∀ (hs : List (List Char)) (h0 : Headers),
      (∀ l ∈ hs, (l.take 15).map tolower = "content-length:".toList →
        ∃ rest, scan_long (header_value l 15) = some ((n : Int), rest)) →
      ∃ h, header_lines hs h0 = some h ∧
        ((∃ l ∈ hs, (l.take 15).map tolower = "content-length:".toList) →
          h.content_len = (n : Int)) ∧
        ((∀ l ∈ hs, (l.take 15).map tolower ≠ "content-length:".toList) →
          h.content_len = h0.content_len) := by
  intro hs
  induction hs with
  | nil =>
    intro h0 _
    exact ⟨h0, rfl, fun ⟨l, hl, _⟩ => by simp at hl, fun _ => rfl⟩
  | cons l ls ih =>
    intro h0 hcl
    have hcl2 : ∀ x ∈ ls, (x.take 15).map tolower = "content-length:".toList →
        ∃ rest, scan_long (header_value x 15) = some ((n : Int), rest) :=
      fun x hx => hcl x (List.mem_cons_of_mem l hx)
    by_cases hm : (l.take 15).map tolower = "content-length:".toList
    · obtain ⟨rest, hv⟩ := hcl l (List.mem_cons_self l ls) hm
      have e := header_line_content_length l h0 n rest hm hv hn
      obtain ⟨h, hh, hyes, hno⟩ := ih { h0 with content_len := (n : Int) } hcl2
      refine ⟨h, by simp only [header_lines, e, hh], fun _ => ?_, fun hall => ?_⟩
      · by_cases hex : ∃ x ∈ ls, (x.take 15).map tolower = "content-length:".toList
        · exact hyes hex
        · have := hno (fun x hx hc => hex ⟨x, hx, hc⟩)
          rw [this]
      · exact absurd hm (hall l (List.mem_cons_self l ls))
    · obtain ⟨h1, e, hc1⟩ := header_line_other l h0 hm
      obtain ⟨h, hh, hyes, hno⟩ := ih h1 hcl2
      refine ⟨h, by simp only [header_lines, e, hh], fun ⟨x, hx, hc⟩ => ?_, fun hall => ?_⟩
      · rcases List.mem_cons.mp hx with rfl | hx
        · exact absurd hc hm
        · exact hyes ⟨x, hx, hc⟩
      · rw [hno (fun x hx => hall x (List.mem_cons_of_mem l hx)), hc1]

/-- Requests whose lines fit the line buffer, with Content-Length headers that
all declare the same `n ≤ 65536`: the handler takes no 413 exit, and the body
it holds when it routes is the first `n` bytes after the empty line, or all
the bytes that arrive when they are fewer; for `n = 0`, and without any
Content-Length header, it reads no body byte. -/
theorem body_read_within_limit (w : Env) (request_line : List Char)
    (headers : List (List Char)) (body req_method req_path : List Char) (n : Nat)
    (hrl : clean_line request_line)
    (hparse : parse_request_line request_line = some (req_method, req_path))
    (hclean : ∀ l ∈ headers, clean_line l ∧ l ≠ [])
    (hcl : ∀ l ∈ headers, (l.take 15).map tolower = "content-length:".toList →
      ∃ rest, scan_long (header_value l 15) = some ((n : Int), rest))
    (hn : n ≤ 65536) (hmalloc : w.malloc_body = true) :
    ((∃ l ∈ headers, (l.take 15).map tolower = "content-length:".toList) → 0 < n →
      ∃ om ou, read_request w (stream (wire_request request_line headers body)) =
        .request ⟨req_method, req_path, om, ou, some (body.take n)⟩ (stream (body.drop n))) ∧
    ((n = 0 ∨ ∀ l ∈ headers, (l.take 15).map tolower ≠ "content-length:".toList) →
      ∃ om ou, read_request w (stream (wire_request request_line headers body)) =
        .request ⟨req_method, req_path, om, ou, none⟩ (stream body)) := by
  obtain ⟨h, hh, hyes, hno⟩ := header_lines_content_length n hn headers ⟨[], [], 0⟩ hcl
  have hread := read_request_wire w request_line headers body req_method req_path h hrl hparse
    hclean hh hmalloc
  constructor
  · intro hex hpos
    have hc := hyes hex
    rw [hc, if_pos (by omega)] at hread
    exact ⟨_, _, by simpa using hread⟩
  · intro h0
    have hc : h.content_len = 0 := by
      rcases h0 with h0 | h0
      · by_cases hex : ∃ l ∈ headers, (l.take 15).map tolower = "content-length:".toList
        · rw [hyes hex, h0]; rfl
        · exact hno (fun x hx hc => hex ⟨x, hx, hc⟩)
      · exact hno h0
    rw [hc, if_neg (by decide)] at hread
    exact ⟨_, _, hread⟩

/-- The body of exactly 65536 bytes: a sign request that declares
`Content-Length: 65536` is not answered 413 (instance with a short line). -/
theorem content_length_at_limit :
    header_line "Content-Length: 65536".toList ⟨[], [], 0⟩ = some ⟨[], [], 65536⟩ ∧
      header_line "Content-Length: 65537".toList ⟨[], [], 0⟩ = none := by
  decide

/-- C16: a request whose Content-Length header declares 28 bytes and whose
body is not read. The header `X-Pad` before it has 1023 bytes; `read_line`
returns them without the CR LF, and its next call returns that CR LF, which
the header loop takes for the empty line that ends the headers. The handler
reads no body and answers 400; the Content-Length header, the empty line and
the 28 bytes of the body stay unread. -/
theorem body_not_read_after_full_line :
    portal_signer_handle_client (example_env []) example_cfg
        (stream (wire_request "POST /sign HTTP/1.1".toList
          ["X-Pad: ".toList ++ List.replicate 1016 (Char.ofNat 97),
            "Content-Length: 28".toList]
          "\x7b\"method\":\"GET\",\"path\":\"/x\"\x7d".toList)) =
      some ⟨[Event.write (http_reply_text 400 "Bad Request".toList)],
        stream ("Content-Length: 28\r\n\r\n".toList ++
          "\x7b\"method\":\"GET\",\"path\":\"/x\"\x7d".toList)⟩ := by
  decide!

/-! ## The flat JSON extractor: fields of other names -/

theorem strstr_skip (k : List Char) :
    ∀ (s rest : List Char), QUOTE ∉ s →
      strstr (s ++ rest) (QUOTE :: k ++ [QUOTE]) = strstr rest (QUOTE :: k ++ [QUOTE]) := by
  intro s
  induction s with
  | nil => intro rest _; rfl
  | cons c t ih =>
    intro rest h
    have hc : c ≠ QUOTE := fun e => h (by rw [e]; exact List.mem_cons_self _ _)
    have ht : QUOTE ∉ t := fun e => h (List.mem_cons_of_mem c e)
    have hp : (QUOTE :: k ++ [QUOTE]).isPrefixOf (c :: (t ++ rest)) = false := by
      simp only [List.cons_append, List.isPrefixOf, Bool.and_eq_false_imp, beq_iff_eq]
      intro e
      exact absurd e.symm hc
    rw [List.cons_append, strstr, hp]
    simp only [Bool.false_eq_true, if_false]
    exact ih rest ht

theorem prefix_segment :
    ∀ (k s rest : List Char), QUOTE ∉ k → QUOTE ∉ s →
      (k ++ [QUOTE]).isPrefixOf (s ++ QUOTE :: rest) = true → k = s := by
  intro k
  induction k with
  | nil =>
    intro s rest _ hs h
    cases s with
    | nil => rfl
    | cons c t =>
      simp only [List.nil_append, List.cons_append, List.isPrefixOf, Bool.and_true,
        beq_iff_eq] at h
      exact absurd (by rw [← h]; exact List.mem_cons_self _ _) hs
  | cons a k2 ih =>
    intro s rest hk hs h
    cases s with
    | nil =>
      simp only [List.cons_append, List.nil_append, List.isPrefixOf, Bool.and_eq_true,
        beq_iff_eq] at h
      exact absurd (by rw [h.1]; exact List.mem_cons_self _ _) hk
    | cons c t =>
      simp only [List.cons_append, List.isPrefixOf, Bool.and_eq_true, beq_iff_eq] at h
      rw [h.1, ih t rest (fun e => hk (List.mem_cons_of_mem a e))
        (fun e => hs (List.mem_cons_of_mem c e)) h.2]

theorem strstr_segment (k s rest : List Char) (hk : QUOTE ∉ k) (hs : QUOTE ∉ s)
    (hne : s ≠ k) :
    strstr (QUOTE :: (s ++ QUOTE :: rest)) (QUOTE :: k ++ [QUOTE]) =
      strstr (QUOTE :: rest) (QUOTE :: k ++ [QUOTE]) := by
  have hp : (QUOTE :: k ++ [QUOTE]).isPrefixOf (QUOTE :: (s ++ QUOTE :: rest)) = false := by
    apply Bool.eq_false_iff.mpr
    intro h
    simp only [List.cons_append, List.isPrefixOf, beq_self_eq_true, Bool.true_and] at h
    exact hne (prefix_segment k s rest hk hs h).symm
  rw [strstr, hp]
  simp only [Bool.false_eq_true, if_false]
  exact strstr_skip k s (QUOTE :: rest) hs

theorem strstr_found (k rest : List Char) :
    strstr (QUOTE :: k ++ QUOTE :: rest) (QUOTE :: k ++ [QUOTE]) =
      some (QUOTE :: k ++ QUOTE :: rest) := by
  have hp : (QUOTE :: k ++ [QUOTE]).isPrefixOf (QUOTE :: (k ++ QUOTE :: rest)) = true := by
    rw [List.isPrefixOf_iff_prefix]
    exact ⟨rest, by simp⟩
  show strstr (QUOTE :: (k ++ QUOTE :: rest)) (QUOTE :: k ++ [QUOTE]) = _
  rw [strstr, hp]
  rfl

theorem json_decode_spec_quote (t : List Char) : json_decode_spec (QUOTE :: t) = [] := by
  cases t <;> simp [json_decode_spec]

theorem json_decode_spec_plain (c : Char) (p : List Char) (hq : c ≠ QUOTE) (hb : c ≠ BSLASH) :
    json_decode_spec (c :: p) = c :: json_decode_spec p := by
  cases p <;> simp [json_decode_spec, hq, hb]

theorem json_decode_spec_escape (e : Char) (p : List Char) :
    json_decode_spec (BSLASH :: e :: p) = spec_unescape e :: json_decode_spec p := by
  have h : BSLASH ≠ QUOTE := by decide
  simp [json_decode_spec, h]

theorem json_decode_spec_closed :
    ∀ (n : Nat) (v : List Char), v.length ≤ n → string_body_ok v = true →
      ∀ t, json_decode_spec (v ++ QUOTE :: t) = json_decode_spec (v ++ [QUOTE]) := by
  intro n
  induction n with
  | zero =>
    intro v hv _ t
    have : v = [] := List.length_eq_zero.mp (Nat.le_zero.mp hv)
    subst this
    simp [json_decode_spec_quote]
  | succ n ih =>
    intro v hv hok t
    match v, hv, hok with
    | [], _, _ => simp [json_decode_spec_quote]
    | [c], _, hok =>
      simp only [string_body_ok, Bool.and_eq_true, bne_iff_ne, ne_eq] at hok
      simp [json_decode_spec_plain c _ hok.1 hok.2, json_decode_spec_quote]
    | c :: e :: s, hv, hok =>
      have hs : s.length ≤ n := by simp only [List.length_cons] at hv; omega
      have hes : (e :: s).length ≤ n := by simp only [List.length_cons] at hv ⊢; omega
      by_cases hq : c = QUOTE
      · simp [string_body_ok, hq] at hok
      · by_cases hb : c = BSLASH
        · have hok2 : string_body_ok s = true := by
            simp only [string_body_ok, hq, hb, if_true, if_false] at hok
            exact hok
          subst hb
          simp only [List.cons_append, json_decode_spec_escape]
          rw [ih s hs hok2 t]
        · have hok2 : string_body_ok (e :: s) = true := by
            simp only [string_body_ok, hq, hb, if_false] at hok
            exact hok
          have := ih (e :: s) hes hok2 t
          simp only [List.cons_append] at this
          simp only [List.cons_append, json_decode_spec_plain c _ hq hb]
          rw [this]

theorem known_fields_facts (k : List Char) (hk : k ∈ known_fields) :
    QUOTE ∉ k ∧ Char.ofNat 58 ∉ k ∧ Char.ofNat 44 ∉ k ∧ Char.ofNat 123 ∉ k ∧
      k.length ≤ 125 := by
  simp only [known_fields, List.mem_cons, List.mem_singleton, List.not_mem_nil, or_false] at hk
  rcases hk with rfl | rfl | rfl | rfl <;> decide

theorem blanks_no_quote (l : List Char) (h : blanks l) : QUOTE ∉ l := by
  intro hq
  have := h QUOTE hq
  exact absurd this (by decide)

theorem separator_segment (k a b : List Char) (c : Char) (ha : blanks a) (hb : blanks b)
    (hc : c ≠ QUOTE) (hk : c ∉ k) :
    QUOTE ∉ a ++ c :: b ∧ a ++ c :: b ≠ k := by
  constructor
  · intro h
    rcases List.mem_append.mp h with h | h
    · exact blanks_no_quote a ha h
    · rcases List.mem_cons.mp h with h | h
      · exact hc h.symm
      · exact blanks_no_quote b hb h
  · intro e
    exact hk (by rw [← e]; simp)

theorem strstr_plain_field (k : List Char) (f : json_field) (lead rest : List Char)
    (hk : k ∈ known_fields) (hf : plain_field k f) (hl : blanks lead) :
    strstr (field_body f ++ (f.trail ++ Char.ofNat 44 :: (lead ++ QUOTE :: rest)))
        (QUOTE :: k ++ [QUOTE]) =
      strstr (QUOTE :: rest) (QUOTE :: k ++ [QUOTE]) := by
  obtain ⟨hq, hcolon, hcomma, _, _⟩ := known_fields_facts k hk
  obtain ⟨_, g1, g2, tr, h1, h2, h3, h4⟩ := hf
  obtain ⟨s1, s2⟩ := separator_segment k f.gap1 f.gap2 (Char.ofNat 58) g1 g2 (by decide) hcolon
  obtain ⟨s3, s4⟩ := separator_segment k f.trail lead (Char.ofNat 44) tr hl (by decide) hcomma
  have e1 : field_body f ++ (f.trail ++ Char.ofNat 44 :: (lead ++ QUOTE :: rest)) =
      QUOTE :: (f.name ++ QUOTE :: ((f.gap1 ++ Char.ofNat 58 :: f.gap2) ++ QUOTE ::
        (f.value ++ QUOTE :: ((f.trail ++ Char.ofNat 44 :: lead) ++ QUOTE :: rest)))) := by
    simp [field_body]
  rw [e1, strstr_segment k f.name _ hq h1 h3, strstr_segment k _ _ hq s1 s2,
    strstr_segment k f.value _ hq h2 h4, strstr_segment k _ _ hq s3 s4]

theorem fields_text_head (g : json_field) (r : List json_field) :
    ∃ u, fields_text (g :: r) = g.lead ++ QUOTE :: u := by
  cases r with
  | nil =>
    exact ⟨(field_body g).tail ++ g.trail, by simp [fields_text, field_text, field_body]⟩
  | cons h t =>
    exact ⟨(field_body g).tail ++ (g.trail ++ Char.ofNat 44 :: fields_text (h :: t)), by
      simp [fields_text, field_text, field_body]⟩

theorem strstr_fields (k : List Char) (hk : k ∈ known_fields) (x : json_field)
    (hx : blanks x.lead) (after : List json_field) (tl : List Char) :
    ∀ before : List json_field, (∀ f ∈ before, plain_field k f) →
      strstr (fields_text (before ++ x :: after) ++ tl) (QUOTE :: k ++ [QUOTE]) =
        strstr (fields_text (x :: after) ++ tl) (QUOTE :: k ++ [QUOTE]) := by
  intro before
  induction before with
  | nil => intro _; rfl
  | cons f fs ih =>
    intro h
    have hf := h f (List.mem_cons_self f fs)
    have hfs : ∀ g ∈ fs, plain_field k g := fun g hg => h g (List.mem_cons_of_mem f hg)
    cases hl : fs ++ x :: after with
    | nil => simp at hl
    | cons g r =>
      have hg : blanks g.lead := by
        cases fs with
        | nil =>
          simp only [List.nil_append, List.cons.injEq] at hl
          rw [← hl.1]; exact hx
        | cons f2 t2 =>
          simp only [List.cons_append, List.cons.injEq] at hl
          rw [← hl.1]
          exact (hfs f2 (List.mem_cons_self f2 t2)).1
      obtain ⟨u, hu⟩ := fields_text_head g r
      have e : fields_text (f :: fs ++ x :: after) ++ tl =
          f.lead ++ (field_body f ++ (f.trail ++ Char.ofNat 44 ::
            (g.lead ++ QUOTE :: (u ++ tl)))) := by
        rw [List.cons_append, hl]
        simp [fields_text, field_text, hu]
      have e2 : fields_text (g :: r) ++ tl = g.lead ++ QUOTE :: (u ++ tl) := by
        rw [hu]; simp
      rw [e, strstr_skip k f.lead _ (blanks_no_quote _ hf.1),
        strstr_plain_field k f g.lead _ hk hf hg, ← ih hfs, hl, e2,
        strstr_skip k g.lead _ (blanks_no_quote _ hg)]

theorem field_tail (x : json_field) (after : List json_field) (tl : List Char) :
    ∃ t, fields_text (x :: after) ++ tl =
      x.lead ++ ((QUOTE :: x.name ++ [QUOTE]) ++ (x.gap1 ++ Char.ofNat 58 :: (x.gap2 ++
        QUOTE :: (x.value ++ QUOTE :: t)))) := by
  cases after with
  | nil => exact ⟨x.trail ++ tl, by simp [fields_text, field_text, field_body]⟩
  | cons g r => exact ⟨x.trail ++ Char.ofNat 44 :: (fields_text (g :: r) ++ tl), by
      simp [fields_text, field_text, field_body]⟩

theorem json_get_string_of_strstr (json key out ws1 ws2 value : List Char) (out_sz : Nat)
    (hsz : 0 < out_sz) (hkey : key.length ≤ 125) (h1 : blanks ws1) (h2 : blanks ws2)
    (hs : strstr json (QUOTE :: key ++ [QUOTE]) =
      some ((QUOTE :: key ++ [QUOTE]) ++ (ws1 ++ Char.ofNat 58 :: (ws2 ++ QUOTE :: value)))) :
    json_get_string json key out out_sz = (0, (json_decode_spec value).take (out_sz - 1)) := by
  have hpat : snprintf 128 (QUOTE :: key ++ [QUOTE]) = QUOTE :: key ++ [QUOTE] := by
    unfold snprintf
    apply List.take_of_length_le
    simp only [List.cons_append, List.length_cons, List.length_append, List.length_singleton,
      List.length_nil]
    omega
  have hcolon : json_ws (Char.ofNat 58) = false := by decide
  have hquote : json_ws QUOTE = false := by decide
  have e1 : (ws1 ++ Char.ofNat 58 :: (ws2 ++ QUOTE :: value)).dropWhile json_ws =
      Char.ofNat 58 :: (ws2 ++ QUOTE :: value) := by
    rw [dropWhile_append_of_all json_ws ws1 _ h1, List.dropWhile_cons, hcolon]
    rfl
  have e2 : (ws2 ++ QUOTE :: value).dropWhile json_ws = QUOTE :: value := by
    rw [dropWhile_append_of_all json_ws ws2 _ h2, List.dropWhile_cons, hquote]
    rfl
  unfold json_get_string
  rw [if_neg (Nat.pos_iff_ne_zero.mp hsz)]
  simp only [hpat, hs, List.drop_left, e1, List.head?_cons, List.drop_succ_cons, List.drop_zero,
    e2, ne_eq, not_true_eq_false, if_false]
  rw [json_copy_eq out_sz value.length value [] (Nat.le_refl _)]
  simp

theorem json_get_string_object (k out : List Char) (out_sz : Nat) (x : json_field)
    (before after : List json_field)
    (hk : k ∈ known_fields) (hname : x.name = k) (hv : string_body_ok x.value = true)
    (hlead : blanks x.lead) (hg1 : blanks x.gap1) (hg2 : blanks x.gap2)
    (hb : ∀ f ∈ before, plain_field k f) :
    json_get_string (json_object (before ++ x :: after)) k out out_sz =
      if out_sz = 0 then (-1, out)
      else (0, (json_decode_spec (x.value ++ [QUOTE])).take (out_sz - 1)) := by
  by_cases hsz : out_sz = 0
  · rw [if_pos hsz]
    unfold json_get_string
    rw [if_pos hsz]
  · rw [if_neg hsz]
    obtain ⟨hq, _, _, _, hlen⟩ := known_fields_facts k hk
    obtain ⟨t, ht⟩ := field_tail x after [Char.ofNat 125]
    rw [hname] at ht
    have hs : strstr (json_object (before ++ x :: after)) (QUOTE :: k ++ [QUOTE]) =
        some ((QUOTE :: k ++ [QUOTE]) ++ (x.gap1 ++ Char.ofNat 58 :: (x.gap2 ++
          QUOTE :: (x.value ++ QUOTE :: t)))) := by
      have e : json_object (before ++ x :: after) =
          [Char.ofNat 123] ++ (fields_text (before ++ x :: after) ++ [Char.ofNat 125]) := by
        simp [json_object]
      have e3 : (QUOTE :: k ++ [QUOTE]) ++ (x.gap1 ++ Char.ofNat 58 :: (x.gap2 ++
          QUOTE :: (x.value ++ QUOTE :: t))) =
          QUOTE :: k ++ QUOTE :: (x.gap1 ++ Char.ofNat 58 :: (x.gap2 ++
            QUOTE :: (x.value ++ QUOTE :: t))) := by
        simp
      rw [e, strstr_skip k [Char.ofNat 123] _ (by decide),
        strstr_fields k hk x hlead after _ before hb, ht,
        strstr_skip k x.lead _ (blanks_no_quote _ hlead), e3, strstr_found]
    rw [json_get_string_of_strstr _ k out x.gap1 x.gap2 _ out_sz (Nat.pos_of_ne_zero hsz) hlen
      hg1 hg2 hs, json_decode_spec_closed x.value.length x.value (Nat.le_refl _) hv t]

/-- C18: in a flat JSON object of string fields, let the field `x` named `k`,
one of the four known names, with a well-formed value, come after fields whose
names and values hold no quote character and differ from `k`. Then
`json_get_string` for `k` yields the decoding of the value of `x`, whatever
those fields before it are and whatever fields come after it: adding such
fields before the field `k`, or any fields after it, does not change the
result. -/
theorem unknown_fields_ignored (k out : List Char) (out_sz : Nat) (x : json_field)
    (before after before2 after2 : List json_field)
    (hk : k ∈ known_fields) (hname : x.name = k) (hv : string_body_ok x.value = true)
    (hlead : blanks x.lead) (hg1 : blanks x.gap1) (hg2 : blanks x.gap2)
    (hb : ∀ f ∈ before, plain_field k f) (hb2 : ∀ f ∈ before2, plain_field k f) :
    json_get_string (json_object (before2 ++ x :: after2)) k out out_sz =
        json_get_string (json_object (before ++ x :: after)) k out out_sz ∧
      (0 < out_sz →
        json_get_string (json_object (before ++ x :: after)) k out out_sz =
          (0, (json_decode_spec (x.value ++ [QUOTE])).take (out_sz - 1))) := by
  rw [json_get_string_object k out out_sz x before2 after2 hk hname hv hlead hg1 hg2 hb2,
    json_get_string_object k out out_sz x before after hk hname hv hlead hg1 hg2 hb]
  exact ⟨rfl, fun h => by rw [if_neg (Nat.pos_iff_ne_zero.mp h)]⟩

/-- C18, an instance: the fields `user` before and `note` after the field
`method` do not change the result `GET`. -/
theorem unknown_fields_ignored_witness :
    json_get_string (json_object [⟨" ".toList, "user".toList, [], " ".toList, "bob".toList, []⟩,
        compact_field "method".toList "GET".toList,
        compact_field "note".toList "a\\\"b".toList]) "method".toList [] 16 =
        json_get_string (json_object [compact_field "method".toList "GET".toList])
          "method".toList [] 16 ∧
      (0 < 16 →
        json_get_string (json_object [compact_field "method".toList "GET".toList])
            "method".toList [] 16 =
          (0, (json_decode_spec ("GET".toList ++ [QUOTE])).take (16 - 1))) :=
  unknown_fields_ignored "method".toList [] 16 (compact_field "method".toList "GET".toList)
    [] [] [⟨" ".toList, "user".toList, [], " ".toList, "bob".toList, []⟩]
    [compact_field "note".toList "a\\\"b".toList] (by decide) rfl (by decide)
    (fun c hc => by simp [compact_field] at hc) (fun c hc => by simp [compact_field] at hc)
    (fun c hc => by simp [compact_field] at hc)
    (fun f hf => by simp at hf)
    (fun f hf => by
      rw [List.mem_singleton.mp hf]
      unfold plain_field blanks
      decide)

/-- C18, two added fields that change the result: the object with the one
field `method` gives `GET`; with a field `x` of value `method` added in front
the extractor fails, and with a field named `a"method` added in front it gives
the value of that field. -/
theorem unknown_field_taken_for_known :
    json_object [compact_field "x".toList "method".toList,
        compact_field "method".toList "GET".toList] =
      "\x7b\"x\":\"method\",\"method\":\"GET\"\x7d".toList ∧
    json_get_string (json_object [compact_field "method".toList "GET".toList])
        "method".toList [] 16 = (0, "GET".toList) ∧
      json_get_string (json_object [compact_field "x".toList "method".toList,
        compact_field "method".toList "GET".toList]) "method".toList [] 16 = (-3, []) ∧
      json_get_string (json_object [compact_field "a\\\"method".toList "PUT".toList,
        compact_field "method".toList "GET".toList]) "method".toList [] 16 =
        (0, "PUT".toList) := by
  decide

/-! ## The canonical string: injectivity -/

theorem split_at_newline :
    ∀ (a b r s : List Char), LF ∉ a → LF ∉ b → a ++ LF :: r = b ++ LF :: s → a = b ∧ r = s := by
  intro a
  induction a with
  | nil =>
    intro b r s _ hb h
    cases b with
    | nil =>
      simp only [List.nil_append, List.cons.injEq, true_and] at h
      exact ⟨rfl, h⟩
    | cons y t =>
      simp only [List.nil_append, List.cons_append, List.cons.injEq] at h
      exact absurd (by rw [← h.1]; exact List.mem_cons_self _ _) hb
  | cons x t ih =>
    intro b r s ha hb h
    cases b with
    | nil =>
      simp only [List.nil_append, List.cons_append, List.cons.injEq] at h
      exact absurd (by rw [h.1]; exact List.mem_cons_self _ _) ha
    | cons y u =>
      simp only [List.cons_append, List.cons.injEq] at h
      obtain ⟨e1, e2⟩ := ih u r s (fun m => ha (List.mem_cons_of_mem x m))
        (fun m => hb (List.mem_cons_of_mem y m)) h.2
      exact ⟨by rw [h.1, e1], e2⟩

/-- C22: two field tuples whose timestamp, nonce, method, path and query hold
no line feed, and for which `build_canonical_v1` returns the same canonical
string, are equal field by field (a NULL query counted as the empty one, the
body through its SHA-256 digest in hexadecimal); and two different tuples with
a line feed inside a field, such as a path that `json_get_string` decodes from
a `\n` escape, do get the same canonical string. -/
theorem build_canonical_v1_injective (w : Env) (ts1 nonce1 method1 path1 : List Char)
    (raw_query1 body1 : Option (List Char)) (ts2 nonce2 method2 path2 : List Char)
    (raw_query2 body2 : Option (List Char)) (C : List Char)
    (h1 : build_canonical_v1 w ts1 nonce1 method1 path1 raw_query1 body1 = some C)
    (h2 : build_canonical_v1 w ts2 nonce2 method2 path2 raw_query2 body2 = some C)
    (n1 : LF ∉ ts1 ∧ LF ∉ nonce1 ∧ LF ∉ method1 ∧ LF ∉ path1 ∧ LF ∉ raw_query1.getD [])
    (n2 : LF ∉ ts2 ∧ LF ∉ nonce2 ∧ LF ∉ method2 ∧ LF ∉ path2 ∧ LF ∉ raw_query2.getD []) :
    (ts1 = ts2 ∧ nonce1 = nonce2 ∧ method1 = method2 ∧ path1 = path2 ∧
        raw_query1.getD [] = raw_query2.getD [] ∧
        sha256_hex_lower w body1 = sha256_hex_lower w body2) ∧
      (build_canonical_v1 w ts1 nonce1 method1 ("/a".toList ++ LF :: "b".toList)
          (some "c".toList) body1 =
        build_canonical_v1 w ts1 nonce1 method1 "/a".toList
          (some ("b".toList ++ LF :: "c".toList)) body1 ∧
        json_get_string "\x7b\"path\":\"/a\\nb\"\x7d".toList "path".toList [] 512 =
          (0, "/a".toList ++ LF :: "b".toList)) := by
  have hm : w.malloc_canonical = true := by
    cases hmc : w.malloc_canonical with
    | true => rfl
    | false => simp [build_canonical_v1, hmc] at h1
  constructor
  · rw [build_canonical_v1_eq w _ _ _ _ _ _ hm] at h1 h2
    have e : ts1 ++ LF :: (nonce1 ++ LF :: (method1 ++ LF :: (path1 ++ LF ::
        (raw_query1.getD [] ++ LF :: (sha256_hex_lower w body1 ++ [LF]))))) =
        ts2 ++ LF :: (nonce2 ++ LF :: (method2 ++ LF :: (path2 ++ LF ::
        (raw_query2.getD [] ++ LF :: (sha256_hex_lower w body2 ++ [LF]))))) := by
      have a1 := Option.some.inj h1
      have a2 := Option.some.inj h2
      rw [← a2] at a1
      simpa [sha256_hex_lower] using a1
    obtain ⟨e1, r1⟩ := split_at_newline _ _ _ _ n1.1 n2.1 e
    obtain ⟨e2, r2⟩ := split_at_newline _ _ _ _ n1.2.1 n2.2.1 r1
    obtain ⟨e3, r3⟩ := split_at_newline _ _ _ _ n1.2.2.1 n2.2.2.1 r2
    obtain ⟨e4, r4⟩ := split_at_newline _ _ _ _ n1.2.2.2.1 n2.2.2.2.1 r3
    obtain ⟨e5, r5⟩ := split_at_newline _ _ _ _ n1.2.2.2.2 n2.2.2.2.2 r4
    exact ⟨e1, e2, e3, e4, e5, List.append_cancel_right r5⟩
  · constructor
    · rw [build_canonical_v1_eq w _ _ _ _ _ _ hm, build_canonical_v1_eq w _ _ _ _ _ _ hm]
      simp
    · decide

/-- C22, an instance: GET /a with query `b=1`, once with a NULL body and once
with an empty body, gives the same canonical string twice, and the two tuples
agree field by field, the bodies through their digest. -/
theorem build_canonical_v1_injective_witness :
    ("1700000000".toList = "1700000000".toList ∧ "n".toList = "n".toList ∧
        "GET".toList = "GET".toList ∧ "/a".toList = "/a".toList ∧
        (some "b=1".toList).getD [] = (some "b=1".toList).getD [] ∧
        sha256_hex_lower (example_env []) none = sha256_hex_lower (example_env []) (some [])) ∧
      (build_canonical_v1 (example_env []) "1700000000".toList "n".toList "GET".toList
          ("/a".toList ++ LF :: "b".toList) (some "c".toList) none =
        build_canonical_v1 (example_env []) "1700000000".toList "n".toList "GET".toList
          "/a".toList (some ("b".toList ++ LF :: "c".toList)) none ∧
        json_get_string "\x7b\"path\":\"/a\\nb\"\x7d".toList "path".toList [] 512 =
          (0, "/a".toList ++ LF :: "b".toList)) :=
  build_canonical_v1_injective (example_env []) "1700000000".toList "n".toList "GET".toList
    "/a".toList (some "b=1".toList) none "1700000000".toList "n".toList "GET".toList
    "/a".toList (some "b=1".toList) (some [])
    ("1700000000\nn\nGET\n/a\nb=1\n".toList ++
      "e3b0c44298fc1c149afbf4c8996fb92427ae41e4649b934ca495991b7852b855\n".toList)
    (by decide!) (by decide!) (by decide) (by decide)

/-! ## The flat JSON extractor: the size of the output -/

theorem json_get_string_ok_form (json key out : List Char) (out_sz : Nat)
    (hok : (json_get_string json key out out_sz).1 = 0) :
    ∃ v, (∃ pre, json = pre ++ QUOTE :: v) ∧
      json_get_string json key out out_sz = (0, json_copy out_sz v []) := by
  unfold json_get_string at hok ⊢
  by_cases hsz : out_sz = 0
  · rw [if_pos hsz] at hok
    simp at hok
  · rw [if_neg hsz] at hok ⊢
    simp only [] at hok ⊢
    cases hs : strstr json (snprintf 128 (QUOTE :: key ++ [QUOTE])) with
    | none => rw [hs] at hok; simp at hok
    | some p0 =>
      rw [hs] at hok
      simp only [] at hok ⊢
      obtain ⟨i, _, hp0⟩ := strstr_some _ json p0 hs
      by_cases h1 : ((p0.drop (snprintf 128 (QUOTE :: key ++ [QUOTE])).length).dropWhile
          json_ws).head? ≠ some (Char.ofNat 58)
      · rw [if_pos h1] at hok
        simp at hok
      · rw [if_neg h1] at hok ⊢
        by_cases h2 : ((((p0.drop (snprintf 128 (QUOTE :: key ++ [QUOTE])).length).dropWhile
            json_ws).drop 1).dropWhile json_ws).head? ≠ some QUOTE
        · rw [if_pos h2] at hok
          simp at hok
        · rw [if_neg h2]
          have hq : ((((p0.drop (snprintf 128 (QUOTE :: key ++ [QUOTE])).length).dropWhile
              json_ws).drop 1).dropWhile json_ws).head? = some QUOTE := by
            simpa using h2
          have hsuf : List.IsSuffix ((((p0.drop
              (snprintf 128 (QUOTE :: key ++ [QUOTE])).length).dropWhile
              json_ws).drop 1).dropWhile json_ws) json := by
            refine List.IsSuffix.trans (List.dropWhile_suffix _) ?_
            refine List.IsSuffix.trans (List.drop_suffix _ _) ?_
            refine List.IsSuffix.trans (List.dropWhile_suffix _) ?_
            refine List.IsSuffix.trans (List.drop_suffix _ _) ?_
            rw [hp0]
            exact List.drop_suffix _ _
          cases hp2 : (((p0.drop (snprintf 128 (QUOTE :: key ++ [QUOTE])).length).dropWhile
              json_ws).drop 1).dropWhile json_ws with
          | nil => rw [hp2] at hq; simp at hq
          | cons c v =>
            rw [hp2] at hq hsuf
            have hc : c = QUOTE := by simpa using hq
            subst hc
            obtain ⟨pre, hpre⟩ := hsuf
            exact ⟨v, ⟨pre, hpre.symm⟩, rfl⟩

theorem json_optional_length (req_body key : List Char) (out_sz : Nat) :
    (json_optional req_body key out_sz).length ≤ out_sz - 1 := by
  unfold json_optional
  by_cases h : (json_get_string req_body key [] out_sz).1 ≠ 0
  · rw [if_pos h]
    exact Nat.zero_le _
  · rw [if_neg h]
    have h0 : (json_get_string req_body key [] out_sz).1 = 0 := by simpa using h
    obtain ⟨v, _, hr⟩ := json_get_string_ok_form req_body key [] out_sz h0
    rw [hr, json_copy_eq out_sz v.length v [] (Nat.le_refl _)]
    simp only [List.nil_append, List.length_nil, Nat.sub_zero, List.length_take]
    omega

/-- C23: when `json_get_string` succeeds for an output size of at least 1,
the string it stores together with its terminator fits the output buffer: it
has at most `out_sz - 1` bytes (they are stored at the indices below the
length and the terminator at the index of the length). The string is the
first `out_sz - 1` bytes of the decoding of the value that follows an opening
quote in the input. Hence the method `handle_sign_endpoint` signs has at most
15 bytes, the path and the query at most 511 and the body at most 65535. -/
theorem json_get_string_bounded (json key out : List Char) (out_sz : Nat) (hsz : 1 ≤ out_sz)
    (hok : (json_get_string json key out out_sz).1 = 0) :
    ((json_get_string json key out out_sz).2.length + 1 ≤ out_sz ∧
        ∃ v, (∃ pre, json = pre ++ QUOTE :: v) ∧
          (json_get_string json key out out_sz).2 =
            (json_decode_spec v).take (out_sz - 1)) ∧
      (∀ (w : Env) (cfg : signer_config_t) (req_body m p q b : List Char),
        Event.sign m p q b ∈ handle_sign_endpoint w cfg req_body →
          m.length ≤ 15 ∧ p.length ≤ 511 ∧ q.length ≤ 511 ∧ b.length ≤ 65535) := by
  constructor
  · obtain ⟨v, hv, hr⟩ := json_get_string_ok_form json key out out_sz hok
    have hc := json_copy_eq out_sz v.length v [] (Nat.le_refl _)
    simp only [List.nil_append, List.length_nil, Nat.sub_zero] at hc
    rw [hr, hc]
    refine ⟨?_, v, hv, rfl⟩
    simp only [List.length_take]
    omega
  · intro w cfg req_body m p q b hmem
    have hno : ∀ code msg, Event.sign m p q b ∉ http_reply code msg := by
      intro code msg h
      simp [http_reply] at h
    by_cases hm : (json_get_string req_body "method".toList [] 16).1 = 0
    · by_cases hp : (json_get_string req_body "path".toList [] 512).1 = 0
      · rw [handle_sign_endpoint_eq w cfg req_body hm hp, List.mem_cons] at hmem
        rcases hmem with e | hmem
        · simp only [Event.sign.injEq] at e
          obtain ⟨v1, _, r1⟩ := json_get_string_ok_form req_body "method".toList [] 16 hm
          obtain ⟨v2, _, r2⟩ := json_get_string_ok_form req_body "path".toList [] 512 hp
          have c1 := json_copy_eq 16 v1.length v1 [] (Nat.le_refl _)
          have c2 := json_copy_eq 512 v2.length v2 [] (Nat.le_refl _)
          simp only [List.nil_append, List.length_nil, Nat.sub_zero] at c1 c2
          rw [e.1, e.2.1, e.2.2.1, e.2.2.2, r1, r2, c1, c2]
          refine ⟨?_, ?_, json_optional_length _ _ 512, ?_⟩
          · simp only [List.length_take]; omega
          · simp only [List.length_take]; omega
          · have := json_optional_length req_body "body".toList MAX_BODY
            simpa [MAX_BODY] using this
        · split at hmem
          · exact absurd hmem (hno _ _)
          · simp [http_reply_json] at hmem
      · unfold handle_sign_endpoint at hmem
        simp only [ne_eq, hm, not_true_eq_false, if_false, hp, not_false_eq_true,
          if_true] at hmem
        exact absurd hmem (hno _ _)
    · unfold handle_sign_endpoint at hmem
      simp only [ne_eq, hm, not_false_eq_true, if_true] at hmem
      exact absurd hmem (hno _ _)

/-- C23, an instance: the value `abcdefghij` read into a buffer of 4 bytes is
cut to `abc`. -/
theorem json_get_string_bounded_witness :
    json_get_string "\x7b\"k\":\"abcdefghij\"\x7d".toList "k".toList [] 4 = (0, "abc".toList) ∧
      (json_get_string "\x7b\"k\":\"abcdefghij\"\x7d".toList "k".toList [] 4).2.length + 1 ≤ 4 :=
  ⟨by decide,
    (json_get_string_bounded "\x7b\"k\":\"abcdefghij\"\x7d".toList "k".toList [] 4 (by decide)
      (by decide)).1.1⟩

/-! ## The two copies of split_uri -/

theorem strchr_eq (c : Char) :
    ∀ u : List Char,
      strchr u c = (if u.contains c then some (u.dropWhile (fun x => x != c)) else none) ∧
        (u.takeWhile (fun x => x != c)).length =
          u.length - (u.dropWhile (fun x => x != c)).length := by
  intro u
  induction u with
  | nil => exact ⟨rfl, rfl⟩
  | cons h t ih =>
    by_cases hc : h = c
    · subst hc
      simp [strchr]
    · have hb : (h != c) = true := by simpa using hc
      have hne : ¬ c = h := fun e => hc e.symm
      have hl : (t.dropWhile (fun x => x != c)).length ≤ t.length :=
        List.Sublist.length_le (List.dropWhile_sublist _)
      refine ⟨?_, ?_⟩
      · rw [strchr, if_neg hc, ih.1]
        simp [List.contains_cons, hb, hne, List.dropWhile_cons]
      · rw [List.takeWhile_cons, List.dropWhile_cons, if_pos hb, if_pos hb, List.length_cons,
          List.length_cons, ih.2]
        omega

theorem crypto_hmac_split_uri_eq (uri : Option (List Char)) (out_path_sz out_query_sz : Nat) :
    crypto_hmac_split_uri uri out_path_sz out_query_sz =
      split_uri_ptr uri out_path_sz out_query_sz := by
  cases uri with
  | none => rfl
  | some u =>
    unfold crypto_hmac_split_uri split_uri_ptr split_uri
    simp only []
    rw [(strchr_eq (Char.ofNat 63) u).1]
    by_cases hc : u.contains (Char.ofNat 63) = true
    · rw [if_pos hc, if_pos hc]
      simp only []
      rw [← (strchr_eq (Char.ofNat 63) u).2]
    · rw [if_neg hc, if_neg hc]

/-- C24: for a URI of at most 511 bytes and the buffers of 512 bytes, the path
and the query `split_uri` stores: when the URI holds a `?`, the path, a `?`
and the query together are the URI and the path holds no `?`; when it holds
none, the path is the URI and the query is empty. The copy of `split_uri` in
`crypto_hmac.c` computes the same function, the NULL pointer included. -/
theorem split_uri_spec (uri : List Char) (hlen : uri.length ≤ 511) :
    (Char.ofNat 63 ∈ uri →
        (split_uri uri 512 512).1 ++ Char.ofNat 63 :: (split_uri uri 512 512).2 = uri ∧
          Char.ofNat 63 ∉ (split_uri uri 512 512).1) ∧
      (Char.ofNat 63 ∉ uri → split_uri uri 512 512 = (uri, [])) ∧
      (∀ (u : Option (List Char)) (out_path_sz out_query_sz : Nat),
        crypto_hmac_split_uri u out_path_sz out_query_sz =
          split_uri_ptr u out_path_sz out_query_sz) := by
  rw [split_uri_eq uri hlen]
  refine ⟨?_, ?_, crypto_hmac_split_uri_eq⟩
  · intro hmem
    constructor
    · cases hd : uri.dropWhile (fun c => c != Char.ofNat 63) with
      | nil =>
        have hall := List.dropWhile_eq_nil_iff.mp hd
        have := hall (Char.ofNat 63) hmem
        simp at this
      | cons c r =>
        have hc : (c != Char.ofNat 63) = false := by
          have := List.head_dropWhile_not (fun c => c != Char.ofNat 63) uri
            (by rw [hd]; exact List.cons_ne_nil c r)
          simpa [hd] using this
        have hc2 : c = Char.ofNat 63 := by simpa using hc
        simp only [List.drop_succ_cons, List.drop_zero]
        have e := List.takeWhile_append_dropWhile (fun c => c != Char.ofNat 63) uri
        rw [hd, hc2] at e
        exact e
    · intro hin
      have := mem_takeWhile_pred (fun c => c != Char.ofNat 63) uri _ hin
      simp at this
  · intro hno
    have hall : ∀ c ∈ uri, (c != Char.ofNat 63) = true := by
      intro c hm
      rw [bne_iff_ne]
      intro e
      rw [e] at hm
      exact hno hm
    obtain ⟨h1, h2⟩ := takeWhile_all _ uri hall
    rw [h1, h2]
    rfl

/-- C24, two instances: `/a?b=1?c` splits into `/a` and `b=1?c`, and `/a` into
`/a` and the empty query. -/
theorem split_uri_spec_witness :
    split_uri "/a?b=1?c".toList 512 512 = ("/a".toList, "b=1?c".toList) ∧
      split_uri "/a".toList 512 512 = ("/a".toList, []) :=
  ⟨by decide, (split_uri_spec "/a".toList (by decide)).2.1 (by decide)⟩

/-! ## The controller client: the buffers -/

theorem verify_body_text_length (orig_method orig_uri : List Char) (sig : portal_sig_t) :
    (verify_body_text orig_method orig_uri sig).length =
      87 + orig_method.length + orig_uri.length + sig.timestamp.length + sig.nonce.length +
        sig.signature.length := by
  have e1 : "\x7b\"method\":\"".toList.length = 11 := by decide
  have e2 : "\",\"uri\":\"".toList.length = 9 := by decide
  have e3 : "\",\"security\":\x7b\"kid\":\"".toList.length = 21 := by decide
  have e4 : "v1".toList.length = 2 := by decide
  have e5 : "\",\"timestamp\":\"".toList.length = 15 := by decide
  have e6 : "\",\"nonce\":\"".toList.length = 11 := by decide
  have e7 : "\",\"signature\":\"".toList.length = 15 := by decide
  have e8 : "\"\x7d\x7d".toList.length = 3 := by decide
  unfold verify_body_text
  simp only [List.length_append, e1, e2, e3, e4, e5, e6, e7, e8]
  omega

theorem verify_request_text_length (cfg : signer_config_t) (blen : Int) (body : List Char) :
    (verify_request_text cfg blen body).length =
      96 + cfg.controller_path.length + cfg.controller_addr.length +
        (fmt_d cfg.controller_port).length + (fmt_d blen).length + body.length := by
  have e1 : "POST ".toList.length = 5 := by decide
  have e2 : " HTTP/1.1\r\nHost: ".toList.length = 17 := by decide
  have e3 : ":".toList.length = 1 := by decide
  have e4 : "\r\nContent-Type: application/json\r\nContent-Length: ".toList.length = 50 := by
    decide
  have e5 : "\r\nConnection: close\r\n\r\n".toList.length = 23 := by decide
  unfold verify_request_text
  simp only [List.length_append, e1, e2, e3, e4, e5]
  omega

theorem fmt_d_length_int (v : Int) (h : -2147483648 ≤ v ∧ v ≤ 2147483647) :
    (fmt_d v).length ≤ 11 := by
  unfold fmt_d
  by_cases hneg : v < 0
  · rw [if_pos hneg, List.length_cons]
    have : (Nat.toDigits 10 v.natAbs).length ≤ 10 :=
      Nat.toDigitsCore_length 10 (by decide) _ _ 10 (by omega) (by decide)
    omega
  · rw [if_neg hneg]
    have : (Nat.toDigits 10 v.toNat).length ≤ 10 :=
      Nat.toDigitsCore_length 10 (by decide) _ _ 10 (by omega) (by decide)
    omega

theorem controller_status_codes (response : List RdEv) :
    controller_status response = 0 ∨ controller_status response = -8 ∨
      controller_status response = -9 ∨ controller_status response = -10 := by
  unfold controller_status
  cases hr : read_line MAX_LINE response [] with
  | mk ob rest =>
    cases ob with
    | none => simp
    | some buf =>
      simp only []
      by_cases h0 : buf.length = 0
      · rw [if_pos h0]; simp
      · rw [if_neg h0]
        cases hs : scan_status (cstr buf) with
        | none => simp
        | some code =>
          simp only []
          by_cases hc : code ≥ 200 ∧ code < 300
          · rw [if_pos hc]; simp
          · rw [if_neg hc]; simp

theorem controller_verify_codes (w : Env) (cfg : signer_config_t)
    (orig_method orig_uri : List Char) (sig : portal_sig_t)
    (hb : (verify_body_text orig_method orig_uri sig).length < 1024)
    (hr : (verify_request_text cfg (verify_body_text orig_method orig_uri sig).length
      (verify_body_text orig_method orig_uri sig)).length < 2048) :
    (controller_verify w cfg orig_method orig_uri sig).1 ≠ -2 ∧
      (controller_verify w cfg orig_method orig_uri sig).1 ≠ -6 := by
  have hpos : 0 < (verify_body_text orig_method orig_uri sig).length := by
    rw [verify_body_text_length]; omega
  have hrpos : 0 < (verify_request_text cfg (verify_body_text orig_method orig_uri sig).length
      (verify_body_text orig_method orig_uri sig)).length := by
    rw [verify_request_text_length]; omega
  have hsn : snprintf 1024 (verify_body_text orig_method orig_uri sig) =
      verify_body_text orig_method orig_uri sig := snprintf_of_lt 1024 _ hb
  unfold controller_verify
  by_cases h1 : cfg.controller_addr = [] ∨ cfg.controller_path = []
  · rw [if_pos h1]; simp
  · rw [if_neg h1]
    simp only [hsn]
    rw [if_neg (by omega)]
    by_cases h3 : w.socket_ok = false
    · rw [if_pos h3]; simp
    · rw [if_neg h3]
      by_cases h4 : w.inet_pton cfg.controller_addr = false
      · rw [if_pos h4]; simp
      · rw [if_neg h4]
        by_cases h5 : w.connect_ok = false
        · rw [if_pos h5]; simp
        · rw [if_neg h5, if_neg (by omega)]
          split
          · simp
          · simp only []
            rcases controller_status_codes (w.controller (snprintf 2048 (verify_request_text cfg
              (verify_body_text orig_method orig_uri sig).length
              (verify_body_text orig_method orig_uri sig)))) with e | e | e | e <;>
              rw [e] <;> decide

theorem read_headers_method_length :
    ∀ (fuel : Nat) (inp : List RdEv) (h h2 : Headers) (rest : List RdEv),
      read_headers fuel inp h = .done h2 rest → h.orig_method.length ≤ 63 →
        h2.orig_method.length ≤ 63 := by
  intro fuel
  induction fuel with
  | zero => intro inp h h2 rest hd; simp [read_headers] at hd
  | succ f ih =>
    intro inp h h2 rest hd hl
    unfold read_headers at hd
    cases hr : read_line MAX_LINE inp [] with
    | mk ob rest1 =>
      rw [hr] at hd
      cases ob with
      | none => simp at hd
      | some b =>
        simp only [] at hd
        by_cases h1 : b.length = 0
        · rw [if_pos h1] at hd
          simp only [HeaderResult.done.injEq] at hd
          rw [← hd.1]; exact hl
        · rw [if_neg h1] at hd
          by_cases h2e : rstrip_crlf b = []
          · rw [if_pos h2e] at hd
            simp only [HeaderResult.done.injEq] at hd
            rw [← hd.1]; exact hl
          · rw [if_neg h2e] at hd
            cases hh : header_line (rstrip_crlf b) h with
            | none => rw [hh] at hd; simp at hd
            | some h3 =>
              rw [hh] at hd
              refine ih rest1 h3 h2 rest hd ?_
              rcases (header_line_orig _ h h3 hh).1 with e | ⟨_, e⟩
              · rw [e]; exact hl
              · rw [e]
                exact snprintf_length_le 64 _

theorem read_request_method_length (w : Env) (inp : List RdEv) (r : Request) (rest : List RdEv)
    (hr : read_request w inp = .request r rest) : r.orig_method.length ≤ 63 := by
  unfold read_request at hr
  cases hl : read_line MAX_LINE inp [] with
  | mk ob rest1 =>
    rw [hl] at hr
    cases ob with
    | none => simp at hr
    | some buf =>
      simp only [] at hr
      by_cases h0 : buf.length = 0
      · rw [if_pos h0] at hr; simp at hr
      · rw [if_neg h0] at hr
        cases hp : parse_request_line (rstrip_crlf buf) with
        | none => rw [hp] at hr; simp at hr
        | some mp =>
          rw [hp] at hr
          simp only [] at hr
          cases hh : read_headers (rest1.length + 1) rest1 ⟨[], [], 0⟩ with
          | out_of_fuel => rw [hh] at hr; simp at hr
          | closed rest2 => rw [hh] at hr; simp at hr
          | too_large rest2 => rw [hh] at hr; simp at hr
          | done h rest2 =>
            have hlen := read_headers_method_length _ rest1 _ h rest2 hh (by decide)
            rw [hh] at hr
            simp only [] at hr
            by_cases hc : h.content_len > 0
            · rw [if_pos hc] at hr
              by_cases hm : w.malloc_body = false
              · rw [if_pos hm] at hr; simp at hr
              · rw [if_neg hm] at hr
                cases hb : read_body h.content_len.toNat rest2 [] with
                | mk obody rest3 =>
                  rw [hb] at hr
                  cases obody with
                  | none => simp at hr
                  | some body =>
                    simp only [ReadResult.request.injEq] at hr
                    rw [← hr.1]; exact hlen
            · rw [if_neg hc] at hr
              simp only [ReadResult.request.injEq] at hr
              rw [← hr.1]; exact hlen

/-- C25: for an original method of at most 63 bytes, an original URI of at
most 511 bytes, a signature whose fields have at most 31, 63 and 127 bytes, a
controller address of at most 63 bytes, a controller path of at most 127 bytes
and a port in the range of `int`, the body `controller_verify` formats has
fewer than 1024 bytes and the request fewer than 2048, and its return code is
neither -2 nor -6; in a run of the handler the arguments of
`controller_verify` satisfy these bounds, so neither code occurs there. -/
theorem controller_verify_fits (w : Env) (cfg : signer_config_t)
    (orig_method orig_uri : List Char) (sig : portal_sig_t)
    (hm : orig_method.length ≤ 63) (hu : orig_uri.length ≤ 511)
    (ht : sig.timestamp.length ≤ 31) (hn : sig.nonce.length ≤ 63)
    (hs : sig.signature.length ≤ 127)
    (ha : cfg.controller_addr.length ≤ 63) (hp : cfg.controller_path.length ≤ 127)
    (hport : -2147483648 ≤ cfg.controller_port ∧ cfg.controller_port ≤ 2147483647) :
    ((verify_body_text orig_method orig_uri sig).length < 1024 ∧
        (verify_request_text cfg (verify_body_text orig_method orig_uri sig).length
          (verify_body_text orig_method orig_uri sig)).length < 2048 ∧
        (controller_verify w cfg orig_method orig_uri sig).1 ≠ -2 ∧
        (controller_verify w cfg orig_method orig_uri sig).1 ≠ -6) ∧
      (∀ (inp : List RdEv) (r : Request) (rest : List RdEv) (path : List Char)
          (raw_query body : Option (List Char)),
        read_request w inp = .request r rest →
        (portal_sign_v1_hmac_sha256_base64 w cfg.key_file r.orig_method path raw_query body
          ⟨[], [], []⟩).1 = 0 →
        (controller_verify w cfg r.orig_method r.orig_uri
            (portal_sign_v1_hmac_sha256_base64 w cfg.key_file r.orig_method path raw_query body
              ⟨[], [], []⟩).2).1 ≠ -2 ∧
          (controller_verify w cfg r.orig_method r.orig_uri
            (portal_sign_v1_hmac_sha256_base64 w cfg.key_file r.orig_method path raw_query body
              ⟨[], [], []⟩).2).1 ≠ -6) := by
  have fits : ∀ (m u : List Char) (sg : portal_sig_t), m.length ≤ 63 → u.length ≤ 511 →
      sg.timestamp.length ≤ 31 → sg.nonce.length ≤ 63 → sg.signature.length ≤ 127 →
      (verify_body_text m u sg).length < 1024 ∧
        (verify_request_text cfg (verify_body_text m u sg).length
          (verify_body_text m u sg)).length < 2048 := by
    intro m u sg h1 h2 h3 h4 h5
    have hb : (verify_body_text m u sg).length < 1000 := by
      rw [verify_body_text_length]; omega
    refine ⟨by omega, ?_⟩
    have hd := fmt_d_length_small (verify_body_text m u sg).length hb
    have hpd := fmt_d_length_int cfg.controller_port hport
    rw [verify_request_text_length]
    omega
  constructor
  · obtain ⟨hb, hr⟩ := fits orig_method orig_uri sig hm hu ht hn hs
    exact ⟨hb, hr, controller_verify_codes w cfg orig_method orig_uri sig hb hr⟩
  · intro inp r rest path raw_query body hread hsign
    obtain ⟨_, C, mac, _, _, hmac, hsig⟩ :=
      portal_sign_v1_rc_zero w cfg.key_file r.orig_method path raw_query body ⟨[], [], []⟩ hsign
    rw [hsig]
    have h3 : (gen_timestamp w).length ≤ 31 := snprintf_length_le 32 _
    have h4 : (gen_nonce w).length ≤ 63 := snprintf_length_le 64 _
    have h5 : (EVP_EncodeBlock mac).length ≤ 127 := by
      rw [EVP_EncodeBlock_length]; omega
    obtain ⟨hb, hr⟩ := fits r.orig_method r.orig_uri
      ⟨gen_timestamp w, gen_nonce w, EVP_EncodeBlock mac⟩
      (read_request_method_length w inp r rest hread)
      (read_request_uri_length w inp r rest hread) h3 h4 h5
    exact controller_verify_codes w cfg _ _ _ hb hr

/-- C25, an instance: the request for GET /a?b=1 with the signature of the
examples has 177 bytes of body. -/
theorem controller_verify_fits_witness :
    (verify_body_text "GET".toList "/a?b=1".toList
        ⟨"1700000000".toList, "1700000000-1a2b3c4d00000005".toList,
          "baSm6hPVvg+JpqyNNIqKKFrNXR6D62xbnyxxHQAdO4Y=".toList⟩).length = 177 ∧
      (controller_verify (example_env []) example_cfg "GET".toList "/a?b=1".toList
        ⟨"1700000000".toList, "1700000000-1a2b3c4d00000005".toList,
          "baSm6hPVvg+JpqyNNIqKKFrNXR6D62xbnyxxHQAdO4Y=".toList⟩).1 ≠ -2 ∧
      (controller_verify (example_env []) example_cfg "GET".toList "/a?b=1".toList
        ⟨"1700000000".toList, "1700000000-1a2b3c4d00000005".toList,
          "baSm6hPVvg+JpqyNNIqKKFrNXR6D62xbnyxxHQAdO4Y=".toList⟩).1 ≠ -6 :=
  ⟨by decide!,
    (controller_verify_fits (example_env []) example_cfg "GET".toList "/a?b=1".toList
      ⟨"1700000000".toList, "1700000000-1a2b3c4d00000005".toList,
        "baSm6hPVvg+JpqyNNIqKKFrNXR6D62xbnyxxHQAdO4Y=".toList⟩
      (by decide) (by decide) (by decide) (by decide) (by decide) (by decide) (by decide)
      (by decide)).1.2.2⟩

/-! ## The configuration of the daemon -/

/-- The values of a configuration file override the defaults, line by line:
comments and unknown keys are skipped, white space around keys and values is
cut. -/
theorem config_file_overrides_defaults :
    reload_config (example_env []) [] = signer_config_defaults ∧
      reload_config (config_env
          "# local\nlisten.port = 8000\n key.file=/etc/portal/k2 \nunknown=1\n".toList) [] =
        ⟨"127.0.0.1".toList, 8000, "127.0.0.1".toList, 9090, "/portal/context/verify".toList,
          "/etc/portal/k2".toList⟩ := by
  decide

/-- The option `--key` of `signer_config_parse_args` overrides the key file of
the configuration it is given, for a value of fewer than 255 bytes. -/
theorem parse_args_key (beyond prog v : List Char) (cfg : signer_config_t)
    (hv : v.length < 255) :
    signer_config_parse_args beyond cfg [prog, "--key".toList, v] =
      some { cfg with key_file := v } := by
  have h1 : ¬ "--key".toList = "--listen".toList := by decide
  have h2 : ¬ "--key".toList = "--controller".toList := by decide
  have h3 : ¬ "--key".toList = "--controller-path".toList := by decide
  simp only [signer_config_parse_args, List.drop_succ_cons, List.drop_zero, parse_args_from, h1,
    h2, h3, if_false, if_true, strncpy, hv]

/-- C21: the configuration `main` runs with does not depend on the argument
vector. With a configuration file that holds `key.file = /etc/portal/k2` and
the arguments `portal-signer --key /tmp/k`, the daemon runs with the key file
of the configuration file, where the documented precedence gives `/tmp/k`. -/
theorem command_line_is_ignored :
    (main_config (config_env "key.file = /etc/portal/k2\n".toList) []
        ["portal-signer".toList, "--key".toList, "/tmp/k".toList]).key_file =
      "/etc/portal/k2".toList ∧
    (documented_config (config_env "key.file = /etc/portal/k2\n".toList) []
        ["portal-signer".toList, "--key".toList, "/tmp/k".toList]).map
        (fun cfg => cfg.key_file) = some "/tmp/k".toList ∧
    (∀ (w : Env) (beyond : List Char) (argv : List (List Char)),
      main_config w beyond argv = reload_config w beyond) := by
  refine ⟨by decide, by decide, fun w beyond argv => rfl⟩

/-! ## The sign endpoint: the fields it signs -/

theorem json_get_string_extracted (json key out v : List Char) (out_sz : Nat)
    (hsz : 0 < out_sz) (hkey : key.length ≤ 125) :
    extracted json key out_sz v ↔ json_get_string json key out out_sz = (0, v) := by
  have hlen : (QUOTE :: key ++ [QUOTE]).length = key.length + 2 := by simp
  have hcolon : json_ws (Char.ofNat 58) = false := by decide
  have hquote : json_ws QUOTE = false := by decide
  rcases json_get_string_cases json key out out_sz hsz hkey with
    ⟨hnone, hr⟩ | ⟨i, hfo, hno, hr⟩ | ⟨i, rest, hfo, hc, hno, hr⟩ | ⟨i, rest, t, hfo, hc, hq, hr⟩
  · rw [hr]
    constructor
    · rintro ⟨j, _, _, hj, _⟩
      have := strstr_none _ json hnone j
      rw [hj.1] at this
      exact absurd this (by decide)
    · intro h
      exact absurd (congrArg Prod.fst h) (by simp)
  · rw [hr]
    constructor
    · rintro ⟨j, rest, _, hj, hab, _⟩
      have hij := first_occurrence_unique _ _ _ _ hfo hj
      subst hij
      rw [← hlen] at hab
      exact absurd ((after_blanks_iff _ hcolon _ _).mp hab) (hno rest)
    · intro h
      exact absurd (congrArg Prod.fst h) (by simp)
  · rw [hr]
    constructor
    · rintro ⟨j, rest2, t, hj, hab, hab2, _⟩
      have hij := first_occurrence_unique _ _ _ _ hfo hj
      subst hij
      rw [← hlen] at hab
      have h1 := (after_blanks_iff _ hcolon _ _).mp hab
      rw [hc] at h1
      have h2 : rest = rest2 := (List.cons.inj h1).2
      subst h2
      exact absurd ((after_blanks_iff _ hquote _ _).mp hab2) (hno t)
    · intro h
      exact absurd (congrArg Prod.fst h) (by simp)
  · rw [hr, json_copy_eq out_sz t.length t [] (Nat.le_refl _)]
    simp only [List.nil_append, List.length_nil, Nat.sub_zero]
    constructor
    · rintro ⟨j, rest2, t2, hj, hab, hab2, hv⟩
      have hij := first_occurrence_unique _ _ _ _ hfo hj
      subst hij
      rw [← hlen] at hab
      have h1 := (after_blanks_iff _ hcolon _ _).mp hab
      rw [hc] at h1
      have h2 : rest = rest2 := (List.cons.inj h1).2
      subst h2
      have h3 := (after_blanks_iff _ hquote _ _).mp hab2
      rw [hq] at h3
      have h4 : t = t2 := (List.cons.inj h3).2
      subst h4
      rw [hv]
    · intro h
      refine ⟨i, rest, t, hfo, ?_, ?_, ?_⟩
      · rw [← hlen]
        exact (after_blanks_iff _ hcolon _ _).mpr hc
      · exact (after_blanks_iff _ hquote _ _).mpr hq
      · exact ((Prod.mk.inj h).2).symm

theorem json_optional_extracted (json key v : List Char) (out_sz : Nat)
    (hsz : 0 < out_sz) (hkey : key.length ≤ 125) (h : extracted_or_empty json key out_sz v) :
    json_optional json key out_sz = v := by
  unfold json_optional
  rcases h with h | ⟨hno, hv⟩
  · rw [(json_get_string_extracted json key [] v out_sz hsz hkey).mp h]
    simp
  · have hne : (json_get_string json key [] out_sz).1 ≠ 0 := by
      intro h0
      apply hno (json_get_string json key [] out_sz).2
      apply (json_get_string_extracted json key [] _ out_sz hsz hkey).mpr
      exact Prod.ext h0 rfl
    rw [if_pos hne, hv]

/-- C2 (amended): for a request `POST /sign` whose body is one in which the
flat extractor of the specification finds a value `m` for `method` and a value
`p` for `path`, with `q` and `b` the values it finds for `raw_query` and `body`
(each empty when there is none to find), with a key file whose first 4095
bytes trim to a non-empty key, and with allocation and the HMAC primitive
succeeding, the handler calls the signer on `m`, `p`, `q` and `b` and writes a
200 response whose body is exactly the object with `kid` v1 and the timestamp,
nonce and signature of that signing; the signature is not empty. -/
theorem sign_endpoint_ok (w : Env) (cfg : signer_config_t) (inp : List RdEv)
    (r : Request) (rest : List RdEv) (body content m p q b : List Char)
    (hread : read_request w inp = .request r rest)
    (hm : r.req_method = "POST".toList) (hp : r.req_path = "/sign".toList)
    (hb : r.body = some body)
    (hjm : extracted (cstr body) "method".toList 16 m)
    (hjp : extracted (cstr body) "path".toList 512 p)
    (hjq : extracted_or_empty (cstr body) "raw_query".toList 512 q)
    (hjb : extracted_or_empty (cstr body) "body".toList MAX_BODY b)
    (hopen : w.fopen cfg.key_file = some content) (hkey : trim (content.take 4095) ≠ [])
    (hmk : w.malloc_key = true) (hmc : w.malloc_canonical = true)
    (hmac : ∀ msg, ∃ mac, w.HMAC (trim (content.take 4095)) msg = some mac ∧ mac.length = 32) :
    ∃ sig json,
      portal_sign_v1_hmac_sha256_base64 w cfg.key_file m p (some q) (some b) ⟨[], [], []⟩ =
          (0, sig) ∧
        sig.signature ≠ [] ∧
        json = "\x7b\"kid\":\"v1\",\"timestamp\":\"".toList ++ sig.timestamp ++
          "\",\"nonce\":\"".toList ++ sig.nonce ++ "\",\"signature\":\"".toList ++
          sig.signature ++ "\"\x7d".toList ∧
        portal_signer_handle_client w cfg inp =
          some ⟨[Event.sign m p q b,
            Event.write
              ("HTTP/1.1 200 OK\r\nContent-Type: application/json\r\nContent-Length: ".toList ++
                fmt_d json.length ++ "\r\n\r\n".toList),
            Event.write json], rest⟩ := by
  have e1 := (json_get_string_extracted (cstr body) "method".toList [] m 16 (by decide)
    (by decide)).mp hjm
  have e2 := (json_get_string_extracted (cstr body) "path".toList [] p 512 (by decide)
    (by decide)).mp hjp
  have e3 := json_optional_extracted (cstr body) "raw_query".toList q 512 (by decide)
    (by decide) hjq
  have e4 := json_optional_extracted (cstr body) "body".toList b MAX_BODY (by decide)
    (by decide) hjb
  have h := sign_endpoint_reply w cfg inp r rest body content hread hm hp hb
    (by rw [e1]) (by rw [e2]) hopen hkey hmk hmc hmac
  rw [e1, e2, e3, e4] at h
  exact h

/-- C2, an instance with four non-empty fields: the sign request for POST /x
with query `a=1` and body `hello` makes the handler sign exactly these four
values, and is answered 200 with `kid` v1 and the signature. -/
theorem sign_endpoint_ok_witness :
    portal_signer_handle_client (example_env []) example_cfg
        (stream ("POST /sign HTTP/1.1\r\nContent-Length: 62\r\n\r\n".toList ++
          example_sign_body)) =
      some ⟨[Event.sign "POST".toList "/x".toList "a=1".toList "hello".toList,
        Event.write
          "HTTP/1.1 200 OK\r\nContent-Type: application/json\r\nContent-Length: 134\r\n\r\n".toList,
        Event.write ("\x7b\"kid\":\"v1\",\"timestamp\":\"1700000000\",".toList ++
          "\"nonce\":\"1700000000-1a2b3c4d00000005\",".toList ++
          "\"signature\":\"fOoUNKTAb4obbU2ThJIsdwJDq0rICvxMDjCCmEuHyfU=\"\x7d".toList)], []⟩ := by
  have hbody : cstr example_sign_body = example_sign_body := by decide!
  obtain ⟨sig, json, hs, _, hj, h⟩ := sign_endpoint_ok (example_env []) example_cfg
    (stream ("POST /sign HTTP/1.1\r\nContent-Length: 62\r\n\r\n".toList ++ example_sign_body))
    ⟨"POST".toList, "/sign".toList, [], [], some example_sign_body⟩
    [] example_sign_body "secret\n".toList "POST".toList "/x".toList "a=1".toList
    "hello".toList (by decide!) rfl rfl rfl
    ⟨1, example_sign_body.drop 10, example_sign_body.drop 11,
      by rw [hbody]; unfold first_occurrence; decide!,
      ⟨[], by rw [hbody]; decide!, by simp⟩, ⟨[], by decide!, by simp⟩, by decide!⟩
    ⟨17, example_sign_body.drop 24, example_sign_body.drop 25,
      by rw [hbody]; unfold first_occurrence; decide!,
      ⟨[], by rw [hbody]; decide!, by simp⟩, ⟨[], by decide!, by simp⟩, by decide!⟩
    (Or.inl ⟨29, example_sign_body.drop 41, example_sign_body.drop 42,
      by rw [hbody]; unfold first_occurrence; decide!,
      ⟨[], by rw [hbody]; decide!, by simp⟩, ⟨[], by decide!, by simp⟩, by decide!⟩)
    (Or.inl ⟨47, example_sign_body.drop 54, example_sign_body.drop 55,
      by rw [hbody]; unfold first_occurrence; decide!,
      ⟨[], by rw [hbody]; decide!, by simp⟩, ⟨[], by decide!, by simp⟩, by decide!⟩)
    (by decide!) (by decide!) rfl rfl
    (fun msg => ⟨hmac_sha256 "secret".toList msg, by
      have h : trim ("secret\n".toList.take 4095) = "secret".toList := by decide!
      rw [h]
      exact ⟨rfl, by simp [hmac_sha256, sha256, be_bytes]⟩⟩)
  have hsig : sig = ⟨"1700000000".toList, "1700000000-1a2b3c4d00000005".toList,
      "fOoUNKTAb4obbU2ThJIsdwJDq0rICvxMDjCCmEuHyfU=".toList⟩ := by
    have h2 : (0, sig) = ((0 : Int), (⟨"1700000000".toList,
        "1700000000-1a2b3c4d00000005".toList,
        "fOoUNKTAb4obbU2ThJIsdwJDq0rICvxMDjCCmEuHyfU=".toList⟩ : portal_sig_t)) :=
      hs.symm.trans (by decide!)
    exact (Prod.mk.inj h2).2
  rw [h, hj, hsig]
  decide!

end PortalSigner
